import Mathlib

/-! A shallow embedding of the toy-language scanner and recognizer.

The repository has two translation units, `lexical_analyzer.cpp` (the scanner and a
driver that prints tokens) and `syntax_analyzer.cpp` (the same scanner text, one more
keyword, and the recursive-descent `Parser`).  Both are embedded here.

Conventions of the embedding.

* A `char` is a `Char`, a `std::string` a `List Char`, a `std::vector` a `List`.
* `enum class TokenType` is its underlying integer, wrapped in a structure: the
  source casts integers to the enumeration, and compares enumerators with `<=`.
* `std::ifstream` is a zipper over the file contents together with the `eofbit`,
  `failbit` and `badbit` of the stream; `get` and `unget` follow the standard library
  (a `get` on a stream that is not `good()` sets `failbit` and stores nothing; `unget`
  first clears `eofbit` and then does nothing but set `failbit` when the stream is not
  `good()`).
* Global variables (`IdentifierTable`, `StringTable`, `Identifier::s_idCount`, the
  function-local static `currentLine`) are the fields of `Globals`, passed explicitly.
* `Scanner::m_character` has no initialiser: a fresh scanner is created with an
  arbitrary character in it, a parameter of `Scanner.open`.
* `for(;;)` and the `while` loops of the parser take a fuel argument; `Outcome.timeout`
  is the answer of a run that used the fuel up.
-/

namespace Toy

/-! ## Outcomes -/

/-- What the source throws: a bare `char` (`throw m_character`) or a
`std::runtime_error` with its message. -/
inductive Exception where
  | character (c : Char)
  | runtime_error (what : String)
deriving DecidableEq, Repr

/-- Result of running a piece of the program with a fuel bound. -/
inductive Outcome (α : Type) where
  | ret (a : α)
  | raise (e : Exception)
  | timeout
deriving DecidableEq, Repr

/-- Sequencing: an exception or a timeout of the first part ends the run. -/
def Outcome.bind {α β : Type} (x : Outcome α) (f : α → Outcome β) : Outcome β :=
  match x with
  | .ret a => f a
  | .raise e => .raise e
  | .timeout => .timeout

instance : Monad Outcome where
  pure := Outcome.ret
  bind := Outcome.bind

/-! ## Token kinds -/

/-- The underlying integer of an `enum class TokenType` value. -/
structure TokenType where
  toInt : Nat
deriving DecidableEq, Repr

/-! Enumerators of `TokenType` in `syntax_analyzer.cpp`. -/
namespace TokenType
def NULL_TOKEN : TokenType := ⟨0⟩
def INT : TokenType := ⟨1⟩
def STRING : TokenType := ⟨2⟩
def BOOL : TokenType := ⟨3⟩
def GOTO : TokenType := ⟨4⟩
def LABEL : TokenType := ⟨5⟩
def IF : TokenType := ⟨6⟩
def ELSE : TokenType := ⟨7⟩
def READ : TokenType := ⟨8⟩
def WRITE : TokenType := ⟨9⟩
def WHILE : TokenType := ⟨10⟩
def AND : TokenType := ⟨11⟩
def OR : TokenType := ⟨12⟩
def NOT : TokenType := ⟨13⟩
def START : TokenType := ⟨14⟩
def FINAL : TokenType := ⟨15⟩
def SEMICOLON : TokenType := ⟨16⟩
def COLON : TokenType := ⟨17⟩
def POINT : TokenType := ⟨18⟩
def COMMA : TokenType := ⟨19⟩
def ASSIGN : TokenType := ⟨20⟩
def EQUAL : TokenType := ⟨21⟩
def LESS : TokenType := ⟨22⟩
def GREATER : TokenType := ⟨23⟩
def NEQ : TokenType := ⟨24⟩
def LEQ : TokenType := ⟨25⟩
def GEQ : TokenType := ⟨26⟩
def LEFT_BRACKET : TokenType := ⟨27⟩
def RIGHT_BRACKET : TokenType := ⟨28⟩
def BEGIN : TokenType := ⟨29⟩
def END : TokenType := ⟨30⟩
def PLUS : TokenType := ⟨31⟩
def MINUS : TokenType := ⟨32⟩
def MULTIPLY : TokenType := ⟨33⟩
def DIVIDE : TokenType := ⟨34⟩
def NUMBER : TokenType := ⟨35⟩
def IDENTIFIER : TokenType := ⟨36⟩
def STRING_CONST : TokenType := ⟨37⟩
def POLIZ_LABEL : TokenType := ⟨38⟩
def POLIZ_ADDRESS : TokenType := ⟨39⟩
def POLIZ_GO : TokenType := ⟨40⟩
def POLIZ_FGO : TokenType := ⟨41⟩
end TokenType

/-! Enumerators of `TokenType` in `lexical_analyzer.cpp`: there is no `WHILE`, so
every enumerator from `AND` on is one less than in `syntax_analyzer.cpp`. -/
namespace LexicalAnalyzer.TokenType
def NULL_TOKEN : TokenType := ⟨0⟩
def INT : TokenType := ⟨1⟩
def STRING : TokenType := ⟨2⟩
def BOOL : TokenType := ⟨3⟩
def GOTO : TokenType := ⟨4⟩
def LABEL : TokenType := ⟨5⟩
def IF : TokenType := ⟨6⟩
def ELSE : TokenType := ⟨7⟩
def READ : TokenType := ⟨8⟩
def WRITE : TokenType := ⟨9⟩
def AND : TokenType := ⟨10⟩
def OR : TokenType := ⟨11⟩
def NOT : TokenType := ⟨12⟩
def START : TokenType := ⟨13⟩
def FINAL : TokenType := ⟨14⟩
def SEMICOLON : TokenType := ⟨15⟩
def COLON : TokenType := ⟨16⟩
def POINT : TokenType := ⟨17⟩
def COMMA : TokenType := ⟨18⟩
def ASSIGN : TokenType := ⟨19⟩
def EQUAL : TokenType := ⟨20⟩
def LESS : TokenType := ⟨21⟩
def GREATER : TokenType := ⟨22⟩
def NEQ : TokenType := ⟨23⟩
def LEQ : TokenType := ⟨24⟩
def GEQ : TokenType := ⟨25⟩
def LEFT_BRACKET : TokenType := ⟨26⟩
def RIGHT_BRACKET : TokenType := ⟨27⟩
def BEGIN : TokenType := ⟨28⟩
def END : TokenType := ⟨29⟩
def PLUS : TokenType := ⟨30⟩
def MINUS : TokenType := ⟨31⟩
def MULTIPLY : TokenType := ⟨32⟩
def DIVIDE : TokenType := ⟨33⟩
def NUMBER : TokenType := ⟨34⟩
def IDENTIFIER : TokenType := ⟨35⟩
def STRING_CONST : TokenType := ⟨36⟩
def POLIZ_LABEL : TokenType := ⟨37⟩
def POLIZ_ADDRESS : TokenType := ⟨38⟩
def POLIZ_GO : TokenType := ⟨39⟩
def POLIZ_FGO : TokenType := ⟨40⟩
end LexicalAnalyzer.TokenType

/-! ## Identifiers, tokens and the global tables -/

/-- The class `Identifier`.  `m_tokenType` and `m_value` are not initialised by either
constructor; `none` stands for "never written". -/
structure Identifier where
  m_name : List Char
  m_tokenType : Option TokenType
  m_declare : Bool
  m_assign : Bool
  m_value : Option Int
  m_idNumber : Nat
deriving DecidableEq, Repr

/-- The class `Token`: `Token(a_tokenType = NULL_TOKEN, a_value = 0)`. -/
structure Token where
  m_tokenType : TokenType := TokenType.NULL_TOKEN
  m_value : Int := 0
deriving DecidableEq, Repr

/-- Accessor `Token::getType`. -/
def Token.getType (t : Token) : TokenType := t.m_tokenType

/-- Accessor `Token::getValue`. -/
def Token.getValue (t : Token) : Int := t.m_value

/-- Accessor `Identifier::getID`. -/
def Identifier.getID (i : Identifier) : Nat := i.m_idNumber

/-- Accessor `Identifier::getName`. -/
def Identifier.getName (i : Identifier) : List Char := i.m_name

/-- Accessor `Identifier::isDeclared`. -/
def Identifier.isDeclared (i : Identifier) : Bool := i.m_declare

/-- Accessor `Identifier::isAssigned`. -/
def Identifier.isAssigned (i : Identifier) : Bool := i.m_assign

/-- The global variables of a translation unit. -/
structure Globals where
  IdentifierTable : List Identifier
  StringTable : List (List Char)
  s_idCount : Nat
  currentLine : Int
deriving DecidableEq, Repr

/-- The globals at program start: both vectors empty, `s_idCount{}` zero,
`currentLine{1}`. -/
def Globals.start : Globals :=
  { IdentifierTable := [], StringTable := [], s_idCount := 0, currentLine := 1 }

/-- The constructor `Identifier(const std::string&)`: takes the next sequential id from
`s_idCount` and increments the counter. -/
def Identifier.make (a_name : List Char) (s_idCount : Nat) : Identifier × Nat :=
  ({ m_name := a_name, m_tokenType := none, m_declare := false, m_assign := false,
     m_value := none, m_idNumber := s_idCount }, s_idCount + 1)

/-- The call `std::find(first, last, buffer)` over identifiers, with
`Identifier::operator==(const std::string&)` comparing `m_name`: the distance from
`first` of the first match, or of `last` when there is none. -/
def find : List Identifier → List Char → Nat
  | [], _ => 0
  | i :: rest, buffer => if i.m_name = buffer then 0 else find rest buffer + 1

/-- The function `addToIT`: the position of the first entry named `buffer`, or, when
there is none, append `Identifier(buffer)` and return `size() - 1`. -/
def addToIT (buffer : List Char) (g : Globals) : Int × Globals :=
  let iteratorID := find g.IdentifierTable buffer
  if iteratorID ≠ g.IdentifierTable.length then
    ((iteratorID : Int), g)
  else
    let made := Identifier.make buffer g.s_idCount
    let table := g.IdentifierTable ++ [made.1]
    (((table.length : Int) - 1), { g with IdentifierTable := table, s_idCount := made.2 })

/-! ## The input stream -/

/-- The member `m_file`, a `std::ifstream` that was opened successfully: the
characters already extracted (most recent first), those still to come, and the state
bits of the stream. -/
structure ifstream where
  extracted : List Char
  remaining : List Char
  eofbit : Bool
  failbit : Bool
  badbit : Bool
deriving DecidableEq, Repr

/-- A stream just opened on a file with the given contents. -/
def ifstream.opened (contents : List Char) : ifstream :=
  { extracted := [], remaining := contents, eofbit := false, failbit := false,
    badbit := false }

/-- The test `good()`: no state bit is set. -/
def ifstream.good (f : ifstream) : Bool := !f.eofbit && !f.failbit && !f.badbit

/-- The test `eof()`. -/
def ifstream.eof (f : ifstream) : Bool := f.eofbit

/-- The call `get(ch)`: on a good stream with a character left, extract it and store it
in `ch`; on a good stream at end of file set `eofbit` and `failbit`; on a stream that
is not good set `failbit`.  In the last two cases `ch` keeps its value. -/
def ifstream.get (f : ifstream) (ch : Char) : ifstream × Char :=
  if f.good then
    match f.remaining with
    | c :: rest => ({ f with extracted := c :: f.extracted, remaining := rest }, c)
    | [] => ({ f with eofbit := true, failbit := true }, ch)
  else
    ({ f with failbit := true }, ch)

/-- The call `unget()`: clear `eofbit`; then, if the stream is good, step back one
character (`badbit` if there is none), and otherwise set `failbit`. -/
def ifstream.unget (f : ifstream) : ifstream :=
  let f := { f with eofbit := false }
  if f.good then
    match f.extracted with
    | c :: before => { f with extracted := before, remaining := c :: f.remaining }
    | [] => { f with badbit := true }
  else
    { f with failbit := true }

/-! ## Character classes of the C locale -/

/-- The C function `isspace`: space, `\t`, `\n`, `\v`, `\f`, `\r`. -/
def isspace (c : Char) : Bool := c.toNat = 32 || (9 ≤ c.toNat && c.toNat ≤ 13)

/-- The C function `isalpha`: the 52 ASCII letters. -/
def isalpha (c : Char) : Bool :=
  (65 ≤ c.toNat && c.toNat ≤ 90) || (97 ≤ c.toNat && c.toNat ≤ 122)

/-- The C function `isdigit`. -/
def isdigit (c : Char) : Bool := 48 ≤ c.toNat && c.toNat ≤ 57

/-! ## The scanner -/

/-- The data members of `Scanner`. -/
structure Scanner where
  m_file : ifstream
  m_character : Char
deriving DecidableEq, Repr

/-- A scanner constructed on a file that opens: `m_character` is not initialised by
the constructor, so it holds whatever `garbage` was in that byte. -/
def Scanner.open (contents : List Char) (garbage : Char) : Scanner :=
  { m_file := ifstream.opened contents, m_character := garbage }

/-- The member function `getCharacter`. -/
def Scanner.getCharacter (s : Scanner) : Scanner :=
  let r := s.m_file.get s.m_character
  { m_file := r.1, m_character := r.2 }

/-- The loop of `tableLookup`, from index `i` on, over the entries not yet visited. -/
def tableLookupFrom (a_buffer : List Char) : List (List Char) → Nat → Nat → Nat
  | _, _, 0 => 0
  | [], _, _ + 1 => 0
  | entry :: rest, i, left + 1 =>
    if a_buffer = entry then i else tableLookupFrom a_buffer rest (i + 1) left

/-- The member function `tableLookup`: the first index below `a_size` whose entry
equals the buffer, and 0 when there is none. -/
def tableLookup (a_buffer : List Char) (a_table : List (List Char)) (a_size : Nat) : Nat :=
  tableLookupFrom a_buffer a_table 0 a_size

/-- The array `Scanner::delimiterTable` (the same in both translation units). -/
def delimiterTable : List (List Char) :=
  ["@", ";", ":", ".", ",", "=", "==", "<", ">", "!=", "<=", ">=", "(", ")",
   "\x7b", "\x7d", "+", "-", "*", "/"].map String.toList

/-- The constant `delimiterAmount`. -/
def delimiterAmount : Nat := 20

/-- What differs between the two translation units in the text of
`Scanner::getToken`: the keyword table with its size, and the values of the
enumerators the function names. -/
structure TranslationUnit where
  serviceWordTable : List (List Char)
  serviceWordAmount : Nat
  FINAL : TokenType
  NEQ : TokenType
  NUMBER : TokenType
  IDENTIFIER : TokenType
  STRING_CONST : TokenType
deriving DecidableEq, Repr

/-- The translation unit `syntax_analyzer.cpp`. -/
def SyntaxAnalyzer : TranslationUnit :=
  { serviceWordTable :=
      ["not_indexed", "int", "string", "bool", "goto", "label", "if", "else", "read",
       "write", "while", "and", "or", "not", "program"].map String.toList
    serviceWordAmount := 15
    FINAL := TokenType.FINAL
    NEQ := TokenType.NEQ
    NUMBER := TokenType.NUMBER
    IDENTIFIER := TokenType.IDENTIFIER
    STRING_CONST := TokenType.STRING_CONST }

/-- The translation unit `lexical_analyzer.cpp`. -/
def LexicalAnalyzer : TranslationUnit :=
  { serviceWordTable :=
      ["not_indexed", "int", "string", "bool", "goto", "label", "if", "else", "read",
       "write", "and", "or", "not", "program"].map String.toList
    serviceWordAmount := 14
    FINAL := LexicalAnalyzer.TokenType.FINAL
    NEQ := LexicalAnalyzer.TokenType.NEQ
    NUMBER := LexicalAnalyzer.TokenType.NUMBER
    IDENTIFIER := LexicalAnalyzer.TokenType.IDENTIFIER
    STRING_CONST := LexicalAnalyzer.TokenType.STRING_CONST }

/-- The local `enum class State` of `getToken`. -/
inductive State where
  | INITIALIZATION
  | IDENTIFIER
  | NUMBER
  | STRING
  | COMMENT
  | LESS_GREATER
  | NOT_EQUAL
  | DELIMITER
deriving DecidableEq, Repr

/-- The automatic variables of `getToken` that live across iterations of its loop
(`inTableNumber` is always written before it is read within one iteration). -/
structure Locals where
  currentState : State
  symbolBuffer : List Char
  numberBuffer : Int
deriving DecidableEq, Repr

/-- The value a 32-bit `int` holds after an arithmetic result `z` (two's complement
wrap-around, which is what the target machine does on signed overflow). -/
def wrapInt (z : Int) : Int := (z + 2147483648) % 4294967296 - 2147483648

/-- The digit value `m_character - '0'`. -/
def digitValue (c : Char) : Int := (c.toNat : Int) - 48

/-- The statement `currentLine += (m_character == '\n')`. -/
def Globals.countLine (g : Globals) (c : Char) : Globals :=
  { g with currentLine := wrapInt (g.currentLine + (if c = '\n' then 1 else 0)) }

/-- The statement `numberBuffer = numberBuffer * 10 + (m_character - '0')`. -/
def Locals.addDigit (l : Locals) (c : Char) : Locals :=
  { l with numberBuffer := wrapInt (l.numberBuffer * 10 + digitValue c) }

/-- One pass through the body of `for(;;)`. -/
inductive Pass where
  | again (l : Locals) (s : Scanner) (g : Globals)
  | token (t : Token) (s : Scanner) (g : Globals)
  | thrown (e : Exception)
deriving DecidableEq, Repr

/-- The statements under `case State::LESS_GREATER:`, which the `STRING` case falls
through to. -/
def lessGreater (U : TranslationUnit) (isAssign : Bool) (symbolBuffer : List Char) (s : Scanner)
    (g : Globals) : Pass :=
  if isAssign then
    let symbolBuffer := symbolBuffer ++ [s.m_character]
    let inTableNumber := tableLookup symbolBuffer delimiterTable delimiterAmount
    .token ⟨⟨inTableNumber + U.FINAL.toInt⟩, inTableNumber⟩ s g
  else
    let s := { s with m_file := s.m_file.unget }
    let inTableNumber := tableLookup symbolBuffer delimiterTable delimiterAmount
    .token ⟨⟨inTableNumber + U.FINAL.toInt⟩, inTableNumber⟩ s g

/-- The body of `for(;;)` in `Scanner::getToken`: the three flags are computed from
`m_character` as it is before `getCharacter()` runs, then the `switch` is executed. -/
def getTokenPass (U : TranslationUnit) (l : Locals) (s : Scanner) (g : Globals) : Pass :=
  let isComment := s.m_character == '@'
  let isAssign := s.m_character == '='
  let isString := s.m_character == '"'
  let s := s.getCharacter
  match l.currentState with
  | .INITIALIZATION =>
    let l := { l with symbolBuffer := [], numberBuffer := 0 }
    if s.m_file.eof then
      .token ⟨U.FINAL, 0⟩ s g
    else if isspace s.m_character then
      .again l s (g.countLine s.m_character)
    else if isalpha s.m_character then
      .again { l with symbolBuffer := l.symbolBuffer ++ [s.m_character],
                      currentState := .IDENTIFIER } s g
    else if isdigit s.m_character then
      .again { l with numberBuffer := digitValue s.m_character,
                      currentState := .NUMBER } s g
    else if isComment then
      .again { l with currentState := .COMMENT } s g
    else if isString then
      .again { l with currentState := .STRING } s g
    else if s.m_character = ':' || s.m_character = '<' || s.m_character = '>' then
      .again { l with symbolBuffer := l.symbolBuffer ++ [s.m_character],
                      currentState := .LESS_GREATER } s g
    else if s.m_character = '!' then
      .again { l with symbolBuffer := l.symbolBuffer ++ [s.m_character],
                      currentState := .NOT_EQUAL } s g
    else
      let symbolBuffer := l.symbolBuffer ++ [s.m_character]
      let inTableNumber := tableLookup symbolBuffer delimiterTable delimiterAmount
      if inTableNumber ≠ 0 then
        .token ⟨⟨inTableNumber + U.FINAL.toInt⟩, inTableNumber⟩ s g
      else
        .thrown (.character s.m_character)
  | .IDENTIFIER =>
    if isalpha s.m_character || isdigit s.m_character then
      .again { l with symbolBuffer := l.symbolBuffer ++ [s.m_character] } s g
    else
      let s := { s with m_file := s.m_file.unget }
      let inTableNumber := tableLookup l.symbolBuffer U.serviceWordTable U.serviceWordAmount
      if inTableNumber ≠ 0 then
        .token ⟨⟨inTableNumber⟩, inTableNumber⟩ s g
      else
        let r := addToIT l.symbolBuffer g
        .token ⟨U.IDENTIFIER, r.1⟩ s r.2
  | .NUMBER =>
    if isdigit s.m_character then
      .again (l.addDigit s.m_character) s g
    else
      let s := { s with m_file := s.m_file.unget }
      .token ⟨U.NUMBER, l.numberBuffer⟩ s g
  | .COMMENT =>
    if isComment then
      .again { l with currentState := .INITIALIZATION } s g
    else if s.m_file.eof then
      .thrown (.runtime_error "[Scanner::getToken]: eof in the middle of comment!")
    else
      .again l s (g.countLine s.m_character)
  | .STRING =>
    if isString then
      let table := g.StringTable ++ [l.symbolBuffer]
      .token ⟨U.STRING_CONST, (table.length : Int) - 1⟩ s { g with StringTable := table }
    else
      lessGreater U isAssign (l.symbolBuffer ++ [s.m_character]) s g
  | .LESS_GREATER =>
    lessGreater U isAssign l.symbolBuffer s g
  | .NOT_EQUAL =>
    if isAssign then
      let symbolBuffer := l.symbolBuffer ++ [s.m_character]
      let inTableNumber := tableLookup symbolBuffer delimiterTable delimiterAmount
      .token ⟨U.NEQ, inTableNumber⟩ s g
    else
      .thrown (.runtime_error "[Scanner::getToken]: unexpected symbol '!'.")
  | .DELIMITER =>
    .again l s g

/-- The loop `for(;;)` of `getToken`, cut off after `fuel` passes. -/
def getTokenLoop (U : TranslationUnit) : Nat → Locals → Scanner → Globals →
    Outcome (Token × Scanner × Globals)
  | 0, _, _, _ => .timeout
  | fuel + 1, l, s, g =>
    match getTokenPass U l s g with
    | .again l s g => getTokenLoop U fuel l s g
    | .token t s g => .ret (t, s, g)
    | .thrown e => .raise e

/-- The member function `Scanner::getToken`: `currentState = INITIALIZATION`, empty
`symbolBuffer`, zero `numberBuffer`, then the loop. -/
def Scanner.getToken (U : TranslationUnit) (fuel : Nat) (s : Scanner) (g : Globals) :
    Outcome (Token × Scanner × Globals) :=
  getTokenLoop U fuel { currentState := .INITIALIZATION, symbolBuffer := [],
                        numberBuffer := 0 } s g

/-! ## The parser of `syntax_analyzer.cpp` -/

/-- The data members of `Parser`. -/
structure Parser where
  m_token : Token
  m_tokenType : TokenType
  m_value : Int
  m_scanner : Scanner
deriving DecidableEq, Repr

/-- The constructor `Parser(const char*)` on a file that opens.  `m_token` is
default-constructed; `m_tokenType` and `m_value` are not initialised and are written by
the first `getToken()` before anything reads them, so they are given the values of the
default token here. -/
def Parser.make (contents : List Char) (garbage : Char) : Parser :=
  { m_token := {}, m_tokenType := TokenType.NULL_TOKEN, m_value := 0,
    m_scanner := Scanner.open contents garbage }

/-- The member function `Parser::getToken()`. -/
def Parser.getToken (fuel : Nat) (p : Parser) (g : Globals) : Outcome (Parser × Globals) :=
  match p.m_scanner.getToken SyntaxAnalyzer fuel g with
  | .ret (t, s, g) =>
    .ret ({ m_token := t, m_tokenType := t.getType, m_value := t.getValue, m_scanner := s }, g)
  | .raise e => .raise e
  | .timeout => .timeout

/-- The member function `Parser::checkToken`. -/
def Parser.checkToken (a_expectedType : TokenType) (p : Parser) (g : Globals) :
    Outcome (Parser × Globals) :=
  if p.m_tokenType ≠ a_expectedType then
    .raise (.runtime_error "[Parser]: invalid type of token!")
  else
    .ret (p, g)

/-- The overload `Parser::getToken(TokenType)`. -/
def Parser.getTokenExpect (a_expectedType : TokenType) (fuel : Nat) (p : Parser)
    (g : Globals) : Outcome (Parser × Globals) := do
  let (p, g) ← p.getToken fuel g
  p.checkToken a_expectedType g

/-- The member function `Parser::constant`. -/
def Parser.constant (fuel : Nat) (p : Parser) (g : Globals) : Outcome (Parser × Globals) :=
  let isAddSubtraction : Bool :=
    p.m_tokenType = TokenType.MINUS || p.m_tokenType = TokenType.PLUS
  let isConst : Bool :=
    p.m_tokenType = TokenType.NUMBER && p.m_tokenType = TokenType.STRING_CONST
  if isAddSubtraction then do
    let (p, g) ← p.getToken fuel g
    if p.m_tokenType ≠ TokenType.NUMBER then
      .raise (.runtime_error "[Parser]: expected number!")
    else
      .ret (p, g)
  else if !isConst then
    .raise (.runtime_error "[Parser]: expected constant!")
  else
    .ret (p, g)

/-- The member function `Parser::value`. -/
def Parser.value (fuel : Nat) (p : Parser) (g : Globals) : Outcome (Parser × Globals) :=
  if p.m_tokenType = TokenType.IDENTIFIER then
    p.getToken fuel g
  else do
    let (p, g) ← p.constant fuel g
    p.getToken fuel g

/-- The first loop of `multiplierOperand`: `while (m_tokenType == NOT) getToken();`. -/
def Parser.multiplierOperandNot : Nat → Parser → Globals → Outcome (Parser × Globals)
  | 0, _, _ => .timeout
  | fuel + 1, p, g =>
    if p.m_tokenType = TokenType.NOT then do
      let (p, g) ← p.getToken fuel g
      Parser.multiplierOperandNot fuel p g
    else
      .ret (p, g)

/-- The second loop of `multiplierOperand`:
`while (m_tokenType == PLUS || m_tokenType == MINUS) getToken();`. -/
def Parser.multiplierOperandSign : Nat → Parser → Globals → Outcome (Parser × Globals)
  | 0, _, _ => .timeout
  | fuel + 1, p, g =>
    if p.m_tokenType = TokenType.PLUS || p.m_tokenType = TokenType.MINUS then do
      let (p, g) ← p.getToken fuel g
      Parser.multiplierOperandSign fuel p g
    else
      .ret (p, g)

mutual

/-- The member function `Parser::multiplierOperand`. -/
def Parser.multiplierOperand : Nat → Parser → Globals → Outcome (Parser × Globals)
  | 0, _, _ => .timeout
  | fuel + 1, p, g => do
    let (p, g) ← Parser.multiplierOperandNot fuel p g
    let (p, g) ← Parser.multiplierOperandSign fuel p g
    if p.m_tokenType = TokenType.LEFT_BRACKET then do
      let (p, g) ← p.getToken fuel g
      let (p, g) ← Parser.expression fuel p g
      let (p, g) ← p.checkToken TokenType.RIGHT_BRACKET g
      p.getToken fuel g
    else
      p.value fuel g

/-- The loop of `termOperand`. -/
def Parser.termOperandWhile : Nat → Parser → Globals → Outcome (Parser × Globals)
  | 0, _, _ => .timeout
  | fuel + 1, p, g =>
    if p.m_tokenType = TokenType.MULTIPLY || p.m_tokenType = TokenType.DIVIDE then do
      let (p, g) ← p.getToken fuel g
      let (p, g) ← Parser.multiplierOperand fuel p g
      Parser.termOperandWhile fuel p g
    else
      .ret (p, g)

/-- The member function `Parser::termOperand`. -/
def Parser.termOperand : Nat → Parser → Globals → Outcome (Parser × Globals)
  | 0, _, _ => .timeout
  | fuel + 1, p, g => do
    let (p, g) ← Parser.multiplierOperand fuel p g
    Parser.termOperandWhile fuel p g

/-- The loop of `compareOperand`. -/
def Parser.compareOperandWhile : Nat → Parser → Globals → Outcome (Parser × Globals)
  | 0, _, _ => .timeout
  | fuel + 1, p, g =>
    if p.m_tokenType = TokenType.PLUS || p.m_tokenType = TokenType.MINUS then do
      let (p, g) ← p.getToken fuel g
      let (p, g) ← Parser.termOperand fuel p g
      Parser.compareOperandWhile fuel p g
    else
      .ret (p, g)

/-- The member function `Parser::compareOperand`. -/
def Parser.compareOperand : Nat → Parser → Globals → Outcome (Parser × Globals)
  | 0, _, _ => .timeout
  | fuel + 1, p, g => do
    let (p, g) ← Parser.termOperand fuel p g
    Parser.compareOperandWhile fuel p g

/-- The member function `Parser::andOperand`. -/
def Parser.andOperand : Nat → Parser → Globals → Outcome (Parser × Globals)
  | 0, _, _ => .timeout
  | fuel + 1, p, g => do
    let (p, g) ← Parser.compareOperand fuel p g
    let isCompareOperand : Bool :=
      p.m_tokenType.toInt ≥ TokenType.EQUAL.toInt && p.m_tokenType.toInt ≤ TokenType.GEQ.toInt
    if isCompareOperand then do
      let (p, g) ← p.getToken fuel g
      Parser.compareOperand fuel p g
    else
      .ret (p, g)

/-- The loop of `orOperand`. -/
def Parser.orOperandWhile : Nat → Parser → Globals → Outcome (Parser × Globals)
  | 0, _, _ => .timeout
  | fuel + 1, p, g =>
    if p.m_tokenType = TokenType.AND then do
      let (p, g) ← p.getToken fuel g
      let (p, g) ← Parser.andOperand fuel p g
      Parser.orOperandWhile fuel p g
    else
      .ret (p, g)

/-- The member function `Parser::orOperand`. -/
def Parser.orOperand : Nat → Parser → Globals → Outcome (Parser × Globals)
  | 0, _, _ => .timeout
  | fuel + 1, p, g => do
    let (p, g) ← Parser.andOperand fuel p g
    Parser.orOperandWhile fuel p g

/-- The loop of `assignOperand`. -/
def Parser.assignOperandWhile : Nat → Parser → Globals → Outcome (Parser × Globals)
  | 0, _, _ => .timeout
  | fuel + 1, p, g =>
    if p.m_tokenType = TokenType.OR then do
      let (p, g) ← p.getToken fuel g
      let (p, g) ← Parser.orOperand fuel p g
      Parser.assignOperandWhile fuel p g
    else
      .ret (p, g)

/-- The member function `Parser::assignOperand`. -/
def Parser.assignOperand : Nat → Parser → Globals → Outcome (Parser × Globals)
  | 0, _, _ => .timeout
  | fuel + 1, p, g => do
    let (p, g) ← Parser.orOperand fuel p g
    Parser.assignOperandWhile fuel p g

/-- The loop of `expression`. -/
def Parser.expressionWhile : Nat → Parser → Globals → Outcome (Parser × Globals)
  | 0, _, _ => .timeout
  | fuel + 1, p, g =>
    if p.m_tokenType = TokenType.ASSIGN then do
      let (p, g) ← p.getToken fuel g
      let (p, g) ← Parser.assignOperand fuel p g
      Parser.expressionWhile fuel p g
    else
      .ret (p, g)

/-- The member function `Parser::expression`. -/
def Parser.expression : Nat → Parser → Globals → Outcome (Parser × Globals)
  | 0, _, _ => .timeout
  | fuel + 1, p, g => do
    let (p, g) ← Parser.assignOperand fuel p g
    Parser.expressionWhile fuel p g

end

/-- The `do ... while (m_tokenType == COMMA)` loop of the `WRITE` statement. -/
def Parser.statementWriteDo : Nat → Parser → Globals → Outcome (Parser × Globals)
  | 0, _, _ => .timeout
  | fuel + 1, p, g => do
    let (p, g) ← p.getToken fuel g
    let (p, g) ← Parser.expression fuel p g
    if p.m_tokenType = TokenType.COMMA then
      Parser.statementWriteDo fuel p g
    else
      .ret (p, g)

mutual

/-- The member function `Parser::statement`. -/
def Parser.statement : Nat → Parser → Globals → Outcome (Parser × Globals)
  | 0, _, _ => .timeout
  | fuel + 1, p, g =>
    if p.m_tokenType = TokenType.READ then do
      let (p, g) ← p.getTokenExpect TokenType.LEFT_BRACKET fuel g
      let (p, g) ← p.getTokenExpect TokenType.IDENTIFIER fuel g
      let (p, g) ← p.getTokenExpect TokenType.RIGHT_BRACKET fuel g
      p.getTokenExpect TokenType.SEMICOLON fuel g
    else if p.m_tokenType = TokenType.WRITE then do
      let (p, g) ← p.getTokenExpect TokenType.LEFT_BRACKET fuel g
      let (p, g) ← Parser.statementWriteDo fuel p g
      let (p, g) ← p.checkToken TokenType.RIGHT_BRACKET g
      p.getTokenExpect TokenType.SEMICOLON fuel g
    else if p.m_tokenType = TokenType.WHILE then do
      let (p, g) ← p.getTokenExpect TokenType.LEFT_BRACKET fuel g
      let (p, g) ← p.getToken fuel g
      let (p, g) ← Parser.expression fuel p g
      let (p, g) ← p.checkToken TokenType.RIGHT_BRACKET g
      let (p, g) ← p.getToken fuel g
      Parser.statement fuel p g
    else if p.m_tokenType = TokenType.IF then do
      let (p, g) ← p.getTokenExpect TokenType.LEFT_BRACKET fuel g
      let (p, g) ← p.getToken fuel g
      let (p, g) ← Parser.expression fuel p g
      let (p, g) ← p.checkToken TokenType.RIGHT_BRACKET g
      let (p, g) ← p.getToken fuel g
      let (p, g) ← Parser.statement fuel p g
      let (p, g) ← p.getTokenExpect TokenType.ELSE fuel g
      let (p, g) ← p.getToken fuel g
      Parser.statement fuel p g
    else if p.m_tokenType = TokenType.LABEL then
      p.getTokenExpect TokenType.COLON fuel g
    else if p.m_tokenType = TokenType.GOTO then do
      let (p, g) ← p.getTokenExpect TokenType.LABEL fuel g
      p.getTokenExpect TokenType.SEMICOLON fuel g
    else if p.m_tokenType = TokenType.BEGIN then do
      let (p, g) ← p.getToken fuel g
      Parser.statements fuel p g
    else do
      let (p, g) ← Parser.expression fuel p g
      p.checkToken TokenType.SEMICOLON g

/-- The member function `Parser::statements`. -/
def Parser.statements : Nat → Parser → Globals → Outcome (Parser × Globals)
  | 0, _, _ => .timeout
  | fuel + 1, p, g =>
    if p.m_tokenType ≠ TokenType.END then do
      let (p, g) ← Parser.statement fuel p g
      let (p, g) ← p.getToken fuel g
      Parser.statements fuel p g
    else
      .ret (p, g)

end

/-- The `do ... while (m_tokenType == COMMA)` loop of `declarations`: one pass reads a
declared identifier, the token after it and, after `ASSIGN`, a constant. -/
def Parser.declarationsDo : Nat → Parser → Globals → Outcome (Parser × Globals)
  | 0, _, _ => .timeout
  | fuel + 1, p, g => do
    let (p, g) ← p.getTokenExpect TokenType.IDENTIFIER fuel g
    let (p, g) ← p.getToken fuel g
    let (p, g) ←
      if p.m_tokenType = TokenType.ASSIGN then do
        let (p, g) ← p.getToken fuel g
        let (p, g) ← p.constant fuel g
        p.getToken fuel g
      else
        Outcome.ret (p, g)
    if p.m_tokenType = TokenType.COMMA then
      Parser.declarationsDo fuel p g
    else
      .ret (p, g)

/-- The loop `while (isDeclaration)` of `declarations`; the flag is a local that the
loop body never assigns. -/
def Parser.declarationsWhile (isDeclaration : Bool) :
    Nat → Parser → Globals → Outcome (Parser × Globals)
  | 0, _, _ => .timeout
  | fuel + 1, p, g =>
    if isDeclaration then do
      let (p, g) ← Parser.declarationsDo fuel p g
      let (p, g) ← p.checkToken TokenType.SEMICOLON g
      let (p, g) ← p.getToken fuel g
      Parser.declarationsWhile isDeclaration fuel p g
    else
      .ret (p, g)

/-- The member function `Parser::declarations`. -/
def Parser.declarations (fuel : Nat) (p : Parser) (g : Globals) :
    Outcome (Parser × Globals) :=
  let isDeclaration : Bool :=
    p.m_tokenType = TokenType.INT || p.m_tokenType = TokenType.STRING
  Parser.declarationsWhile isDeclaration fuel p g

/-- The member function `Parser::analyze`. -/
def Parser.analyze (fuel : Nat) (p : Parser) (g : Globals) : Outcome (Parser × Globals) := do
  let (p, g) ← p.getTokenExpect TokenType.START fuel g
  let (p, g) ← p.getTokenExpect TokenType.BEGIN fuel g
  let (p, g) ← p.getToken fuel g
  let (p, g) ← p.declarations fuel g
  let (p, g) ← p.statements fuel g
  let (p, g) ← p.getTokenExpect TokenType.END fuel g
  p.getTokenExpect TokenType.FINAL fuel g

/-! ## Successive calls -/

/-- Some number of successive calls of `Scanner::getToken`, each with the same fuel, as
a driver makes them: the tokens in the order returned, and the state after the last. -/
def Scanner.getTokens (U : TranslationUnit) (fuel : Nat) :
    Nat → Scanner → Globals → Outcome (List Token × Scanner × Globals)
  | 0, s, g => .ret ([], s, g)
  | calls + 1, s, g =>
    match s.getToken U fuel g with
    | .ret (t, s, g) =>
      match Scanner.getTokens U fuel calls s g with
      | .ret (ts, s, g) => .ret (t :: ts, s, g)
      | .raise e => .raise e
      | .timeout => .timeout
    | .raise e => .raise e
    | .timeout => .timeout

/-- Successive calls of `addToIT`, one per name: the values returned, in order, and the
globals after the last call. -/
def addToITAll : List (List Char) → Globals → List Int × Globals
  | [], g => ([], g)
  | name :: names, g =>
    let r := addToIT name g
    let rest := addToITAll names r.2
    (r.1 :: rest.1, rest.2)

/-- The result of a run without the final state: only the value produced or the
exception. -/
def Outcome.map {α β : Type} (f : α → β) : Outcome α → Outcome β
  | .ret a => .ret (f a)
  | .raise e => .raise e
  | .timeout => .timeout

/-- The names stored in the Identifier Table, in table order. -/
def Globals.names (g : Globals) : List (List Char) := g.IdentifierTable.map Identifier.getName

/-- Specification side: the distinct elements of a sequence in the order of their first
occurrence. -/
def firstOccurrences {α : Type} [DecidableEq α] : List α → List α
  | [] => []
  | x :: xs => x :: (firstOccurrences xs).filter (fun y => y ≠ x)

/-- Specification side: the 0-based position of the first occurrence of `x` in a list
(the length of the list when `x` does not occur). -/
def position {α : Type} [DecidableEq α] (x : α) : List α → Nat
  | [] => 0
  | y :: ys => if y = x then 0 else position x ys + 1

/-- The number of tokens of kind `k` in a list of tokens. -/
def countKind (k : TokenType) (ts : List Token) : Nat :=
  ts.countP (fun t => t.getType = k)

/-- What one pass of the loop may do to the String Table: nothing, unless the pass
returns a `STRING_CONST` token, whose payload is then the index of the one entry the
pass appended. -/
def Pass.keepsStrings (U : TranslationUnit) (g : Globals) : Pass → Prop
  | .again _ _ g1 => g1.StringTable = g.StringTable
  | .token t _ g1 =>
    (t.getType = U.STRING_CONST ∧ t.m_value = (g.StringTable.length : Int) ∧
        ∃ text, g1.StringTable = g.StringTable ++ [text]) ∨
      (t.getType ≠ U.STRING_CONST ∧ g1.StringTable = g.StringTable)
  | .thrown _ => True

/-- `y` is what the run that gave `x` gives with more fuel: the same, if `x` is an
answer at all. -/
def Outcome.Extends {α : Type} (x y : Outcome α) : Prop := x ≠ .timeout → y = x

/-- The scanner, called again and again from parser state `p` with globals `g`, delivers
tokens of the kinds `ks` in this order (each call being allowed `fuel` passes). -/
def Parser.Pulls (fuel : Nat) : Parser → Globals → List TokenType → Prop
  | _, _, [] => True
  | p, g, k :: ks =>
    ∃ p1 g1, p.getToken fuel g = .ret (p1, g1) ∧ p1.m_tokenType = k ∧
      Parser.Pulls fuel p1 g1 ks

/-- Kinds of the tokens of declaration items that `declarations()` walks through without
raising: an identifier, optionally `ASSIGN`, a sign and a number, and then either a
COMMA or a SEMICOLON with the token after it (the type keyword of the next declaration,
which the code pulls and does not look at). -/
inductive DeclarationPrefix : List TokenType → Prop where
  | nil : DeclarationPrefix []
  | comma (ks : List TokenType) : DeclarationPrefix ks →
      DeclarationPrefix (TokenType.IDENTIFIER :: TokenType.COMMA :: ks)
  | semicolon (k : TokenType) (ks : List TokenType) : DeclarationPrefix ks →
      DeclarationPrefix (TokenType.IDENTIFIER :: TokenType.SEMICOLON :: k :: ks)
  | assignComma (sign : TokenType) (ks : List TokenType) :
      sign = TokenType.PLUS ∨ sign = TokenType.MINUS → DeclarationPrefix ks →
      DeclarationPrefix (TokenType.IDENTIFIER :: TokenType.ASSIGN :: sign ::
        TokenType.NUMBER :: TokenType.COMMA :: ks)
  | assignSemicolon (sign k : TokenType) (ks : List TokenType) :
      sign = TokenType.PLUS ∨ sign = TokenType.MINUS → DeclarationPrefix ks →
      DeclarationPrefix (TokenType.IDENTIFIER :: TokenType.ASSIGN :: sign ::
        TokenType.NUMBER :: TokenType.SEMICOLON :: k :: ks)

/-- What one turn of the loop `while (isDeclaration)` does after its `do ... while` has
returned: `checkToken(SEMICOLON)`, `getToken()`, and the loop again. -/
def Parser.declarationsRest (fuel : Nat) (r : Parser × Globals) : Outcome (Parser × Globals) := do
  let (p, g) ← r.1.checkToken TokenType.SEMICOLON r.2
  let (p, g) ← p.getToken fuel g
  Parser.declarationsWhile true fuel p g

/-- The kinds of the next `calls` tokens the parser pulls from the scanner, computed. -/
def Parser.pullKinds (fuel : Nat) : Nat → Parser → Globals → Outcome (List TokenType)
  | 0, _, _ => .ret []
  | calls + 1, p, g =>
    match p.getToken fuel g with
    | .ret (p1, g1) =>
      match Parser.pullKinds fuel calls p1 g1 with
      | .ret ks => .ret (p1.m_tokenType :: ks)
      | .raise e => .raise e
      | .timeout => .timeout
    | .raise e => .raise e
    | .timeout => .timeout

/-- The character a fresh scanner's uninitialised `m_character` is equivalent to, as far
as the three flags computed from it go: itself for the three characters tested, a
blank for any other. -/
def flagClass (c : Char) : Char :=
  if c = '@' then '@' else if c = '=' then '=' else if c = '"' then '"' else ' '

/-! ## Auxiliary notions for the scanner theorems -/

/-- The scanner after it has extracted the characters `read` from the stream `f`, then
the character `c`, and has put `c` back with `unget()`: `c` and `tail` are still to
come, and `m_character` holds `c`. -/
def Scanner.parked (f : ifstream) (read : List Char) (c : Char) (tail : List Char) :
    Scanner :=
  { m_file := { f with extracted := read.reverse ++ f.extracted, remaining := c :: tail },
    m_character := c }

/-- The value of `numberBuffer` after the digits `ds` have been added to `acc` one by one
by `numberBuffer = numberBuffer * 10 + (m_character - '0')`. -/
def accumulate (acc : Int) (ds : List Char) : Int :=
  ds.foldl (fun a c => wrapInt (a * 10 + digitValue c)) acc

/-- Specification side: the number a string of decimal digits denotes. -/
def decimalValue (ds : List Char) : Nat :=
  ds.foldl (fun a c => a * 10 + (c.toNat - 48)) 0

/-- The stream cannot deliver a character any more: nothing remains, or it is not
`good()`. -/
def ifstream.exhausted (f : ifstream) : Prop := f.remaining = [] ∨ f.good = false

instance (f : ifstream) : Decidable f.exhausted :=
  inferInstanceAs (Decidable (f.remaining = [] ∨ f.good = false))

/-- What the `IDENTIFIER` case of `getToken` returns for the spelling in `symbolBuffer`:
the keyword token when `tableLookup` finds it at a non-zero index, and otherwise the
IDENTIFIER token with the value of `addToIT`, which may extend the Identifier Table. -/
def identifierToken (U : TranslationUnit) (symbolBuffer : List Char) (g : Globals) :
    Token × Globals :=
  let inTableNumber := tableLookup symbolBuffer U.serviceWordTable U.serviceWordAmount
  if inTableNumber ≠ 0 then
    (⟨⟨inTableNumber⟩, inTableNumber⟩, g)
  else
    (⟨U.IDENTIFIER, (addToIT symbolBuffer g).1⟩, (addToIT symbolBuffer g).2)

/-- The character `m_character` holds after the characters `ws` have been read one after
the other: the last of them, or the old value `m` when there is none. -/
def lastRead (m : Char) (ws : List Char) : Char := ws.foldl (fun _ c => c) m

/-- The globals after `currentLine += (m_character == '\n')` has run for each of the
characters `ws`. -/
def Globals.countLines (g : Globals) (ws : List Char) : Globals := ws.foldl Globals.countLine g

/-- The stream `f` after the characters `read` have been extracted from it, `rest` being
what is then left to read. -/
def ifstream.advanced (f : ifstream) (read rest : List Char) : ifstream :=
  { f with extracted := read.reverse ++ f.extracted, remaining := rest }

/-- The parser after `calls` successive calls of `Parser::getToken()`, each allowed `fuel`
passes of the scanner loop. -/
def Parser.pull (fuel : Nat) : Nat → Parser → Globals → Outcome (Parser × Globals)
  | 0, p, g => .ret (p, g)
  | calls + 1, p, g => p.getToken fuel g >>= fun r => Parser.pull fuel calls r.1 r.2

/-- The test `isCompareOperand` of `Parser::andOperand`: the token kinds from EQUAL to
GEQ. -/
def TokenType.isCompareOperand (k : TokenType) : Bool :=
  k.toInt ≥ TokenType.EQUAL.toInt && k.toInt ≤ TokenType.GEQ.toInt


/-! ## Auxiliary notions for the last theorems -/

/-- The ids stored in the Identifier Table, in table order. -/
def Globals.ids (g : Globals) : List Nat := g.IdentifierTable.map Identifier.getID

/-- Specification side: the kind named for each one-character delimiter that has no
state of its own in the scanner, as an enumerator of `syntax_analyzer.cpp`. -/
def delimiterKind (c : Char) : Option TokenType :=
  if c = ';' then some TokenType.SEMICOLON
  else if c = '.' then some TokenType.POINT
  else if c = ',' then some TokenType.COMMA
  else if c = '=' then some TokenType.ASSIGN
  else if c = '(' then some TokenType.LEFT_BRACKET
  else if c = ')' then some TokenType.RIGHT_BRACKET
  else if c = '\x7b' then some TokenType.BEGIN
  else if c = '\x7d' then some TokenType.END
  else if c = '+' then some TokenType.PLUS
  else if c = '-' then some TokenType.MINUS
  else if c = '*' then some TokenType.MULTIPLY
  else if c = '/' then some TokenType.DIVIDE
  else none

/-- Specification side: the same, as an enumerator of `lexical_analyzer.cpp`. -/
def LexicalAnalyzer.delimiterKind (c : Char) : Option TokenType :=
  if c = ';' then some LexicalAnalyzer.TokenType.SEMICOLON
  else if c = '.' then some LexicalAnalyzer.TokenType.POINT
  else if c = ',' then some LexicalAnalyzer.TokenType.COMMA
  else if c = '=' then some LexicalAnalyzer.TokenType.ASSIGN
  else if c = '(' then some LexicalAnalyzer.TokenType.LEFT_BRACKET
  else if c = ')' then some LexicalAnalyzer.TokenType.RIGHT_BRACKET
  else if c = '\x7b' then some LexicalAnalyzer.TokenType.BEGIN
  else if c = '\x7d' then some LexicalAnalyzer.TokenType.END
  else if c = '+' then some LexicalAnalyzer.TokenType.PLUS
  else if c = '-' then some LexicalAnalyzer.TokenType.MINUS
  else if c = '*' then some LexicalAnalyzer.TokenType.MULTIPLY
  else if c = '/' then some LexicalAnalyzer.TokenType.DIVIDE
  else none

/-- What the last branch of `case State::INITIALIZATION` does with the character `c`,
in terms of the kind named for `c`: the delimiter token with the index of `c` in the
delimiter table as payload, or `throw m_character`. -/
def delimiterOutcome (kind : Option TokenType) (c : Char) (s : Scanner) (g : Globals) :
    Outcome (Token × Scanner × Globals) :=
  match kind with
  | some k => .ret (⟨k, (position [c] delimiterTable : Nat)⟩, s, g)
  | none => .raise (.character c)

/-- Specification side: the enumerator of `syntax_analyzer.cpp` that has the same name as
the enumerator `k` of `lexical_analyzer.cpp`: the same value below `AND`, one more from
`AND` on (where `syntax_analyzer.cpp` has inserted `WHILE`). -/
def promoteKind (k : TokenType) : TokenType :=
  if k.toInt < 10 then k else ⟨k.toInt + 1⟩

/-- Specification side: the token of `syntax_analyzer.cpp` that corresponds to a token
of `lexical_analyzer.cpp`: the kind of the same name, and the same payload, except that
the payload of a keyword token for `and`, `or`, `not` or `program` (kinds 10 to 13) is
its index in the longer keyword table. -/
def promote (t : Token) : Token :=
  ⟨promoteKind t.m_tokenType,
    if 10 ≤ t.m_tokenType.toInt ∧ t.m_tokenType.toInt ≤ 13 then t.m_value + 1 else t.m_value⟩

/-- The result of a pass with its token, if any, translated by `promote`. -/
def Pass.promoted : Pass → Pass
  | .again l s g => .again l s g
  | .token t s g => .token (promote t) s g
  | .thrown e => .thrown e

/-- How a pass of the scanner of `syntax_analyzer.cpp` (`pS`) relates to the pass of the
scanner of `lexical_analyzer.cpp` (`pL`) from the same state with globals `g`: the same
up to `promote`, or else the word `while` has just been read, for which the one returns
the keyword token WHILE and the other enters an identifier. -/
def Pass.Agrees (g : Globals) (pL pS : Pass) : Prop :=
  pS = pL.promoted ∨
    ∃ s1 : Scanner, pS = .token ⟨TokenType.WHILE, 10⟩ s1 g ∧
      pL = .token ⟨LexicalAnalyzer.TokenType.IDENTIFIER, (addToIT "while".toList g).1⟩ s1
        (addToIT "while".toList g).2

/-- The ids in the Identifier Table are 0, 1, 2, ... in table order and `s_idCount` is
the size of the table. -/
def Globals.Sequential (g : Globals) : Prop :=
  g.s_idCount = g.IdentifierTable.length ∧ g.ids = List.range g.IdentifierTable.length

instance (g : Globals) : Decidable g.Sequential :=
  inferInstanceAs (Decidable (_ ∧ _))

/-- The globals a pass of the scanner loop leaves have sequential ids. -/
def Pass.Sequential : Pass → Prop
  | .again _ _ g => g.Sequential
  | .token _ _ g => g.Sequential
  | .thrown _ => True


/-! ## Auxiliary notions for the tokens a parse walks over -/

/-- The token kinds of literals: NUMBER and STRING_CONST. -/
def TokenType.isLiteral (k : TokenType) : Bool :=
  k = TokenType.NUMBER || k = TokenType.STRING_CONST

/-- The parser gets from state `p` (globals `g`) to state `q` (globals `h`) by calls of
`Parser::getToken()` alone, each allowed `fuel` passes of the scanner loop, and the
current token of every state it leaves on the way, `p` included and `q` not, is no
literal. -/
inductive Parser.Walk (fuel : Nat) : Parser → Globals → Parser → Globals → Prop where
  | refl (p : Parser) (g : Globals) : Parser.Walk fuel p g p g
  | step (p : Parser) (g : Globals) (p1 : Parser) (g1 : Globals) (q : Parser) (h : Globals) :
      p.m_tokenType.isLiteral = false → p.getToken fuel g = .ret (p1, g1) →
      Parser.Walk fuel p1 g1 q h → Parser.Walk fuel p g q h

end Toy

namespace Toy

/-! ## Basic facts about outcomes and the scanner loop -/

@[simp] theorem Outcome.ret_bind {α β : Type} (a : α) (f : α → Outcome β) :
    (Outcome.ret a >>= f) = f a := rfl

@[simp] theorem Outcome.raise_bind {α β : Type} (e : Exception) (f : α → Outcome β) :
    ((Outcome.raise e : Outcome α) >>= f) = Outcome.raise e := rfl

@[simp] theorem Outcome.timeout_bind {α β : Type} (f : α → Outcome β) :
    ((Outcome.timeout : Outcome α) >>= f) = Outcome.timeout := rfl

theorem Outcome.ne_of_fuel_cases {α : Type} {x y z : Outcome α}
    (h : x = y ∨ x = .timeout) (hy : y ≠ z) (hz : z ≠ .timeout) : x ≠ z := by
  rcases h with h | h
  · rw [h]; exact hy
  · rw [h]; exact fun e => hz e.symm

theorem flagClass_mem (c : Char) : flagClass c ∈ ['@', '=', '"', ' '] := by
  unfold flagClass
  split_ifs <;> simp

theorem flagClass_flags (c : Char) :
    (c == '@') = (flagClass c == '@') ∧ (c == '=') = (flagClass c == '=') ∧
      (c == '"') = (flagClass c == '"') := by
  unfold flagClass
  split_ifs with h1 h2 h3
  · subst h1; decide
  · subst h2; decide
  · subst h3; decide
  · simp [h1, h2, h3]

/-- One pass over a good, non-empty stream looks at the old `m_character` only through
the three flags. -/
theorem getTokenPass_garbage (U : TranslationUnit) (l : Locals) (f : ifstream) (c : Char)
    (r : List Char) (c0 c1 : Char) (g : Globals) (hf : f.good = true)
    (hr : f.remaining = c :: r) (h1 : (c0 == '@') = (c1 == '@'))
    (h2 : (c0 == '=') = (c1 == '=')) (h3 : (c0 == '"') = (c1 == '"')) :
    getTokenPass U l ⟨f, c0⟩ g = getTokenPass U l ⟨f, c1⟩ g := by
  simp only [getTokenPass, Scanner.getCharacter, ifstream.get, hf, hr, h1, h2, h3, if_true]

theorem getToken_garbage (U : TranslationUnit) (fuel : Nat) (src : List Char)
    (c0 : Char) (g : Globals) (hsrc : src ≠ []) :
    Scanner.getToken U fuel (Scanner.open src c0) g =
      Scanner.getToken U fuel (Scanner.open src (flagClass c0)) g := by
  obtain ⟨h1, h2, h3⟩ := flagClass_flags c0
  cases src with
  | nil => exact absurd rfl hsrc
  | cons c r =>
    cases fuel with
    | zero => rfl
    | succ n =>
      simp only [Scanner.getToken, getTokenLoop, Scanner.open]
      rw [getTokenPass_garbage U _ (ifstream.opened (c :: r)) c r c0 (flagClass c0) g rfl
        rfl h1 h2 h3]

/-- The loop gives the same answer with more fuel, once it gives one. -/
theorem getTokenLoop_mono (U : TranslationUnit) (fuel : Nat) (l : Locals) (s : Scanner)
    (g : Globals) (h : getTokenLoop U fuel l s g ≠ .timeout) (more : Nat) :
    getTokenLoop U (fuel + more) l s g = getTokenLoop U fuel l s g := by
  induction fuel generalizing l s g with
  | zero => exact absurd rfl h
  | succ n ih =>
    rw [Nat.add_right_comm]
    simp only [getTokenLoop] at h ⊢
    cases hp : getTokenPass U l s g with
    | again l1 s1 g1 =>
      rw [hp] at h
      exact ih l1 s1 g1 h
    | token t s1 g1 => rfl
    | thrown e => rfl

theorem getToken_mono (U : TranslationUnit) (fuel : Nat) (s : Scanner) (g : Globals)
    (h : s.getToken U fuel g ≠ .timeout) (more : Nat) :
    s.getToken U (fuel + more) g = s.getToken U fuel g :=
  getTokenLoop_mono U fuel _ s g h more

/-! ## The Identifier Table -/

theorem position_eq_indexOf {α : Type} [DecidableEq α] (x : α) (l : List α) :
    position x l = List.indexOf x l := by
  induction l with
  | nil => rfl
  | cons y ys ih =>
    by_cases h : y = x
    · simp [position, h]
    · simp [position, h, ih, List.indexOf_cons_ne _ h]

theorem position_lt_length {α : Type} [DecidableEq α] {x : α} {l : List α} :
    position x l < l.length ↔ x ∈ l := by
  rw [position_eq_indexOf]; exact List.indexOf_lt_length

theorem position_of_not_mem {α : Type} [DecidableEq α] {x : α} {l : List α} (h : x ∉ l) :
    position x l = l.length := by
  rw [position_eq_indexOf]; exact List.indexOf_eq_length.mpr h

theorem position_append_of_mem {α : Type} [DecidableEq α] {x : α} {l m : List α}
    (h : x ∈ l) : position x (l ++ m) = position x l := by
  rw [position_eq_indexOf, position_eq_indexOf]; exact List.indexOf_append_of_mem h

theorem position_append_self {α : Type} [DecidableEq α] {x : α} {l : List α}
    (h : x ∉ l) : position x (l ++ [x]) = l.length := by
  rw [position_eq_indexOf, List.indexOf_append_of_not_mem h]; simp

theorem position_get? {α : Type} [DecidableEq α] {x : α} {l : List α} (h : x ∈ l) :
    l.get? (position x l) = some x := by
  rw [position_eq_indexOf]; exact List.indexOf_get? h

theorem position_le_of_get? {α : Type} [DecidableEq α] {x : α} {l : List α} {j : Nat}
    (h : l.get? j = some x) : position x l ≤ j := by
  induction l generalizing j with
  | nil => simp at h
  | cons y ys ih =>
    by_cases hy : y = x
    · simp [position, hy]
    · cases j with
      | zero => simp at h; exact absurd h hy
      | succ k =>
        simp only [position, hy, if_false]
        exact Nat.succ_le_succ (ih (by simpa using h))

theorem find_eq_position (table : List Identifier) (buffer : List Char) :
    find table buffer = position buffer (table.map Identifier.getName) := by
  induction table with
  | nil => rfl
  | cons i rest ih =>
    by_cases h : i.m_name = buffer
    · simp [find, position, h, Identifier.getName]
    · simp [find, position, h, ih, Identifier.getName]

theorem addToIT_found (name : List Char) (g : Globals) (h : name ∈ g.names) :
    addToIT name g = (((position name g.names : Nat) : Int), g) := by
  have hlt : position name g.names < g.names.length := position_lt_length.mpr h
  have hne : find g.IdentifierTable name ≠ g.IdentifierTable.length := by
    rw [find_eq_position]
    intro e
    rw [Globals.names, e] at hlt
    simp at hlt
  unfold addToIT
  simp only [ne_eq, hne, not_false_eq_true, if_true]
  rw [find_eq_position]
  rfl

theorem addToIT_fresh (name : List Char) (g : Globals) (h : name ∉ g.names) :
    addToIT name g =
      ((g.IdentifierTable.length : Int),
        { g with
          IdentifierTable := g.IdentifierTable ++ [(Identifier.make name g.s_idCount).1]
          s_idCount := g.s_idCount + 1 }) := by
  have he : find g.IdentifierTable name = g.IdentifierTable.length := by
    rw [find_eq_position]
    have := position_of_not_mem h
    simpa [Globals.names] using this
  simp [addToIT, he, Identifier.make]

theorem addToIT_names (name : List Char) (g : Globals) :
    (addToIT name g).2.names = if name ∈ g.names then g.names else g.names ++ [name] := by
  by_cases h : name ∈ g.names
  · rw [addToIT_found name g h, if_pos h]
  · rw [addToIT_fresh name g h, if_neg h]
    simp [Globals.names, Identifier.make, Identifier.getName]

theorem addToIT_value (name : List Char) (g : Globals) :
    (addToIT name g).1 = ((position name (addToIT name g).2.names : Nat) : Int) ∧
      name ∈ (addToIT name g).2.names := by
  by_cases h : name ∈ g.names
  · rw [addToIT_found name g h]
    exact ⟨rfl, h⟩
  · have hn := addToIT_names name g
    rw [if_neg h] at hn
    rw [hn]
    refine ⟨?_, by simp⟩
    rw [addToIT_fresh name g h, position_append_self h]
    simp [Globals.names]

theorem firstOccurrences_nodup {α : Type} [DecidableEq α] (xs : List α) :
    (firstOccurrences xs).Nodup := by
  induction xs with
  | nil => simp [firstOccurrences]
  | cons x xs ih =>
    simp only [firstOccurrences, List.nodup_cons]
    exact ⟨by simp [List.mem_filter], ih.filter _⟩

theorem addToITAll_names (names : List (List Char)) (g : Globals) :
    (addToITAll names g).2.names =
      g.names ++ (firstOccurrences names).filter (fun n => n ∉ g.names) := by
  induction names generalizing g with
  | nil => simp [addToITAll, firstOccurrences]
  | cons name rest ih =>
    simp only [addToITAll, firstOccurrences]
    rw [ih, addToIT_names]
    by_cases h : name ∈ g.names
    · simp only [h, if_true, List.filter_cons, not_true_eq_false, decide_False,
        Bool.false_eq_true, if_false, List.filter_filter]
      congr 1
      apply List.filter_congr
      intro x _
      by_cases hx : x ∈ g.names
      · simp [hx]
      · have : x ≠ name := fun e => hx (e ▸ h)
        simp [hx, this]
    · simp only [h, if_false, List.filter_cons, not_false_eq_true, decide_True, if_true,
        List.filter_filter, List.append_assoc, List.singleton_append]
      congr 2
      apply List.filter_congr
      intro x _
      by_cases hx : x ∈ g.names <;> by_cases hx2 : x = name <;> simp [hx, hx2]

theorem addToITAll_values (names : List (List Char)) (g : Globals) :
    (addToITAll names g).1 =
      names.map (fun n => ((position n (addToITAll names g).2.names : Nat) : Int)) := by
  induction names generalizing g with
  | nil => simp [addToITAll]
  | cons name rest ih =>
    obtain ⟨hv, hm⟩ := addToIT_value name g
    simp only [addToITAll, List.map_cons]
    rw [ih (addToIT name g).2, addToITAll_names rest (addToIT name g).2,
      position_append_of_mem hm, ← hv]

/-- C6. For every Identifier Table and every name, `addToIT` returns a value (it is a
total function).  If some entry has that name, the value is the index of the first such
entry and nothing changes.  Otherwise exactly one entry is appended, with that name,
`m_declare = false` and `m_assign = false`; the earlier entries and the String Table
are unchanged, and the value is the previous length of the table. -/
theorem C6_addToIT_contract (g : Globals) (name : List Char) :
    (name ∈ g.names →
      ∃ i : Nat, (addToIT name g).1 = (i : Int) ∧
        (g.IdentifierTable.get? i).map Identifier.getName = some name ∧
        (∀ j, j < i → (g.IdentifierTable.get? j).map Identifier.getName ≠ some name) ∧
        (addToIT name g).2 = g) ∧
    (name ∉ g.names →
      (addToIT name g).1 = (g.IdentifierTable.length : Int) ∧
      ∃ entry : Identifier,
        (addToIT name g).2.IdentifierTable = g.IdentifierTable ++ [entry] ∧
        entry.getName = name ∧ entry.isDeclared = false ∧ entry.isAssigned = false ∧
        (addToIT name g).2.StringTable = g.StringTable) := by
  constructor
  · intro h
    refine ⟨position name g.names, by rw [addToIT_found name g h], ?_, ?_,
      by rw [addToIT_found name g h]⟩
    · have := position_get? h
      simpa [Globals.names] using this
    · intro j hj e
      have hget : g.names.get? j = some name := by
        simpa [Globals.names] using e
      have := position_le_of_get? hget
      omega
  · intro h
    rw [addToIT_fresh name g h]
    exact ⟨rfl, _, rfl, rfl, rfl, rfl, rfl⟩

/-- A run of C6 on a two-entry table: an existing name and a new one. -/
theorem C6_addToIT_contract_witness :
    (addToIT ['b'] (addToITAll [['a'], ['b']] Globals.start).2).2 =
        (addToITAll [['a'], ['b']] Globals.start).2 ∧
      (addToIT ['c'] (addToITAll [['a'], ['b']] Globals.start).2).1 = 2 := by
  have h := C6_addToIT_contract (addToITAll [['a'], ['b']] Globals.start).2
  constructor
  · obtain ⟨i, _, _, _, hi⟩ := (h ['b']).1 (by decide)
    exact hi
  · exact ((h ['c']).2 (by decide)).1

/-- C5. Starting from an empty Identifier Table, after `addToIT` has been called on the
names of any finite sequence, the names in the table are the distinct names of the
sequence in the order of their first occurrence, no two entries share a name, and each
call returned the 0-based position of its name in that order. -/
theorem C5_addToIT_sequence (names : List (List Char)) (g : Globals)
    (hempty : g.IdentifierTable = []) :
    (addToITAll names g).2.names = firstOccurrences names ∧
      (addToITAll names g).2.names.Nodup ∧
      (addToITAll names g).1 =
        names.map (fun n => ((position n (firstOccurrences names) : Nat) : Int)) := by
  have hn : (addToITAll names g).2.names = firstOccurrences names := by
    rw [addToITAll_names]
    simp [Globals.names, hempty]
  refine ⟨hn, hn ▸ firstOccurrences_nodup names, ?_⟩
  rw [addToITAll_values, hn]

/-- A run of C5 on the sequence a, b, a, c, b. -/
theorem C5_addToIT_sequence_witness :
    (addToITAll [['a'], ['b'], ['a'], ['c'], ['b']] Globals.start).2.names =
        [['a'], ['b'], ['c']] ∧
      (addToITAll [['a'], ['b'], ['a'], ['c'], ['b']] Globals.start).1 = [0, 1, 0, 2, 1] := by
  have h := C5_addToIT_sequence [['a'], ['b'], ['a'], ['c'], ['b']] Globals.start rfl
  refine ⟨h.1.trans (by decide), h.2.2.trans (by decide)⟩

/-! ## Successive calls of the scanner -/

theorem getToken_ret_mono (U : TranslationUnit) (fuel : Nat) (s : Scanner) (g : Globals)
    (x : Token × Scanner × Globals) (h : s.getToken U fuel g = .ret x) (more : Nat) :
    s.getToken U (fuel + more) g = .ret x := by
  rw [getToken_mono U fuel s g (by rw [h]; exact fun e => Outcome.noConfusion e), h]

theorem getTokens_ret_mono (U : TranslationUnit) (fuel calls : Nat) (s : Scanner)
    (g : Globals) (x : List Token × Scanner × Globals)
    (h : Scanner.getTokens U fuel calls s g = .ret x) (more : Nat) :
    Scanner.getTokens U (fuel + more) calls s g = .ret x := by
  induction calls generalizing s g x with
  | zero => exact h
  | succ n ih =>
    simp only [Scanner.getTokens] at h ⊢
    cases h1 : s.getToken U fuel g with
    | ret y =>
      obtain ⟨t, s1, g1⟩ := y
      simp only [h1] at h
      simp only [getToken_ret_mono U fuel s g _ h1 more]
      cases h2 : Scanner.getTokens U fuel n s1 g1 with
      | ret z =>
        obtain ⟨ts, s2, g2⟩ := z
        simp only [h2] at h
        simp only [ih s1 g1 _ h2]
        exact h
      | raise e => simp [h2] at h
      | timeout => simp [h2] at h
    | raise e => simp [h1] at h
    | timeout => simp [h1] at h

theorem getTokens_mono (U : TranslationUnit) (fuel calls : Nat) (s : Scanner)
    (g : Globals) (h : Scanner.getTokens U fuel calls s g ≠ .timeout) (more : Nat) :
    Scanner.getTokens U (fuel + more) calls s g = Scanner.getTokens U fuel calls s g := by
  induction calls generalizing s g with
  | zero => rfl
  | succ n ih =>
    simp only [Scanner.getTokens] at h ⊢
    cases h1 : s.getToken U fuel g with
    | ret y =>
      obtain ⟨t, s1, g1⟩ := y
      simp only [h1] at h
      simp only [getToken_ret_mono U fuel s g _ h1 more]
      rw [ih s1 g1]
      intro e
      simp [e] at h
    | raise e =>
      rw [getToken_mono U fuel s g (by simp [h1]) more, h1]
    | timeout => simp [h1] at h

/-- With any fuel, a call of `getToken` gives the answer it gives with enough fuel, or
runs out of fuel. -/
theorem getToken_fuel_cases (U : TranslationUnit) (enough fuel : Nat) (s : Scanner)
    (g : Globals) (h : s.getToken U enough g ≠ .timeout) :
    s.getToken U fuel g = s.getToken U enough g ∨ s.getToken U fuel g = .timeout := by
  rcases Nat.le_total enough fuel with hle | hle
  · obtain ⟨k, rfl⟩ := Nat.exists_eq_add_of_le hle
    exact Or.inl (getToken_mono U enough s g h k)
  · obtain ⟨k, rfl⟩ := Nat.exists_eq_add_of_le hle
    by_cases ht : s.getToken U fuel g = .timeout
    · exact Or.inr ht
    · exact Or.inl (getToken_mono U fuel s g ht k).symm

theorem getTokens_fuel_cases (U : TranslationUnit) (enough fuel calls : Nat) (s : Scanner)
    (g : Globals) (h : Scanner.getTokens U enough calls s g ≠ .timeout) :
    Scanner.getTokens U fuel calls s g = Scanner.getTokens U enough calls s g ∨
      Scanner.getTokens U fuel calls s g = .timeout := by
  rcases Nat.le_total enough fuel with hle | hle
  · obtain ⟨k, rfl⟩ := Nat.exists_eq_add_of_le hle
    exact Or.inl (getTokens_mono U enough calls s g h k)
  · obtain ⟨k, rfl⟩ := Nat.exists_eq_add_of_le hle
    by_cases ht : Scanner.getTokens U fuel calls s g = .timeout
    · exact Or.inr ht
    · exact Or.inl (getTokens_mono U fuel calls s g ht k).symm

theorem getTokens_garbage (U : TranslationUnit) (fuel calls : Nat) (src : List Char)
    (c0 : Char) (g : Globals) (hsrc : src ≠ []) :
    Scanner.getTokens U fuel (calls + 1) (Scanner.open src c0) g =
      Scanner.getTokens U fuel (calls + 1) (Scanner.open src (flagClass c0)) g := by
  simp only [Scanner.getTokens]
  rw [getToken_garbage U fuel src c0 g hsrc]

theorem Outcome.map_eq_ret {α β : Type} {f : α → β} {x : Outcome α} {b : β}
    (h : x.map f = .ret b) : ∃ a, x = .ret a ∧ f a = b := by
  cases x with
  | ret a => exact ⟨a, rfl, by simpa [Outcome.map] using h⟩
  | raise e => simp [Outcome.map] at h
  | timeout => simp [Outcome.map] at h

/-- C4. A fresh scanner over `int a;`, whatever its uninitialised `m_character` holds,
with the globals of program start: four successive calls of `getToken` (each allowed
at least 8 passes of its loop) return Keyword INT with payload 1, IDENTIFIER with
payload 0, Delimiter SEMICOLON with payload 1 and FINAL, and afterwards the Identifier
Table holds exactly one entry, named `a`.  This holds for the scanner of
`lexical_analyzer.cpp` and for the one of `syntax_analyzer.cpp`, each with its own
enumerator values. -/
theorem C4_tokens_of_int_a (garbage : Char) (more : Nat) :
    (Scanner.getTokens LexicalAnalyzer (8 + more) 4 (Scanner.open "int a;".toList garbage)
        Globals.start).map (fun r => (r.1, r.2.2.names)) =
      .ret ([⟨LexicalAnalyzer.TokenType.INT, 1⟩, ⟨LexicalAnalyzer.TokenType.IDENTIFIER, 0⟩,
             ⟨LexicalAnalyzer.TokenType.SEMICOLON, 1⟩, ⟨LexicalAnalyzer.TokenType.FINAL, 0⟩],
            [['a']]) ∧
    (Scanner.getTokens SyntaxAnalyzer (8 + more) 4 (Scanner.open "int a;".toList garbage)
        Globals.start).map (fun r => (r.1, r.2.2.names)) =
      .ret ([⟨TokenType.INT, 1⟩, ⟨TokenType.IDENTIFIER, 0⟩, ⟨TokenType.SEMICOLON, 1⟩,
             ⟨TokenType.FINAL, 0⟩],
            [['a']]) := by
  have key : ∀ x ∈ ['@', '=', '"', ' '],
      (Scanner.getTokens LexicalAnalyzer 8 4 (Scanner.open "int a;".toList x)
          Globals.start).map (fun r => (r.1, r.2.2.names)) =
        .ret ([⟨LexicalAnalyzer.TokenType.INT, 1⟩, ⟨LexicalAnalyzer.TokenType.IDENTIFIER, 0⟩,
               ⟨LexicalAnalyzer.TokenType.SEMICOLON, 1⟩, ⟨LexicalAnalyzer.TokenType.FINAL, 0⟩],
              [['a']]) ∧
      (Scanner.getTokens SyntaxAnalyzer 8 4 (Scanner.open "int a;".toList x)
          Globals.start).map (fun r => (r.1, r.2.2.names)) =
        .ret ([⟨TokenType.INT, 1⟩, ⟨TokenType.IDENTIFIER, 0⟩, ⟨TokenType.SEMICOLON, 1⟩,
               ⟨TokenType.FINAL, 0⟩],
              [['a']]) := by
    decide!
  obtain ⟨k1, k2⟩ := key (flagClass garbage) (flagClass_mem garbage)
  obtain ⟨a1, h1, f1⟩ := Outcome.map_eq_ret k1
  obtain ⟨a2, h2, f2⟩ := Outcome.map_eq_ret k2
  have g1 := (getTokens_garbage LexicalAnalyzer 8 3 _ garbage Globals.start
    (by decide)).trans h1
  have g2 := (getTokens_garbage SyntaxAnalyzer 8 3 _ garbage Globals.start
    (by decide)).trans h2
  exact ⟨(congrArg (Outcome.map _) (getTokens_ret_mono _ _ _ _ _ _ g1 more)).trans
      (congrArg Outcome.ret f1),
    (congrArg (Outcome.map _) (getTokens_ret_mono _ _ _ _ _ _ g2 more)).trans
      (congrArg Outcome.ret f2)⟩

/-! ## The String Table -/

theorem tableLookupFrom_bound (a_buffer : List Char) (a_table : List (List Char))
    (i left : Nat) :
    tableLookupFrom a_buffer a_table i left = 0 ∨
      tableLookupFrom a_buffer a_table i left < i + left := by
  induction a_table generalizing i left with
  | nil => cases left <;> simp [tableLookupFrom]
  | cons entry rest ih =>
    cases left with
    | zero => simp [tableLookupFrom]
    | succ n =>
      simp only [tableLookupFrom]
      split_ifs
      · right; omega
      · rcases ih (i + 1) n with h | h
        · exact Or.inl h
        · right; omega

theorem tableLookup_lt (a_buffer : List Char) (a_table : List (List Char)) (a_size : Nat)
    (h : 0 < a_size) : tableLookup a_buffer a_table a_size < a_size := by
  rcases tableLookupFrom_bound a_buffer a_table 0 a_size with e | e
  · rw [tableLookup, e]; exact h
  · simpa [tableLookup] using e

theorem addToIT_StringTable (buffer : List Char) (g : Globals) :
    (addToIT buffer g).2.StringTable = g.StringTable := by
  by_cases h : buffer ∈ g.names
  · rw [addToIT_found buffer g h]
  · rw [addToIT_fresh buffer g h]

theorem lessGreater_keepsStrings (U : TranslationUnit)
    (hU : U = SyntaxAnalyzer ∨ U = LexicalAnalyzer) (isAssign : Bool)
    (symbolBuffer : List Char) (s : Scanner) (g : Globals) :
    (lessGreater U isAssign symbolBuffer s g).keepsStrings U g := by
  have hd := fun b => tableLookup_lt b delimiterTable delimiterAmount (by decide)
  unfold lessGreater
  cases isAssign
  · have := hd symbolBuffer
    rcases hU with rfl | rfl <;>
      simp [Pass.keepsStrings, Token.getType, SyntaxAnalyzer, LexicalAnalyzer,
        TokenType.STRING_CONST, TokenType.FINAL, LexicalAnalyzer.TokenType.STRING_CONST,
        LexicalAnalyzer.TokenType.FINAL, delimiterAmount] at this ⊢ <;> omega
  · have := hd (symbolBuffer ++ [s.m_character])
    rcases hU with rfl | rfl <;>
      simp [Pass.keepsStrings, Token.getType, SyntaxAnalyzer, LexicalAnalyzer,
        TokenType.STRING_CONST, TokenType.FINAL, LexicalAnalyzer.TokenType.STRING_CONST,
        LexicalAnalyzer.TokenType.FINAL, delimiterAmount] at this ⊢ <;> omega

theorem Pass.keepsStrings_ite (U : TranslationUnit) (g : Globals) (c : Prop)
    [Decidable c] (a b : Pass) (ha : c → a.keepsStrings U g)
    (hb : ¬c → b.keepsStrings U g) : (if c then a else b).keepsStrings U g := by
  by_cases h : c
  · rw [if_pos h]; exact ha h
  · rw [if_neg h]; exact hb h

theorem getTokenPass_keepsStrings (U : TranslationUnit)
    (hU : U = SyntaxAnalyzer ∨ U = LexicalAnalyzer) (l : Locals) (s : Scanner)
    (g : Globals) : (getTokenPass U l s g).keepsStrings U g := by
  have hd := fun b => tableLookup_lt b delimiterTable delimiterAmount (by decide)
  have hk : ∀ b, tableLookup b U.serviceWordTable U.serviceWordAmount < 15 := by
    intro b
    rcases hU with rfl | rfl
    · exact tableLookup_lt b _ 15 (by decide)
    · exact lt_trans (tableLookup_lt b _ 14 (by decide)) (by decide)
  have hc : U.FINAL ≠ U.STRING_CONST ∧ U.NEQ ≠ U.STRING_CONST ∧
      U.NUMBER ≠ U.STRING_CONST ∧ U.IDENTIFIER ≠ U.STRING_CONST ∧
      U.FINAL.toInt + 20 ≤ U.STRING_CONST.toInt ∧ 15 ≤ U.STRING_CONST.toInt := by
    rcases hU with rfl | rfl <;> decide
  obtain ⟨c1, c2, c3, c4, c5, c6⟩ := hc
  have hdel : ∀ (b : List Char) (s1 : Scanner) (g1 : Globals), g1.StringTable = g.StringTable →
      (Pass.token ⟨⟨tableLookup b delimiterTable delimiterAmount + U.FINAL.toInt⟩,
        (tableLookup b delimiterTable delimiterAmount : Nat)⟩ s1 g1).keepsStrings U g := by
    intro b s1 g1 e
    refine Or.inr ⟨?_, e⟩
    intro e2
    have h1 := hd b
    have h2 := congrArg TokenType.toInt e2
    simp only [Token.getType, delimiterAmount] at h1 h2
    omega
  obtain ⟨st, buf, num⟩ := l
  cases st
  case INITIALIZATION =>
    simp only [getTokenPass]
    generalize s.getCharacter = s1
    refine Pass.keepsStrings_ite _ _ _ _ _ (fun _ => Or.inr ⟨c1, rfl⟩) (fun _ => ?_)
    refine Pass.keepsStrings_ite _ _ _ _ _ (fun _ => rfl) (fun _ => ?_)
    refine Pass.keepsStrings_ite _ _ _ _ _ (fun _ => rfl) (fun _ => ?_)
    refine Pass.keepsStrings_ite _ _ _ _ _ (fun _ => rfl) (fun _ => ?_)
    refine Pass.keepsStrings_ite _ _ _ _ _ (fun _ => rfl) (fun _ => ?_)
    refine Pass.keepsStrings_ite _ _ _ _ _ (fun _ => rfl) (fun _ => ?_)
    refine Pass.keepsStrings_ite _ _ _ _ _ (fun _ => rfl) (fun _ => ?_)
    refine Pass.keepsStrings_ite _ _ _ _ _ (fun _ => rfl) (fun _ => ?_)
    exact Pass.keepsStrings_ite _ _ _ _ _ (fun _ => hdel _ _ _ rfl) (fun _ => trivial)
  case IDENTIFIER =>
    simp only [getTokenPass]
    generalize s.getCharacter = s1
    refine Pass.keepsStrings_ite _ _ _ _ _ (fun _ => rfl) (fun _ => ?_)
    refine Pass.keepsStrings_ite _ _ _ _ _ (fun _ => ?_)
      (fun _ => Or.inr ⟨c4, addToIT_StringTable _ _⟩)
    refine Or.inr ⟨?_, rfl⟩
    intro e
    have h1 := hk buf
    have h2 := congrArg TokenType.toInt e
    simp only [Token.getType] at h1 h2
    omega
  case NUMBER =>
    simp only [getTokenPass]
    exact Pass.keepsStrings_ite _ _ _ _ _ (fun _ => rfl) (fun _ => Or.inr ⟨c3, rfl⟩)
  case COMMENT =>
    simp only [getTokenPass]
    refine Pass.keepsStrings_ite _ _ _ _ _ (fun _ => rfl) (fun _ => ?_)
    exact Pass.keepsStrings_ite _ _ _ _ _ (fun _ => trivial) (fun _ => rfl)
  case STRING =>
    simp only [getTokenPass]
    refine Pass.keepsStrings_ite _ _ _ _ _ (fun _ => Or.inl ⟨rfl, ?_, buf, rfl⟩)
      (fun _ => lessGreater_keepsStrings U hU _ _ _ _)
    simp
  case LESS_GREATER =>
    simp only [getTokenPass]
    exact lessGreater_keepsStrings U hU _ _ _ _
  case NOT_EQUAL =>
    simp only [getTokenPass]
    exact Pass.keepsStrings_ite _ _ _ _ _ (fun _ => Or.inr ⟨c2, rfl⟩) (fun _ => trivial)
  case DELIMITER =>
    simp only [getTokenPass]
    rfl

/-- One call of `getToken` that returns: a `STRING_CONST` token appends exactly one
entry, at the index that is its payload; any other token leaves the table as it was. -/
theorem getTokenLoop_StringTable (U : TranslationUnit)
    (hU : U = SyntaxAnalyzer ∨ U = LexicalAnalyzer) (fuel : Nat) (l : Locals)
    (s : Scanner) (g : Globals) (t : Token) (s1 : Scanner) (g1 : Globals)
    (h : getTokenLoop U fuel l s g = .ret (t, s1, g1)) :
    (t.getType = U.STRING_CONST ∧ t.m_value = (g.StringTable.length : Int) ∧
        ∃ text, g1.StringTable = g.StringTable ++ [text]) ∨
      (t.getType ≠ U.STRING_CONST ∧ g1.StringTable = g.StringTable) := by
  induction fuel generalizing l s g with
  | zero => simp [getTokenLoop] at h
  | succ n ih =>
    have hp := getTokenPass_keepsStrings U hU l s g
    simp only [getTokenLoop] at h
    cases hq : getTokenPass U l s g with
    | again l2 s2 g2 =>
      rw [hq] at h hp
      simp only [Pass.keepsStrings] at hp
      have := ih l2 s2 g2 h
      rwa [hp] at this
    | token t2 s2 g2 =>
      rw [hq] at h hp
      simp only [Outcome.ret.injEq, Prod.mk.injEq] at h
      obtain ⟨rfl, rfl, rfl⟩ := h
      exact hp
    | thrown e =>
      rw [hq] at h
      simp at h

theorem getTokens_StringTable (U : TranslationUnit)
    (hU : U = SyntaxAnalyzer ∨ U = LexicalAnalyzer) (fuel calls : Nat) (s : Scanner)
    (g : Globals) (ts : List Token) (s1 : Scanner) (g1 : Globals)
    (h : Scanner.getTokens U fuel calls s g = .ret (ts, s1, g1)) :
    g1.StringTable.length = g.StringTable.length + countKind U.STRING_CONST ts ∧
      ∀ i t, ts.get? i = some t → t.getType = U.STRING_CONST →
        t.m_value = ((g.StringTable.length + countKind U.STRING_CONST (ts.take i) : Nat) : Int) := by
  induction calls generalizing s g ts with
  | zero =>
    simp only [Scanner.getTokens, Outcome.ret.injEq, Prod.mk.injEq] at h
    obtain ⟨rfl, rfl, rfl⟩ := h
    simp [countKind]
  | succ n ih =>
    simp only [Scanner.getTokens] at h
    cases h1 : s.getToken U fuel g with
    | ret y =>
      obtain ⟨t, s2, g2⟩ := y
      simp only [h1] at h
      cases h2 : Scanner.getTokens U fuel n s2 g2 with
      | ret z =>
        obtain ⟨ts2, s3, g3⟩ := z
        simp only [h2, Outcome.ret.injEq, Prod.mk.injEq] at h
        obtain ⟨rfl, rfl, rfl⟩ := h
        obtain ⟨ihlen, ihidx⟩ := ih s2 g2 ts2 h2
        have one := getTokenLoop_StringTable U hU fuel _ s g t s2 g2 h1
        have step : g2.StringTable.length =
            g.StringTable.length + countKind U.STRING_CONST [t] ∧
            (t.getType = U.STRING_CONST → t.m_value = (g.StringTable.length : Int)) := by
          rcases one with ⟨hk, hv, text, ht⟩ | ⟨hk, ht⟩
          · simp [ht, countKind, hk, hv]
          · simp [ht, countKind, hk]
        have hcons : ∀ l : List Token, countKind U.STRING_CONST (t :: l) =
            countKind U.STRING_CONST [t] + countKind U.STRING_CONST l := by
          intro l
          simp only [countKind, List.countP_cons, List.countP_nil]
          omega
        refine ⟨by rw [ihlen, step.1, hcons ts2]; omega, ?_⟩
        intro i u hi hu
        cases i with
        | zero =>
          simp only [List.get?_cons_zero, Option.some.injEq] at hi
          subst hi
          simpa [countKind] using step.2 hu
        | succ j =>
          simp only [List.get?_cons_succ] at hi
          rw [ihidx j u hi hu, step.1, List.take_succ_cons, hcons (List.take j ts2)]
          congr 1
          omega
      | raise e => simp [h2] at h
      | timeout => simp [h2] at h
    | raise e => simp [h1] at h
    | timeout => simp [h1] at h

/-- C7. For every input and scanner state: a call of `getToken` that returns a
`STRING_CONST` token appends exactly one entry to the String Table and the token's
payload is the index of that entry; a call that returns any other token leaves the
String Table unchanged.  Hence, starting from an empty String Table, after any number
of calls the length of the table equals the number of `STRING_CONST` tokens returned
so far, duplicates counted, and the payload of each `STRING_CONST` token is the number
of `STRING_CONST` tokens returned before it. -/
theorem C7_string_table_length :
    (∀ (fuel : Nat) (s : Scanner) (g : Globals) (t : Token) (s1 : Scanner) (g1 : Globals),
      s.getToken SyntaxAnalyzer fuel g = .ret (t, s1, g1) →
        (t.getType = TokenType.STRING_CONST →
          t.m_value = (g.StringTable.length : Int) ∧
            ∃ text, g1.StringTable = g.StringTable ++ [text]) ∧
        (t.getType ≠ TokenType.STRING_CONST → g1.StringTable = g.StringTable)) ∧
    (∀ (fuel calls : Nat) (s : Scanner) (g : Globals) (ts : List Token) (s1 : Scanner)
      (g1 : Globals), g.StringTable = [] →
      Scanner.getTokens SyntaxAnalyzer fuel calls s g = .ret (ts, s1, g1) →
        g1.StringTable.length = countKind TokenType.STRING_CONST ts ∧
        ∀ i t, ts.get? i = some t → t.getType = TokenType.STRING_CONST →
          t.m_value = (countKind TokenType.STRING_CONST (ts.take i) : Nat)) := by
  constructor
  · intro fuel s g t s1 g1 h
    rcases getTokenLoop_StringTable SyntaxAnalyzer (Or.inl rfl) fuel _ s g t s1 g1 h with
      ⟨hk, hv, ht⟩ | ⟨hk, ht⟩
    · exact ⟨fun _ => ⟨hv, ht⟩, fun hn => absurd hk hn⟩
    · exact ⟨fun hn => absurd hn hk, fun _ => ht⟩
  · intro fuel calls s g ts s1 g1 hg h
    have := getTokens_StringTable SyntaxAnalyzer (Or.inl rfl) fuel calls s g ts s1 g1 h
    simpa [hg, SyntaxAnalyzer] using this

/-- A run of C7: over the text `a"b"` two calls return an identifier and a
`STRING_CONST` token with payload 0, and the String Table has one entry. -/
theorem C7_string_table_length_witness :
    Scanner.getTokens SyntaxAnalyzer 8 2 (Scanner.open "a\"b\"".toList ' ') Globals.start =
      .ret ([⟨TokenType.IDENTIFIER, 0⟩, ⟨TokenType.STRING_CONST, 0⟩],
        ⟨⟨['b', '"', 'a'], ['"'], false, false, false⟩, 'b'⟩,
        ⟨[⟨['a'], none, false, false, none, 0⟩], [[]], 1, 1⟩) ∧
    ([[]] : List (List Char)).length =
      countKind TokenType.STRING_CONST
        [⟨TokenType.IDENTIFIER, 0⟩, ⟨TokenType.STRING_CONST, 0⟩] := by
  have run : Scanner.getTokens SyntaxAnalyzer 8 2 (Scanner.open "a\"b\"".toList ' ')
      Globals.start =
      .ret ([⟨TokenType.IDENTIFIER, 0⟩, ⟨TokenType.STRING_CONST, 0⟩],
        ⟨⟨['b', '"', 'a'], ['"'], false, false, false⟩, 'b'⟩,
        ⟨[⟨['a'], none, false, false, none, 0⟩], [[]], 1, 1⟩) := by
    decide!
  exact ⟨run, (C7_string_table_length.2 8 2 _ Globals.start _ _ _ rfl run).1⟩

/-! ## The parser -/

theorem getTokenExpect_garbage (k : TokenType) (fuel : Nat) (src : List Char)
    (c0 : Char) (g : Globals) (hsrc : src ≠ []) :
    (Parser.make src c0).getTokenExpect k fuel g =
      (Parser.make src (flagClass c0)).getTokenExpect k fuel g := by
  simp only [Parser.getTokenExpect, Parser.getToken, Parser.make]
  rw [getToken_garbage SyntaxAnalyzer fuel src c0 g hsrc]

theorem analyze_garbage (fuel : Nat) (src : List Char) (c0 : Char) (g : Globals)
    (hsrc : src ≠ []) :
    (Parser.make src c0).analyze fuel g = (Parser.make src (flagClass c0)).analyze fuel g := by
  simp only [Parser.analyze]
  rw [getTokenExpect_garbage _ fuel src c0 g hsrc]

theorem Outcome.Extends.refl {α : Type} (x : Outcome α) : x.Extends x := fun _ => rfl

theorem Outcome.Extends.timeout {α : Type} (y : Outcome α) :
    (Outcome.timeout : Outcome α).Extends y := fun h => absurd rfl h

theorem Outcome.Extends.bind {α β : Type} {x y : Outcome α} {k k2 : α → Outcome β}
    (h : x.Extends y) (hk : ∀ a, (k a).Extends (k2 a)) : (x >>= k).Extends (y >>= k2) := by
  intro hn
  cases x with
  | ret a =>
    rw [h (by simp)]
    exact hk a hn
  | raise e => rw [h (by simp)]; rfl
  | timeout => exact absurd rfl hn

theorem Outcome.Extends.ite {α : Type} (c : Prop) [Decidable c] {a b a2 b2 : Outcome α}
    (ha : a.Extends a2) (hb : b.Extends b2) :
    (if c then a else b).Extends (if c then a2 else b2) := by
  by_cases h : c
  · rw [if_pos h, if_pos h]; exact ha
  · rw [if_neg h, if_neg h]; exact hb

theorem Parser.getToken_ext (fuel : Nat) (p : Parser) (g : Globals) :
    (p.getToken fuel g).Extends (p.getToken (fuel + 1) g) := by
  intro h
  have hs : p.m_scanner.getToken SyntaxAnalyzer fuel g ≠ .timeout := by
    intro e
    simp [Parser.getToken, e] at h
  simp only [Parser.getToken, getToken_mono SyntaxAnalyzer fuel _ g hs 1]

theorem Parser.getTokenExpect_ext (k : TokenType) (fuel : Nat) (p : Parser) (g : Globals) :
    (p.getTokenExpect k fuel g).Extends (p.getTokenExpect k (fuel + 1) g) :=
  Outcome.Extends.bind (Parser.getToken_ext fuel p g) (fun _ => Outcome.Extends.refl _)

theorem Parser.constant_ext (fuel : Nat) (p : Parser) (g : Globals) :
    (p.constant fuel g).Extends (p.constant (fuel + 1) g) := by
  simp only [Parser.constant]
  exact Outcome.Extends.ite _
    (Outcome.Extends.bind (Parser.getToken_ext fuel p g) (fun _ => Outcome.Extends.refl _))
    (Outcome.Extends.refl _)

theorem Parser.value_ext (fuel : Nat) (p : Parser) (g : Globals) :
    (p.value fuel g).Extends (p.value (fuel + 1) g) := by
  simp only [Parser.value]
  exact Outcome.Extends.ite _ (Parser.getToken_ext fuel p g)
    (Outcome.Extends.bind (Parser.constant_ext fuel p g)
      (fun a => Parser.getToken_ext fuel a.1 a.2))

theorem Parser.multiplierOperandNot_ext (fuel : Nat) (p : Parser) (g : Globals) :
    (Parser.multiplierOperandNot fuel p g).Extends
      (Parser.multiplierOperandNot (fuel + 1) p g) := by
  induction fuel generalizing p g with
  | zero => exact Outcome.Extends.timeout _
  | succ n ih =>
    rw [Parser.multiplierOperandNot, Parser.multiplierOperandNot]
    exact Outcome.Extends.ite _
      (Outcome.Extends.bind (Parser.getToken_ext n p g) (fun a => ih a.1 a.2))
      (Outcome.Extends.refl _)

theorem Parser.multiplierOperandSign_ext (fuel : Nat) (p : Parser) (g : Globals) :
    (Parser.multiplierOperandSign fuel p g).Extends
      (Parser.multiplierOperandSign (fuel + 1) p g) := by
  induction fuel generalizing p g with
  | zero => exact Outcome.Extends.timeout _
  | succ n ih =>
    rw [Parser.multiplierOperandSign, Parser.multiplierOperandSign]
    exact Outcome.Extends.ite _
      (Outcome.Extends.bind (Parser.getToken_ext n p g) (fun a => ih a.1 a.2))
      (Outcome.Extends.refl _)

/-- Every procedure of the expression grammar gives the same answer with one more unit
of fuel, once it gives one. -/
theorem Parser.expression_block_ext (fuel : Nat) :
    (∀ p g, (Parser.multiplierOperand fuel p g).Extends
      (Parser.multiplierOperand (fuel + 1) p g)) ∧
    (∀ p g, (Parser.termOperandWhile fuel p g).Extends
      (Parser.termOperandWhile (fuel + 1) p g)) ∧
    (∀ p g, (Parser.termOperand fuel p g).Extends (Parser.termOperand (fuel + 1) p g)) ∧
    (∀ p g, (Parser.compareOperandWhile fuel p g).Extends
      (Parser.compareOperandWhile (fuel + 1) p g)) ∧
    (∀ p g, (Parser.compareOperand fuel p g).Extends
      (Parser.compareOperand (fuel + 1) p g)) ∧
    (∀ p g, (Parser.andOperand fuel p g).Extends (Parser.andOperand (fuel + 1) p g)) ∧
    (∀ p g, (Parser.orOperandWhile fuel p g).Extends
      (Parser.orOperandWhile (fuel + 1) p g)) ∧
    (∀ p g, (Parser.orOperand fuel p g).Extends (Parser.orOperand (fuel + 1) p g)) ∧
    (∀ p g, (Parser.assignOperandWhile fuel p g).Extends
      (Parser.assignOperandWhile (fuel + 1) p g)) ∧
    (∀ p g, (Parser.assignOperand fuel p g).Extends
      (Parser.assignOperand (fuel + 1) p g)) ∧
    (∀ p g, (Parser.expressionWhile fuel p g).Extends
      (Parser.expressionWhile (fuel + 1) p g)) ∧
    (∀ p g, (Parser.expression fuel p g).Extends (Parser.expression (fuel + 1) p g)) := by
  induction fuel with
  | zero =>
    refine ⟨?_, ?_, ?_, ?_, ?_, ?_, ?_, ?_, ?_, ?_, ?_, ?_⟩ <;> intro p g
    · rw [Parser.multiplierOperand]; exact Outcome.Extends.timeout _
    · rw [Parser.termOperandWhile]; exact Outcome.Extends.timeout _
    · rw [Parser.termOperand]; exact Outcome.Extends.timeout _
    · rw [Parser.compareOperandWhile]; exact Outcome.Extends.timeout _
    · rw [Parser.compareOperand]; exact Outcome.Extends.timeout _
    · rw [Parser.andOperand]; exact Outcome.Extends.timeout _
    · rw [Parser.orOperandWhile]; exact Outcome.Extends.timeout _
    · rw [Parser.orOperand]; exact Outcome.Extends.timeout _
    · rw [Parser.assignOperandWhile]; exact Outcome.Extends.timeout _
    · rw [Parser.assignOperand]; exact Outcome.Extends.timeout _
    · rw [Parser.expressionWhile]; exact Outcome.Extends.timeout _
    · rw [Parser.expression]; exact Outcome.Extends.timeout _
  | succ n ih =>
    obtain ⟨hMul, hTermW, hTerm, hCmpW, hCmp, hAnd, hOrW, hOr, hAsgW, hAsg, hExprW, hExpr⟩ := ih
    refine ⟨?_, ?_, ?_, ?_, ?_, ?_, ?_, ?_, ?_, ?_, ?_, ?_⟩ <;> intro p g
    · rw [Parser.multiplierOperand, Parser.multiplierOperand]
      exact Outcome.Extends.bind (Parser.multiplierOperandNot_ext n p g) (fun a =>
        Outcome.Extends.bind (Parser.multiplierOperandSign_ext n a.1 a.2) (fun b =>
          Outcome.Extends.ite _
            (Outcome.Extends.bind (Parser.getToken_ext n b.1 b.2) (fun c =>
              Outcome.Extends.bind (hExpr c.1 c.2) (fun d =>
                Outcome.Extends.bind (Outcome.Extends.refl _) (fun e =>
                  Parser.getToken_ext n e.1 e.2))))
            (Parser.value_ext n b.1 b.2)))
    · rw [Parser.termOperandWhile, Parser.termOperandWhile]
      exact Outcome.Extends.ite _
        (Outcome.Extends.bind (Parser.getToken_ext n p g) (fun a =>
          Outcome.Extends.bind (hMul a.1 a.2) (fun b => hTermW b.1 b.2)))
        (Outcome.Extends.refl _)
    · rw [Parser.termOperand, Parser.termOperand]
      exact Outcome.Extends.bind (hMul p g) (fun a => hTermW a.1 a.2)
    · rw [Parser.compareOperandWhile, Parser.compareOperandWhile]
      exact Outcome.Extends.ite _
        (Outcome.Extends.bind (Parser.getToken_ext n p g) (fun a =>
          Outcome.Extends.bind (hTerm a.1 a.2) (fun b => hCmpW b.1 b.2)))
        (Outcome.Extends.refl _)
    · rw [Parser.compareOperand, Parser.compareOperand]
      exact Outcome.Extends.bind (hTerm p g) (fun a => hCmpW a.1 a.2)
    · rw [Parser.andOperand, Parser.andOperand]
      exact Outcome.Extends.bind (hCmp p g) (fun a =>
        Outcome.Extends.ite _
          (Outcome.Extends.bind (Parser.getToken_ext n a.1 a.2) (fun b => hCmp b.1 b.2))
          (Outcome.Extends.refl _))
    · rw [Parser.orOperandWhile, Parser.orOperandWhile]
      exact Outcome.Extends.ite _
        (Outcome.Extends.bind (Parser.getToken_ext n p g) (fun a =>
          Outcome.Extends.bind (hAnd a.1 a.2) (fun b => hOrW b.1 b.2)))
        (Outcome.Extends.refl _)
    · rw [Parser.orOperand, Parser.orOperand]
      exact Outcome.Extends.bind (hAnd p g) (fun a => hOrW a.1 a.2)
    · rw [Parser.assignOperandWhile, Parser.assignOperandWhile]
      exact Outcome.Extends.ite _
        (Outcome.Extends.bind (Parser.getToken_ext n p g) (fun a =>
          Outcome.Extends.bind (hOr a.1 a.2) (fun b => hAsgW b.1 b.2)))
        (Outcome.Extends.refl _)
    · rw [Parser.assignOperand, Parser.assignOperand]
      exact Outcome.Extends.bind (hOr p g) (fun a => hAsgW a.1 a.2)
    · rw [Parser.expressionWhile, Parser.expressionWhile]
      exact Outcome.Extends.ite _
        (Outcome.Extends.bind (Parser.getToken_ext n p g) (fun a =>
          Outcome.Extends.bind (hAsg a.1 a.2) (fun b => hExprW b.1 b.2)))
        (Outcome.Extends.refl _)
    · rw [Parser.expression, Parser.expression]
      exact Outcome.Extends.bind (hAsg p g) (fun a => hExprW a.1 a.2)

theorem Parser.expression_ext (fuel : Nat) (p : Parser) (g : Globals) :
    (Parser.expression fuel p g).Extends (Parser.expression (fuel + 1) p g) :=
  (Parser.expression_block_ext fuel).2.2.2.2.2.2.2.2.2.2.2 p g

theorem Parser.statementWriteDo_ext (fuel : Nat) (p : Parser) (g : Globals) :
    (Parser.statementWriteDo fuel p g).Extends (Parser.statementWriteDo (fuel + 1) p g) := by
  induction fuel generalizing p g with
  | zero => exact Outcome.Extends.timeout _
  | succ n ih =>
    rw [Parser.statementWriteDo, Parser.statementWriteDo]
    exact Outcome.Extends.bind (Parser.getToken_ext n p g) (fun a =>
      Outcome.Extends.bind (Parser.expression_ext n a.1 a.2) (fun b =>
        Outcome.Extends.ite _ (ih b.1 b.2) (Outcome.Extends.refl _)))

theorem Parser.statement_block_ext (fuel : Nat) :
    (∀ p g, (Parser.statement fuel p g).Extends (Parser.statement (fuel + 1) p g)) ∧
    (∀ p g, (Parser.statements fuel p g).Extends (Parser.statements (fuel + 1) p g)) := by
  induction fuel with
  | zero =>
    refine ⟨?_, ?_⟩ <;> intro p g
    · rw [Parser.statement]; exact Outcome.Extends.timeout _
    · rw [Parser.statements]; exact Outcome.Extends.timeout _
  | succ n ih =>
    obtain ⟨hStmt, hStmts⟩ := ih
    refine ⟨?_, ?_⟩ <;> intro p g
    · rw [Parser.statement, Parser.statement]
      refine Outcome.Extends.ite _ ?_ (Outcome.Extends.ite _ ?_ (Outcome.Extends.ite _ ?_
        (Outcome.Extends.ite _ ?_ (Outcome.Extends.ite _ ?_ (Outcome.Extends.ite _ ?_
          (Outcome.Extends.ite _ ?_ ?_))))))
      · exact Outcome.Extends.bind (Parser.getTokenExpect_ext _ n p g) (fun a =>
          Outcome.Extends.bind (Parser.getTokenExpect_ext _ n a.1 a.2) (fun b =>
            Outcome.Extends.bind (Parser.getTokenExpect_ext _ n b.1 b.2) (fun c =>
              Parser.getTokenExpect_ext _ n c.1 c.2)))
      · exact Outcome.Extends.bind (Parser.getTokenExpect_ext _ n p g) (fun a =>
          Outcome.Extends.bind (Parser.statementWriteDo_ext n a.1 a.2) (fun b =>
            Outcome.Extends.bind (Outcome.Extends.refl _) (fun c =>
              Parser.getTokenExpect_ext _ n c.1 c.2)))
      · exact Outcome.Extends.bind (Parser.getTokenExpect_ext _ n p g) (fun a =>
          Outcome.Extends.bind (Parser.getToken_ext n a.1 a.2) (fun b =>
            Outcome.Extends.bind (Parser.expression_ext n b.1 b.2) (fun c =>
              Outcome.Extends.bind (Outcome.Extends.refl _) (fun d =>
                Outcome.Extends.bind (Parser.getToken_ext n d.1 d.2) (fun e =>
                  hStmt e.1 e.2)))))
      · exact Outcome.Extends.bind (Parser.getTokenExpect_ext _ n p g) (fun a =>
          Outcome.Extends.bind (Parser.getToken_ext n a.1 a.2) (fun b =>
            Outcome.Extends.bind (Parser.expression_ext n b.1 b.2) (fun c =>
              Outcome.Extends.bind (Outcome.Extends.refl _) (fun d =>
                Outcome.Extends.bind (Parser.getToken_ext n d.1 d.2) (fun e =>
                  Outcome.Extends.bind (hStmt e.1 e.2) (fun f =>
                    Outcome.Extends.bind (Parser.getTokenExpect_ext _ n f.1 f.2) (fun h =>
                      Outcome.Extends.bind (Parser.getToken_ext n h.1 h.2) (fun i =>
                        hStmt i.1 i.2))))))))
      · exact Parser.getTokenExpect_ext _ n p g
      · exact Outcome.Extends.bind (Parser.getTokenExpect_ext _ n p g) (fun a =>
          Parser.getTokenExpect_ext _ n a.1 a.2)
      · exact Outcome.Extends.bind (Parser.getToken_ext n p g) (fun a => hStmts a.1 a.2)
      · exact Outcome.Extends.bind (Parser.expression_ext n p g) (fun a =>
          Outcome.Extends.refl _)
    · rw [Parser.statements, Parser.statements]
      exact Outcome.Extends.ite _
        (Outcome.Extends.bind (hStmt p g) (fun a =>
          Outcome.Extends.bind (Parser.getToken_ext n a.1 a.2) (fun b => hStmts b.1 b.2)))
        (Outcome.Extends.refl _)

theorem Parser.declarationsDo_ext (fuel : Nat) (p : Parser) (g : Globals) :
    (Parser.declarationsDo fuel p g).Extends (Parser.declarationsDo (fuel + 1) p g) := by
  induction fuel generalizing p g with
  | zero => exact Outcome.Extends.timeout _
  | succ n ih =>
    rw [Parser.declarationsDo, Parser.declarationsDo]
    exact Outcome.Extends.bind (Parser.getTokenExpect_ext _ n p g) (fun a =>
      Outcome.Extends.bind (Parser.getToken_ext n a.1 a.2) (fun b =>
        Outcome.Extends.ite _
          (Outcome.Extends.bind (Parser.getToken_ext n b.1 b.2) (fun c =>
            Outcome.Extends.bind (Parser.constant_ext n c.1 c.2) (fun d =>
              Outcome.Extends.bind (Parser.getToken_ext n d.1 d.2) (fun e =>
                Outcome.Extends.ite _ (ih e.1 e.2) (Outcome.Extends.refl _)))))
          (Outcome.Extends.bind (Outcome.Extends.refl _) (fun e =>
            Outcome.Extends.ite _ (ih e.1 e.2) (Outcome.Extends.refl _)))))

theorem Parser.declarationsWhile_ext (isDeclaration : Bool) (fuel : Nat) (p : Parser)
    (g : Globals) :
    (Parser.declarationsWhile isDeclaration fuel p g).Extends
      (Parser.declarationsWhile isDeclaration (fuel + 1) p g) := by
  induction fuel generalizing p g with
  | zero => exact Outcome.Extends.timeout _
  | succ n ih =>
    rw [Parser.declarationsWhile, Parser.declarationsWhile]
    exact Outcome.Extends.ite _
      (Outcome.Extends.bind (Parser.declarationsDo_ext n p g) (fun a =>
        Outcome.Extends.bind (Outcome.Extends.refl _) (fun b =>
          Outcome.Extends.bind (Parser.getToken_ext n b.1 b.2) (fun c => ih c.1 c.2))))
      (Outcome.Extends.refl _)

theorem Parser.analyze_ext (fuel : Nat) (p : Parser) (g : Globals) :
    (p.analyze fuel g).Extends (p.analyze (fuel + 1) g) := by
  simp only [Parser.analyze, Parser.declarations]
  exact Outcome.Extends.bind (Parser.getTokenExpect_ext _ fuel p g) (fun a =>
    Outcome.Extends.bind (Parser.getTokenExpect_ext _ fuel a.1 a.2) (fun b =>
      Outcome.Extends.bind (Parser.getToken_ext fuel b.1 b.2) (fun c =>
        Outcome.Extends.bind (Parser.declarationsWhile_ext _ fuel c.1 c.2) (fun d =>
          Outcome.Extends.bind ((Parser.statement_block_ext fuel).2 d.1 d.2) (fun e =>
            Outcome.Extends.bind (Parser.getTokenExpect_ext _ fuel e.1 e.2) (fun f =>
              Parser.getTokenExpect_ext _ fuel f.1 f.2))))))

/-- The answer of `analyze()` does not depend on the fuel, once there is enough of it. -/
theorem Parser.analyze_mono (fuel : Nat) (p : Parser) (g : Globals)
    (h : p.analyze fuel g ≠ .timeout) (more : Nat) :
    p.analyze (fuel + more) g = p.analyze fuel g := by
  induction more with
  | zero => rfl
  | succ k ih =>
    rw [← Nat.add_assoc, Parser.analyze_ext (fuel + k) p g (by rw [ih]; exact h), ih]

theorem Parser.analyze_fuel_cases (enough fuel : Nat) (p : Parser) (g : Globals)
    (h : p.analyze enough g ≠ .timeout) :
    p.analyze fuel g = p.analyze enough g ∨ p.analyze fuel g = .timeout := by
  rcases Nat.le_total enough fuel with hle | hle
  · obtain ⟨k, rfl⟩ := Nat.exists_eq_add_of_le hle
    exact Or.inl (Parser.analyze_mono enough p g h k)
  · obtain ⟨k, rfl⟩ := Nat.exists_eq_add_of_le hle
    by_cases ht : p.analyze fuel g = .timeout
    · exact Or.inr ht
    · exact Or.inl (Parser.analyze_mono fuel p g ht k).symm

/-- C1, at its own example.  On the source `program{ int x; x=1+2*3; }`, whatever the
scanner's uninitialised `m_character` holds, `analyze()` raises "invalid type of token",
and with no amount of fuel does it complete normally.  After `int x;` the loop of
`declarations()` runs again, its flag being computed once before the loop, and demands
an identifier where `=` stands.  The shortest program of the grammar, `program{}`, is
rejected in the same way: `getToken(END)` pulls a token after the END that stopped
`statements()`, and finds FINAL.  And `program{ x=1; }` is rejected with "expected
constant": `constant()` asks the token to be NUMBER and STRING_CONST at once. -/
theorem C1_example_program_rejected (garbage : Char) :
    ((Parser.make "program\x7b int x; x=1+2*3; \x7d".toList garbage).analyze 40 Globals.start =
        .raise (.runtime_error "[Parser]: invalid type of token!") ∧
      ∀ (fuel : Nat) (x : Parser × Globals),
        (Parser.make "program\x7b int x; x=1+2*3; \x7d".toList garbage).analyze fuel
          Globals.start ≠ .ret x) ∧
    ((Parser.make "program\x7b\x7d".toList garbage).analyze 10 Globals.start =
        .raise (.runtime_error "[Parser]: invalid type of token!") ∧
      ∀ (fuel : Nat) (x : Parser × Globals),
        (Parser.make "program\x7b\x7d".toList garbage).analyze fuel Globals.start ≠ .ret x) ∧
    ((Parser.make "program\x7b x=1; \x7d".toList garbage).analyze 20 Globals.start =
        .raise (.runtime_error "[Parser]: expected constant!") ∧
      ∀ (fuel : Nat) (x : Parser × Globals),
        (Parser.make "program\x7b x=1; \x7d".toList garbage).analyze fuel Globals.start ≠
          .ret x) := by
  have key : ∀ x ∈ ['@', '=', '"', ' '],
      (Parser.make "program\x7b int x; x=1+2*3; \x7d".toList x).analyze 40 Globals.start =
        .raise (.runtime_error "[Parser]: invalid type of token!") ∧
      (Parser.make "program\x7b\x7d".toList x).analyze 10 Globals.start =
        .raise (.runtime_error "[Parser]: invalid type of token!") ∧
      (Parser.make "program\x7b x=1; \x7d".toList x).analyze 20 Globals.start =
        .raise (.runtime_error "[Parser]: expected constant!") := by
    decide!
  obtain ⟨k1, k2, k3⟩ := key _ (flagClass_mem garbage)
  have h1 := (analyze_garbage 40 _ garbage Globals.start (by decide)).trans k1
  have h2 := (analyze_garbage 10 _ garbage Globals.start (by decide)).trans k2
  have h3 := (analyze_garbage 20 _ garbage Globals.start (by decide)).trans k3
  refine ⟨⟨h1, fun fuel x => ?_⟩, ⟨h2, fun fuel x => ?_⟩, h3, fun fuel x => ?_⟩
  · exact Outcome.ne_of_fuel_cases
      (Parser.analyze_fuel_cases 40 fuel _ _ (by rw [h1]; simp)) (by rw [h1]; simp) (by simp)
  · exact Outcome.ne_of_fuel_cases
      (Parser.analyze_fuel_cases 10 fuel _ _ (by rw [h2]; simp)) (by rw [h2]; simp) (by simp)
  · exact Outcome.ne_of_fuel_cases
      (Parser.analyze_fuel_cases 20 fuel _ _ (by rw [h3]; simp)) (by rw [h3]; simp) (by simp)

/-- C2, a source that is accepted although its tokens are not a `Program`.  On the text
`program{}}`, whatever the scanner's uninitialised `m_character` holds, `analyze()`
completes normally (with any fuel from 10 on) with FINAL as its last token, and the
five tokens of the text are START BEGIN END END FINAL: two END tokens for one BEGIN.
`statements()` stops with the first END as current token and `getToken(END)` then
pulls and demands a second one. -/
theorem C2_accepts_second_END (garbage : Char) (more : Nat) :
    ((Parser.make "program\x7b\x7d\x7d".toList garbage).analyze (10 + more) Globals.start).map
        (fun r => r.1.m_tokenType) = .ret TokenType.FINAL ∧
    (Scanner.getTokens SyntaxAnalyzer 10 5 (Scanner.open "program\x7b\x7d\x7d".toList garbage)
        Globals.start).map (fun r => (r.1.map Token.getType,
          countKind TokenType.BEGIN r.1, countKind TokenType.END r.1)) =
      .ret ([TokenType.START, TokenType.BEGIN, TokenType.END, TokenType.END,
             TokenType.FINAL], 1, 2) := by
  have key : ∀ x ∈ ['@', '=', '"', ' '],
      ((Parser.make "program\x7b\x7d\x7d".toList x).analyze 10 Globals.start).map
          (fun r => r.1.m_tokenType) = .ret TokenType.FINAL ∧
      (Scanner.getTokens SyntaxAnalyzer 10 5 (Scanner.open "program\x7b\x7d\x7d".toList x)
          Globals.start).map (fun r => (r.1.map Token.getType,
            countKind TokenType.BEGIN r.1, countKind TokenType.END r.1)) =
        .ret ([TokenType.START, TokenType.BEGIN, TokenType.END, TokenType.END,
               TokenType.FINAL], 1, 2) := by
    decide!
  obtain ⟨k1, k2⟩ := key _ (flagClass_mem garbage)
  have h1 := (congrArg (Outcome.map (fun r : Parser × Globals => r.1.m_tokenType))
    (analyze_garbage 10 _ garbage Globals.start (by decide))).trans k1
  have hnt : (Parser.make "program\x7b\x7d\x7d".toList garbage).analyze 10 Globals.start ≠
      .timeout := by
    intro e
    rw [e] at h1
    simp [Outcome.map] at h1
  refine ⟨?_, (congrArg (Outcome.map _)
    (getTokens_garbage SyntaxAnalyzer 10 4 _ garbage Globals.start (by decide))).trans k2⟩
  rw [Parser.analyze_mono 10 _ _ hnt more]
  exact h1

theorem checkToken_ne (k : TokenType) (p : Parser) (g : Globals) (h : p.m_tokenType ≠ k) :
    p.checkToken k g = .raise (.runtime_error "[Parser]: invalid type of token!") := by
  simp [Parser.checkToken, h]

theorem checkToken_eq (k : TokenType) (p : Parser) (g : Globals) (h : p.m_tokenType = k) :
    p.checkToken k g = .ret (p, g) := by
  simp [Parser.checkToken, h]

theorem Parser.pull_ret_mono (fuel : Nat) (p : Parser) (g : Globals)
    (x : Parser × Globals) (h : p.getToken fuel g = .ret x) (more : Nat) :
    p.getToken (fuel + more) g = .ret x := by
  induction more with
  | zero => exact h
  | succ k ih =>
    rw [← Nat.add_assoc, Parser.getToken_ext (fuel + k) p g (by rw [ih]; simp), ih]

theorem Parser.declarationsWhile_succ (fuel : Nat) (p : Parser) (g : Globals) :
    Parser.declarationsWhile true (fuel + 1) p g =
      (Parser.declarationsDo fuel p g >>= Parser.declarationsRest fuel) := by
  rw [Parser.declarationsWhile]
  rfl

theorem Parser.declarations_walk (fuel : Nat) (ks : List TokenType)
    (hks : DeclarationPrefix ks) (bad : TokenType) (hassign : bad ≠ TokenType.ASSIGN)
    (hcomma : bad ≠ TokenType.COMMA) (hsemicolon : bad ≠ TokenType.SEMICOLON) :
    ∀ (p : Parser) (g : Globals),
      Parser.Pulls fuel p g (ks ++ [TokenType.IDENTIFIER, bad]) →
      ∀ d m : Nat, fuel + ks.length + 1 ≤ d → fuel + ks.length + 1 ≤ m →
        (Parser.declarationsDo d p g >>= Parser.declarationsRest m) =
          .raise (.runtime_error "[Parser]: invalid type of token!") := by
  induction hks with
  | nil =>
    intro p g hp d m hd hm
    obtain ⟨p1, g1, h1, k1, p2, g2, h2, k2, -⟩ := hp
    obtain ⟨d1, rfl⟩ : ∃ d1, d = fuel + d1 + 1 := ⟨d - fuel - 1, by simp at hd; omega⟩
    have e1 := Parser.pull_ret_mono fuel p g _ h1 d1
    have e2 := Parser.pull_ret_mono fuel p1 g1 _ h2 d1
    simp [Parser.declarationsDo, Parser.getTokenExpect, e1, e2, checkToken_eq _ p1 g1 k1,
      k2, hassign, hcomma, Parser.declarationsRest, checkToken_ne _ p2 g2 (k2 ▸ hsemicolon)]
  | comma ks _ ih =>
    intro p g hp d m hd hm
    obtain ⟨p1, g1, h1, k1, p2, g2, h2, k2, hrest⟩ := hp
    obtain ⟨d1, rfl⟩ : ∃ d1, d = fuel + d1 + 1 := ⟨d - fuel - 1, by simp at hd; omega⟩
    have e1 := Parser.pull_ret_mono fuel p g _ h1 d1
    have e2 := Parser.pull_ret_mono fuel p1 g1 _ h2 d1
    have := ih p2 g2 hrest (fuel + d1) m (by simp at hd; omega) (by simp at hm; omega)
    simpa [Parser.declarationsDo, Parser.getTokenExpect, e1, e2, checkToken_eq _ p1 g1 k1,
      k2, show TokenType.COMMA ≠ TokenType.ASSIGN by decide] using this
  | semicolon k ks _ ih =>
    intro p g hp d m hd hm
    obtain ⟨p1, g1, h1, k1, p2, g2, h2, k2, p3, g3, h3, -, hrest⟩ := hp
    obtain ⟨d1, rfl⟩ : ∃ d1, d = fuel + d1 + 1 := ⟨d - fuel - 1, by simp at hd; omega⟩
    obtain ⟨m1, rfl⟩ : ∃ m1, m = fuel + m1 + 1 := ⟨m - fuel - 1, by simp at hm; omega⟩
    have e1 := Parser.pull_ret_mono fuel p g _ h1 d1
    have e2 := Parser.pull_ret_mono fuel p1 g1 _ h2 d1
    have e3 : p2.getToken (fuel + m1 + 1) g2 = .ret (p3, g3) :=
      Parser.pull_ret_mono fuel p2 g2 _ h3 (m1 + 1)
    have := ih p3 g3 hrest (fuel + m1) (fuel + m1) (by simp at hm; omega)
      (by simp at hm; omega)
    rw [← Parser.declarationsWhile_succ] at this
    simp [Parser.declarationsDo, Parser.getTokenExpect, e1, e2, checkToken_eq _ p1 g1 k1,
      k2, show TokenType.SEMICOLON ≠ TokenType.ASSIGN by decide,
      show TokenType.SEMICOLON ≠ TokenType.COMMA by decide, Parser.declarationsRest,
      checkToken_eq _ p2 g2 k2, e3, this]
  | assignComma sign ks hsign _ ih =>
    intro p g hp d m hd hm
    obtain ⟨p1, g1, h1, k1, p2, g2, h2, k2, p3, g3, h3, k3, p4, g4, h4, k4, p5, g5, h5, k5,
      hrest⟩ := hp
    obtain ⟨d1, rfl⟩ : ∃ d1, d = fuel + d1 + 1 := ⟨d - fuel - 1, by simp at hd; omega⟩
    have e1 := Parser.pull_ret_mono fuel p g _ h1 d1
    have e2 := Parser.pull_ret_mono fuel p1 g1 _ h2 d1
    have e3 := Parser.pull_ret_mono fuel p2 g2 _ h3 d1
    have e4 := Parser.pull_ret_mono fuel p3 g3 _ h4 d1
    have e5 := Parser.pull_ret_mono fuel p4 g4 _ h5 d1
    have hs : p3.m_tokenType = TokenType.MINUS ∨ p3.m_tokenType = TokenType.PLUS := by
      rcases hsign with h | h <;> simp [k3, h]
    have := ih p5 g5 hrest (fuel + d1) m (by simp at hd; omega) (by simp at hm; omega)
    simpa [Parser.declarationsDo, Parser.getTokenExpect, e1, e2, e3, e4, e5,
      checkToken_eq _ p1 g1 k1, k2, Parser.constant, hs, k4, k5] using this
  | assignSemicolon sign k ks hsign _ ih =>
    intro p g hp d m hd hm
    obtain ⟨p1, g1, h1, k1, p2, g2, h2, k2, p3, g3, h3, k3, p4, g4, h4, k4, p5, g5, h5, k5,
      p6, g6, h6, -, hrest⟩ := hp
    obtain ⟨d1, rfl⟩ : ∃ d1, d = fuel + d1 + 1 := ⟨d - fuel - 1, by simp at hd; omega⟩
    obtain ⟨m1, rfl⟩ : ∃ m1, m = fuel + m1 + 1 := ⟨m - fuel - 1, by simp at hm; omega⟩
    have e1 := Parser.pull_ret_mono fuel p g _ h1 d1
    have e2 := Parser.pull_ret_mono fuel p1 g1 _ h2 d1
    have e3 := Parser.pull_ret_mono fuel p2 g2 _ h3 d1
    have e4 := Parser.pull_ret_mono fuel p3 g3 _ h4 d1
    have e5 := Parser.pull_ret_mono fuel p4 g4 _ h5 d1
    have e6 : p5.getToken (fuel + m1 + 1) g5 = .ret (p6, g6) :=
      Parser.pull_ret_mono fuel p5 g5 _ h6 (m1 + 1)
    have hs : p3.m_tokenType = TokenType.MINUS ∨ p3.m_tokenType = TokenType.PLUS := by
      rcases hsign with h | h <;> simp [k3, h]
    have := ih p6 g6 hrest (fuel + m1) (fuel + m1) (by simp at hm; omega)
      (by simp at hm; omega)
    rw [← Parser.declarationsWhile_succ] at this
    simp [Parser.declarationsDo, Parser.getTokenExpect, e1, e2, e3, e4, e5,
      checkToken_eq _ p1 g1 k1, k2, Parser.constant, hs, k4, k5,
      show TokenType.SEMICOLON ≠ TokenType.COMMA by decide, Parser.declarationsRest,
      checkToken_eq _ p5 g5 k5, e6, this]

theorem Parser.pulls_of_pullKinds (fuel : Nat) (ks : List TokenType) (p : Parser)
    (g : Globals) (h : Parser.pullKinds fuel ks.length p g = .ret ks) :
    Parser.Pulls fuel p g ks := by
  induction ks generalizing p g with
  | nil => trivial
  | cons k rest ih =>
    simp only [List.length_cons, Parser.pullKinds] at h
    cases h1 : p.getToken fuel g with
    | ret x =>
      obtain ⟨p1, g1⟩ := x
      simp only [h1] at h
      cases h2 : Parser.pullKinds fuel rest.length p1 g1 with
      | ret ks2 =>
        simp only [h2, Outcome.ret.injEq, List.cons.injEq] at h
        exact ⟨p1, g1, h1, h.1, ih p1 g1 (h2.trans (congrArg Outcome.ret h.2))⟩
      | raise e => simp [h2] at h
      | timeout => simp [h2] at h
    | raise e => simp [h1] at h
    | timeout => simp [h1] at h

/-- Let the parser be where `declarations()` expects a declared identifier, after any
number of declaration items it has walked through (`ks`: identifiers, optionally with
`ASSIGN`, a sign and a number, separated by COMMA, or by SEMICOLON and the next token).
If the scanner then delivers an IDENTIFIER followed by a token that is none of ASSIGN,
COMMA and SEMICOLON, `checkToken(SEMICOLON)` raises "invalid type of token":
`declarations()` raises it and does not return, and `analyze()` raises it on every
source whose tokens begin START, BEGIN, INT or STRING, such items, the identifier and
that token.  It raises it on `program{ int x x=1; }` whatever the uninitialised
`m_character` holds. -/
theorem Parser.declaration_bad_follower (fuel : Nat) (ks : List TokenType) (bad : TokenType)
    (hks : DeclarationPrefix ks) (hassign : bad ≠ TokenType.ASSIGN)
    (hcomma : bad ≠ TokenType.COMMA) (hsemicolon : bad ≠ TokenType.SEMICOLON) :
    (∀ (p : Parser) (g : Globals),
      Parser.Pulls fuel p g (ks ++ [TokenType.IDENTIFIER, bad]) →
        Parser.declarationsWhile true (fuel + ks.length + 2) p g =
            .raise (.runtime_error "[Parser]: invalid type of token!") ∧
          (p.m_tokenType = TokenType.INT ∨ p.m_tokenType = TokenType.STRING →
            p.declarations (fuel + ks.length + 2) g =
              .raise (.runtime_error "[Parser]: invalid type of token!"))) ∧
    (∀ (p0 : Parser) (g0 : Globals) (ty : TokenType),
      ty = TokenType.INT ∨ ty = TokenType.STRING →
      Parser.Pulls fuel p0 g0
        (TokenType.START :: TokenType.BEGIN :: ty :: (ks ++ [TokenType.IDENTIFIER, bad])) →
        p0.analyze (fuel + ks.length + 2) g0 =
          .raise (.runtime_error "[Parser]: invalid type of token!")) ∧
    (∀ garbage : Char,
      (Parser.make "program\x7b int x x=1; \x7d".toList garbage).analyze 20 Globals.start =
        .raise (.runtime_error "[Parser]: invalid type of token!")) := by
  have key : ∀ x ∈ ['@', '=', '"', ' '],
      (Parser.make "program\x7b int x x=1; \x7d".toList x).analyze 20 Globals.start =
        .raise (.runtime_error "[Parser]: invalid type of token!") := by
    decide!
  have hwhile : ∀ (p : Parser) (g : Globals),
      Parser.Pulls fuel p g (ks ++ [TokenType.IDENTIFIER, bad]) →
        Parser.declarationsWhile true (fuel + ks.length + 2) p g =
          .raise (.runtime_error "[Parser]: invalid type of token!") := by
    intro p g hp
    rw [show fuel + ks.length + 2 = fuel + ks.length + 1 + 1 from rfl,
      Parser.declarationsWhile_succ]
    exact Parser.declarations_walk fuel ks hks bad hassign hcomma hsemicolon p g hp _ _
      (Nat.le_refl _) (Nat.le_refl _)
  have hdecl : ∀ (p : Parser) (g : Globals),
      Parser.Pulls fuel p g (ks ++ [TokenType.IDENTIFIER, bad]) →
      (p.m_tokenType = TokenType.INT ∨ p.m_tokenType = TokenType.STRING) →
        p.declarations (fuel + ks.length + 2) g =
          .raise (.runtime_error "[Parser]: invalid type of token!") := by
    intro p g hp hty
    have : (decide (p.m_tokenType = TokenType.INT) ||
        decide (p.m_tokenType = TokenType.STRING)) = true := by
      rcases hty with h | h <;> simp [h]
    simp only [Parser.declarations, this]
    exact hwhile p g hp
  refine ⟨fun p g hp => ⟨hwhile p g hp, hdecl p g hp⟩, ?_, fun garbage =>
    (analyze_garbage 20 _ garbage Globals.start (by decide)).trans
      (key _ (flagClass_mem garbage))⟩
  intro p0 g0 ty hty hp
  obtain ⟨pa, ga, ha, hsa, pb, gb, hb, hsb, p, g, hc, hsc, hrest⟩ := hp
  have hd : p.declarations (fuel + (ks.length + 2)) g =
      .raise (.runtime_error "[Parser]: invalid type of token!") :=
    hdecl p g hrest (hsc ▸ hty)
  show p0.analyze (fuel + (ks.length + 2)) g0 = _
  simp [Parser.analyze, Parser.getTokenExpect,
    Parser.pull_ret_mono fuel _ _ _ ha (ks.length + 2),
    Parser.pull_ret_mono fuel _ _ _ hb (ks.length + 2),
    Parser.pull_ret_mono fuel _ _ _ hc (ks.length + 2),
    checkToken_eq _ pa ga hsa, checkToken_eq _ pb gb hsb, hd]

/-- Two runs.  In `program{ int x x=1; }` the first declared identifier is followed
by an identifier.  In `program{ int a = +1, b; string c d; }` the parser walks through
`a = +1,` and `b; string` before it meets `c d`.  On both `analyze()` raises "invalid
type of token". -/
theorem Parser.declaration_bad_follower_runs :
    (Parser.make "program\x7b int x x=1; \x7d".toList ' ').analyze 12 Globals.start =
        .raise (.runtime_error "[Parser]: invalid type of token!") ∧
      (Parser.make "program\x7b int a = +1, b; string c d; \x7d".toList ' ').analyze 20
          Globals.start =
        .raise (.runtime_error "[Parser]: invalid type of token!") :=
  ⟨(Parser.declaration_bad_follower 10 [] TokenType.IDENTIFIER DeclarationPrefix.nil
      (by decide) (by decide) (by decide)).2.1 _ _ TokenType.INT (Or.inl rfl)
      (Parser.pulls_of_pullKinds 10 _ _ _ (by decide!)),
    (Parser.declaration_bad_follower 10
      [TokenType.IDENTIFIER, TokenType.ASSIGN, TokenType.PLUS, TokenType.NUMBER,
        TokenType.COMMA, TokenType.IDENTIFIER, TokenType.SEMICOLON, TokenType.STRING]
      TokenType.IDENTIFIER
      (DeclarationPrefix.assignComma _ _ (Or.inl rfl)
        (DeclarationPrefix.semicolon _ _ DeclarationPrefix.nil))
      (by decide) (by decide) (by decide)).2.1 _ _ TokenType.INT (Or.inl rfl)
      (Parser.pulls_of_pullKinds 10 _ _ _ (by decide!))⟩

/-! ## String literals and comments

The flags `isComment`, `isAssign` and `isString` of `getToken` are computed before
`getCharacter()`, so they describe the character read one pass earlier, not the one
the `switch` is looking at.  The theorems below evaluate the scanner on the inputs of
the specification; they hold whatever byte the uninitialised `m_character` starts
with, which matters only through `flagClass`. -/

/-- C8, at its own example.  On the text `"a" "a"` the first call of `getToken` never
returns a `STRING_CONST` token for the text `a`: when the uninitialised `m_character`
is neither `@` nor `"` it throws the character `"` (the opening quote is looked up as a
delimiter); when it is `@` the whole text is read as a comment and "eof in the middle
of comment" is raised; when it is `"` a `STRING_CONST` token is returned whose entry is
the empty text.  With no fuel do two successive calls return two tokens. -/
theorem C8_string_literal_not_scanned (garbage : Char) :
    (Scanner.getToken SyntaxAnalyzer 20 (Scanner.open "\"a\" \"a\"".toList garbage)
        Globals.start).map (fun r => (r.1, r.2.2.StringTable)) =
      (if flagClass garbage = '@' then
        .raise (.runtime_error "[Scanner::getToken]: eof in the middle of comment!")
      else if flagClass garbage = '"' then
        .ret (⟨TokenType.STRING_CONST, 0⟩, [[]])
      else
        .raise (.character '"')) ∧
    ∀ (fuel : Nat) (x : List Token × Scanner × Globals),
      Scanner.getTokens SyntaxAnalyzer fuel 2 (Scanner.open "\"a\" \"a\"".toList garbage)
        Globals.start ≠ .ret x := by
  have key : ∀ c ∈ ['@', '=', '"', ' '],
      (Scanner.getToken SyntaxAnalyzer 20 (Scanner.open "\"a\" \"a\"".toList c)
          Globals.start).map (fun r => (r.1, r.2.2.StringTable)) =
        (if c = '@' then
          .raise (.runtime_error "[Scanner::getToken]: eof in the middle of comment!")
        else if c = '"' then
          .ret (⟨TokenType.STRING_CONST, 0⟩, [[]])
        else
          .raise (.character '"')) ∧
      (Scanner.getTokens SyntaxAnalyzer 20 2 (Scanner.open "\"a\" \"a\"".toList c)
        Globals.start).map (fun _ => ()) ≠ .timeout ∧
      (Scanner.getTokens SyntaxAnalyzer 20 2 (Scanner.open "\"a\" \"a\"".toList c)
        Globals.start).map (fun _ => ()) ≠ .ret () := by
    decide!
  obtain ⟨k1, k2, k3⟩ := key _ (flagClass_mem garbage)
  refine ⟨(congrArg (Outcome.map _)
    (getToken_garbage SyntaxAnalyzer 20 _ garbage Globals.start (by decide))).trans k1, ?_⟩
  intro fuel x
  rw [← getTokens_garbage SyntaxAnalyzer 20 1 _ garbage Globals.start (by decide)] at k2 k3
  have hnt : Scanner.getTokens SyntaxAnalyzer 20 2 (Scanner.open "\"a\" \"a\"".toList garbage)
      Globals.start ≠ .timeout := by
    intro e
    rw [e] at k2
    exact k2 rfl
  have hnr : Scanner.getTokens SyntaxAnalyzer 20 2 (Scanner.open "\"a\" \"a\"".toList garbage)
      Globals.start ≠ .ret x := by
    intro e
    rw [e] at k3
    exact k3 rfl
  exact Outcome.ne_of_fuel_cases (getTokens_fuel_cases SyntaxAnalyzer 20 fuel 2 _ _ hnt) hnr
    (by simp)

/-- C9, at a small example.  The text `a;` scans to IDENTIFIER, SEMICOLON, FINAL.  With
the comment `@c@` put in front, three calls never return these three tokens: the
first call throws the character `@` (looked up as a delimiter, index 0), unless the
uninitialised `m_character` is `"`, in which case the three tokens are a token of kind
FINAL with payload 0, IDENTIFIER (for `c`) and SEMICOLON. -/
theorem C9_comment_not_transparent (garbage : Char) :
    (Scanner.getTokens SyntaxAnalyzer 20 3 (Scanner.open "a;".toList garbage)
        Globals.start).map (fun r => r.1) =
      .ret [⟨TokenType.IDENTIFIER, 0⟩, ⟨TokenType.SEMICOLON, 1⟩, ⟨TokenType.FINAL, 0⟩] ∧
    (Scanner.getTokens SyntaxAnalyzer 20 3 (Scanner.open "@c@a;".toList garbage)
        Globals.start).map (fun r => r.1) =
      (if flagClass garbage = '"' then
        .ret [⟨TokenType.FINAL, 0⟩, ⟨TokenType.IDENTIFIER, 0⟩, ⟨TokenType.SEMICOLON, 1⟩]
      else
        .raise (.character '@')) ∧
    ∀ fuel : Nat,
      (Scanner.getTokens SyntaxAnalyzer fuel 3 (Scanner.open "@c@a;".toList garbage)
          Globals.start).map (fun r => r.1) ≠
        .ret [⟨TokenType.IDENTIFIER, 0⟩, ⟨TokenType.SEMICOLON, 1⟩, ⟨TokenType.FINAL, 0⟩] := by
  have key : ∀ c ∈ ['@', '=', '"', ' '],
      (Scanner.getTokens SyntaxAnalyzer 20 3 (Scanner.open "a;".toList c)
          Globals.start).map (fun r => r.1) =
        .ret [⟨TokenType.IDENTIFIER, 0⟩, ⟨TokenType.SEMICOLON, 1⟩, ⟨TokenType.FINAL, 0⟩] ∧
      (Scanner.getTokens SyntaxAnalyzer 20 3 (Scanner.open "@c@a;".toList c)
          Globals.start).map (fun r => r.1) =
        (if c = '"' then
          .ret [⟨TokenType.FINAL, 0⟩, ⟨TokenType.IDENTIFIER, 0⟩, ⟨TokenType.SEMICOLON, 1⟩]
        else
          .raise (.character '@')) ∧
      (Scanner.getTokens SyntaxAnalyzer 20 3 (Scanner.open "@c@a;".toList c)
          Globals.start).map (fun r => r.1) ≠ .timeout ∧
      (Scanner.getTokens SyntaxAnalyzer 20 3 (Scanner.open "@c@a;".toList c)
          Globals.start).map (fun r => r.1) ≠
        .ret [⟨TokenType.IDENTIFIER, 0⟩, ⟨TokenType.SEMICOLON, 1⟩, ⟨TokenType.FINAL, 0⟩] := by
    decide!
  obtain ⟨k1, k2, k3, k4⟩ := key _ (flagClass_mem garbage)
  have e1 := getTokens_garbage SyntaxAnalyzer 20 2 "a;".toList garbage Globals.start
    (by decide)
  have e2 := getTokens_garbage SyntaxAnalyzer 20 2 "@c@a;".toList garbage Globals.start
    (by decide)
  refine ⟨(congrArg (Outcome.map _) e1).trans k1, (congrArg (Outcome.map _) e2).trans k2, ?_⟩
  intro fuel
  rw [← e2] at k3 k4
  have hnt : Scanner.getTokens SyntaxAnalyzer 20 3 (Scanner.open "@c@a;".toList garbage)
      Globals.start ≠ .timeout := by
    intro e
    rw [e] at k3
    exact k3 rfl
  rcases getTokens_fuel_cases SyntaxAnalyzer 20 fuel 3 _ _ hnt with h | h
  · rw [h]; exact k4
  · rw [h]; simp [Outcome.map]

/-- C10, at its own example.  On the text `@ never closes` the first call of `getToken`
raises "eof in the middle of comment" with no fuel and no initial `m_character`: it
throws the character `@` (looked up as a delimiter, index 0), unless the uninitialised
`m_character` is `@`, when it returns the identifier `never`, or `"`, when it returns
a token of kind FINAL with payload 0. -/
theorem C10_unterminated_comment_not_reported (garbage : Char) :
    (Scanner.getToken SyntaxAnalyzer 20 (Scanner.open "@ never closes".toList garbage)
        Globals.start).map (fun r => r.1) =
      (if flagClass garbage = '@' then
        .ret ⟨TokenType.IDENTIFIER, 0⟩
      else if flagClass garbage = '"' then
        .ret ⟨TokenType.FINAL, 0⟩
      else
        .raise (.character '@')) ∧
    ∀ fuel : Nat,
      Scanner.getToken SyntaxAnalyzer fuel (Scanner.open "@ never closes".toList garbage)
          Globals.start ≠
        .raise (.runtime_error "[Scanner::getToken]: eof in the middle of comment!") := by
  have key : ∀ c ∈ ['@', '=', '"', ' '],
      (Scanner.getToken SyntaxAnalyzer 20 (Scanner.open "@ never closes".toList c)
          Globals.start).map (fun r => r.1) =
        (if c = '@' then
          .ret ⟨TokenType.IDENTIFIER, 0⟩
        else if c = '"' then
          .ret ⟨TokenType.FINAL, 0⟩
        else
          .raise (.character '@')) ∧
      Scanner.getToken SyntaxAnalyzer 20 (Scanner.open "@ never closes".toList c)
          Globals.start ≠ .timeout ∧
      Scanner.getToken SyntaxAnalyzer 20 (Scanner.open "@ never closes".toList c)
          Globals.start ≠
        .raise (.runtime_error "[Scanner::getToken]: eof in the middle of comment!") := by
    decide!
  obtain ⟨k1, k2, k3⟩ := key _ (flagClass_mem garbage)
  have e1 := getToken_garbage SyntaxAnalyzer 20 "@ never closes".toList garbage
    Globals.start (by decide)
  refine ⟨(congrArg (Outcome.map _) e1).trans k1, ?_⟩
  intro fuel
  rw [← e1] at k2 k3
  exact Outcome.ne_of_fuel_cases (getToken_fuel_cases SyntaxAnalyzer 20 fuel _ _ k2) k3
    (by simp)

/-! ## Single passes of the scanner loop -/

theorem isspace_of_isalpha {c : Char} (h : isalpha c = true) : isspace c = false := by
  simp only [isalpha, isspace, Bool.or_eq_true, Bool.and_eq_true, decide_eq_true_eq] at h ⊢
  simp only [Bool.or_eq_false_iff, Bool.and_eq_false_iff, decide_eq_false_iff_not]
  omega

theorem isspace_of_isdigit {c : Char} (h : isdigit c = true) : isspace c = false := by
  simp only [isdigit, isspace, Bool.or_eq_true, Bool.and_eq_true, decide_eq_true_eq] at h ⊢
  simp only [Bool.or_eq_false_iff, Bool.and_eq_false_iff, decide_eq_false_iff_not]
  omega

theorem isalpha_of_isdigit {c : Char} (h : isdigit c = true) : isalpha c = false := by
  simp only [isdigit, isalpha, Bool.or_eq_true, Bool.and_eq_true, decide_eq_true_eq] at h ⊢
  simp only [Bool.or_eq_false_iff, Bool.and_eq_false_iff, decide_eq_false_iff_not]
  omega

theorem getCharacter_read (f : ifstream) (m c : Char) (r : List Char)
    (hgood : f.good = true) (hrem : f.remaining = c :: r) :
    Scanner.getCharacter ⟨f, m⟩ =
      ⟨{ f with extracted := c :: f.extracted, remaining := r }, c⟩ := by
  simp [Scanner.getCharacter, ifstream.get, hgood, hrem]

theorem getCharacter_exhausted (f : ifstream) (m : Char) (h : f.exhausted) :
    (Scanner.getCharacter ⟨f, m⟩).m_character = m ∧
      (Scanner.getCharacter ⟨f, m⟩).m_file.good = false ∧
      (Scanner.getCharacter ⟨f, m⟩).m_file.exhausted ∧
      (Scanner.getCharacter ⟨f, m⟩).m_file.eof = (f.good || f.eofbit) := by
  obtain ⟨ext, rem, e, fl, b⟩ := f
  rcases h with h | h
  · simp only at h
    subst h
    cases e <;> cases fl <;> cases b <;>
      simp [Scanner.getCharacter, ifstream.get, ifstream.good, ifstream.exhausted,
        ifstream.eof]
  · cases e <;> cases fl <;> cases b <;>
      simp_all [Scanner.getCharacter, ifstream.get, ifstream.good, ifstream.exhausted,
        ifstream.eof]

theorem pass_start_alpha (U : TranslationUnit) (buf : List Char) (n : Int) (f : ifstream)
    (m c : Char) (r : List Char) (g : Globals) (hgood : f.good = true)
    (hrem : f.remaining = c :: r) (hc : isalpha c = true) :
    getTokenPass U ⟨.INITIALIZATION, buf, n⟩ ⟨f, m⟩ g =
      .again ⟨.IDENTIFIER, [c], 0⟩
        ⟨{ f with extracted := c :: f.extracted, remaining := r }, c⟩ g := by
  have hg : f.eofbit = false := by
    simp only [ifstream.good, Bool.and_eq_true, Bool.not_eq_true'] at hgood
    exact hgood.1.1
  simp only [getTokenPass, getCharacter_read f m c r hgood hrem]
  simp [ifstream.eof, hg, isspace_of_isalpha hc, hc]

theorem pass_start_digit (U : TranslationUnit) (buf : List Char) (n : Int) (f : ifstream)
    (m c : Char) (r : List Char) (g : Globals) (hgood : f.good = true)
    (hrem : f.remaining = c :: r) (hc : isdigit c = true) :
    getTokenPass U ⟨.INITIALIZATION, buf, n⟩ ⟨f, m⟩ g =
      .again ⟨.NUMBER, [], digitValue c⟩
        ⟨{ f with extracted := c :: f.extracted, remaining := r }, c⟩ g := by
  have hg : f.eofbit = false := by
    simp only [ifstream.good, Bool.and_eq_true, Bool.not_eq_true'] at hgood
    exact hgood.1.1
  simp only [getTokenPass, getCharacter_read f m c r hgood hrem]
  simp [ifstream.eof, hg, isspace_of_isdigit hc, isalpha_of_isdigit hc, hc]

theorem pass_start_space (U : TranslationUnit) (buf : List Char) (n : Int) (f : ifstream)
    (m c : Char) (r : List Char) (g : Globals) (hgood : f.good = true)
    (hrem : f.remaining = c :: r) (hc : isspace c = true) :
    getTokenPass U ⟨.INITIALIZATION, buf, n⟩ ⟨f, m⟩ g =
      .again ⟨.INITIALIZATION, [], 0⟩
        ⟨{ f with extracted := c :: f.extracted, remaining := r }, c⟩ (g.countLine c) := by
  have hg : f.eofbit = false := by
    simp only [ifstream.good, Bool.and_eq_true, Bool.not_eq_true'] at hgood
    exact hgood.1.1
  simp only [getTokenPass, getCharacter_read f m c r hgood hrem]
  simp [ifstream.eof, hg, hc]

theorem good_fields {f : ifstream} (h : f.good = true) :
    f.eofbit = false ∧ f.failbit = false ∧ f.badbit = false := by
  simp only [ifstream.good, Bool.and_eq_true, Bool.not_eq_true'] at h
  exact ⟨h.1.1, h.1.2, h.2⟩

theorem unget_after_read (f : ifstream) (c : Char) (r : List Char) (hgood : f.good = true)
    (hrem : f.remaining = c :: r) :
    ifstream.unget { f with extracted := c :: f.extracted, remaining := r } = f := by
  obtain ⟨h1, h2, h3⟩ := good_fields hgood
  obtain ⟨ext, rem, e, fl, b⟩ := f
  simp only at h1 h2 h3 hrem
  subst h1 h2 h3 hrem
  rfl

theorem pass_identifier_more (U : TranslationUnit) (buf : List Char) (n : Int)
    (f : ifstream) (m c : Char) (r : List Char) (g : Globals) (hgood : f.good = true)
    (hrem : f.remaining = c :: r) (hc : (isalpha c || isdigit c) = true) :
    getTokenPass U ⟨.IDENTIFIER, buf, n⟩ ⟨f, m⟩ g =
      .again ⟨.IDENTIFIER, buf ++ [c], n⟩
        ⟨{ f with extracted := c :: f.extracted, remaining := r }, c⟩ g := by
  simp only [getTokenPass, getCharacter_read f m c r hgood hrem]
  simp [hc]

theorem pass_identifier_end (U : TranslationUnit) (buf : List Char) (n : Int)
    (f : ifstream) (m c : Char) (r : List Char) (g : Globals) (hgood : f.good = true)
    (hrem : f.remaining = c :: r) (hc : (isalpha c || isdigit c) = false) :
    getTokenPass U ⟨.IDENTIFIER, buf, n⟩ ⟨f, m⟩ g =
      .token (identifierToken U buf g).1 ⟨f, c⟩ (identifierToken U buf g).2 := by
  simp only [getTokenPass, getCharacter_read f m c r hgood hrem, hc,
    unget_after_read f c r hgood hrem, identifierToken, Bool.false_eq_true, if_false]
  by_cases h : tableLookup buf U.serviceWordTable U.serviceWordAmount = 0
  · simp [h]
  · simp [h]

theorem parked_cons (f : ifstream) (x : Char) (rest : List Char) (c : Char)
    (tail : List Char) :
    Scanner.parked { f with extracted := x :: f.extracted, remaining := rest ++ c :: tail }
        rest c tail = Scanner.parked f (x :: rest) c tail := by
  simp [Scanner.parked]

/-- The `IDENTIFIER` state reads letters and digits up to the first other character,
puts that character back, and returns the token for the spelling read. -/
theorem loop_identifier (U : TranslationUnit) (rest : List Char) (c : Char)
    (tail : List Char) (hrest : ∀ x ∈ rest, (isalpha x || isdigit x) = true)
    (hc : (isalpha c || isdigit c) = false) (more : Nat) :
    ∀ (buf : List Char) (n : Int) (f : ifstream) (m : Char) (g : Globals),
      f.good = true → f.remaining = rest ++ c :: tail →
      getTokenLoop U (rest.length + 1 + more) ⟨.IDENTIFIER, buf, n⟩ ⟨f, m⟩ g =
        .ret ((identifierToken U (buf ++ rest) g).1, Scanner.parked f rest c tail,
          (identifierToken U (buf ++ rest) g).2) := by
  induction rest with
  | nil =>
    intro buf n f m g hgood hrem
    obtain ⟨h1, h2, h3⟩ := good_fields hgood
    have e : (0 : Nat) + 1 + more = more + 1 := by omega
    simp only [List.length_nil, e, getTokenLoop, List.nil_append] at hrem ⊢
    rw [pass_identifier_end U buf n f m c tail g hgood hrem hc]
    simp only [List.append_nil, Scanner.parked, List.reverse_nil, List.nil_append]
    obtain ⟨ext, rem, e1, fl, b⟩ := f
    simp only at hrem
    subst hrem
    rfl
  | cons x r ih =>
    intro buf n f m g hgood hrem
    have e : (x :: r).length + 1 + more = (r.length + 1 + more) + 1 := by
      simp only [List.length_cons]; omega
    have hx := hrest x (List.mem_cons_self x r)
    simp only [e, getTokenLoop, List.cons_append] at hrem ⊢
    rw [pass_identifier_more U buf n f m x (r ++ c :: tail) g hgood hrem hx]
    simp only []
    rw [ih (fun y hy => hrest y (List.mem_cons_of_mem x hy)) (buf ++ [x]) n _ x g
      (by simpa [ifstream.good] using hgood) rfl]
    simp only [List.append_assoc, List.singleton_append, parked_cons f x r c tail]

theorem pass_number_more (U : TranslationUnit) (buf : List Char) (n : Int)
    (f : ifstream) (m c : Char) (r : List Char) (g : Globals) (hgood : f.good = true)
    (hrem : f.remaining = c :: r) (hc : isdigit c = true) :
    getTokenPass U ⟨.NUMBER, buf, n⟩ ⟨f, m⟩ g =
      .again ⟨.NUMBER, buf, wrapInt (n * 10 + digitValue c)⟩
        ⟨{ f with extracted := c :: f.extracted, remaining := r }, c⟩ g := by
  simp only [getTokenPass, getCharacter_read f m c r hgood hrem]
  simp [hc, Locals.addDigit]

theorem pass_number_end (U : TranslationUnit) (buf : List Char) (n : Int)
    (f : ifstream) (m c : Char) (r : List Char) (g : Globals) (hgood : f.good = true)
    (hrem : f.remaining = c :: r) (hc : isdigit c = false) :
    getTokenPass U ⟨.NUMBER, buf, n⟩ ⟨f, m⟩ g = .token ⟨U.NUMBER, n⟩ ⟨f, c⟩ g := by
  simp only [getTokenPass, getCharacter_read f m c r hgood hrem, hc,
    unget_after_read f c r hgood hrem, Bool.false_eq_true, if_false]

theorem parked_nil (f : ifstream) (c : Char) (tail : List Char)
    (h : f.remaining = c :: tail) : Scanner.parked f [] c tail = ⟨f, c⟩ := by
  obtain ⟨ext, rem, e1, fl, b⟩ := f
  simp only at h
  subst h
  rfl

/-- The `NUMBER` state reads digits up to the first other character, puts that character
back, and returns the NUMBER token with the accumulated value. -/
theorem loop_number (U : TranslationUnit) (rest : List Char) (c : Char)
    (tail : List Char) (hrest : ∀ x ∈ rest, isdigit x = true) (hc : isdigit c = false)
    (more : Nat) :
    ∀ (buf : List Char) (n : Int) (f : ifstream) (m : Char) (g : Globals),
      f.good = true → f.remaining = rest ++ c :: tail →
      getTokenLoop U (rest.length + 1 + more) ⟨.NUMBER, buf, n⟩ ⟨f, m⟩ g =
        .ret (⟨U.NUMBER, accumulate n rest⟩, Scanner.parked f rest c tail, g) := by
  induction rest with
  | nil =>
    intro buf n f m g hgood hrem
    have e : (0 : Nat) + 1 + more = more + 1 := by omega
    simp only [List.length_nil, e, getTokenLoop, List.nil_append] at hrem ⊢
    rw [pass_number_end U buf n f m c tail g hgood hrem hc, parked_nil f c tail hrem]
    rfl
  | cons x r ih =>
    intro buf n f m g hgood hrem
    have e : (x :: r).length + 1 + more = (r.length + 1 + more) + 1 := by
      simp only [List.length_cons]; omega
    have hx := hrest x (List.mem_cons_self x r)
    simp only [e, getTokenLoop, List.cons_append] at hrem ⊢
    rw [pass_number_more U buf n f m x (r ++ c :: tail) g hgood hrem hx]
    simp only []
    rw [ih (fun y hy => hrest y (List.mem_cons_of_mem x hy)) buf _ _ x g
      (by simpa [ifstream.good] using hgood) rfl]
    simp only [parked_cons f x r c tail, accumulate, List.foldl_cons]

theorem wrapInt_of_fits (z : Int) (h0 : 0 ≤ z) (h1 : z < 2147483648) : wrapInt z = z := by
  unfold wrapInt
  omega

theorem digitValue_of_isdigit {c : Char} (h : isdigit c = true) :
    digitValue c = ((c.toNat - 48 : Nat) : Int) ∧ c.toNat - 48 ≤ 9 := by
  simp only [isdigit, Bool.and_eq_true, decide_eq_true_eq] at h
  unfold digitValue
  omega

theorem foldl_decimal_ge (ds : List Char) (a : Nat) :
    a ≤ ds.foldl (fun a c => a * 10 + (c.toNat - 48)) a := by
  induction ds generalizing a with
  | nil => exact Nat.le_refl a
  | cons d r ih =>
    simp only [List.foldl_cons]
    exact Nat.le_trans (by omega) (ih _)

/-- While the exact value fits a 32-bit `int`, the accumulator holds it. -/
theorem accumulate_exact (ds : List Char) (hds : ∀ x ∈ ds, isdigit x = true) (a : Nat)
    (h : ds.foldl (fun a c => a * 10 + (c.toNat - 48)) a < 2147483648) :
    accumulate (a : Int) ds = ((ds.foldl (fun a c => a * 10 + (c.toNat - 48)) a : Nat) : Int) := by
  induction ds generalizing a with
  | nil => rfl
  | cons d r ih =>
    simp only [accumulate, List.foldl_cons] at h ⊢
    obtain ⟨hv, _⟩ := digitValue_of_isdigit (hds d (List.mem_cons_self d r))
    have hle := foldl_decimal_ge r (a * 10 + (d.toNat - 48))
    have hw : wrapInt ((a : Int) * 10 + digitValue d) = ((a * 10 + (d.toNat - 48) : Nat) : Int) := by
      rw [hv, wrapInt_of_fits _ (by omega) (by omega)]
      push_cast
      rfl
    rw [hw]
    exact ih (fun y hy => hds y (List.mem_cons_of_mem d hy)) _ h

/-! ## The loop at the end of the input -/

theorem pass_identifier_exhausted (U : TranslationUnit) (buf : List Char) (n : Int)
    (f : ifstream) (m : Char) (g : Globals) (hf : f.exhausted)
    (hm : (isalpha m || isdigit m) = true) :
    ∃ f2 : ifstream, f2.exhausted ∧
      getTokenPass U ⟨.IDENTIFIER, buf, n⟩ ⟨f, m⟩ g =
        .again ⟨.IDENTIFIER, buf ++ [m], n⟩ ⟨f2, m⟩ g := by
  obtain ⟨h1, _, h3, _⟩ := getCharacter_exhausted f m hf
  refine ⟨(Scanner.getCharacter ⟨f, m⟩).m_file, h3, ?_⟩
  simp only [getTokenPass, h1, hm, if_true]
  congr 1
  cases hs : Scanner.getCharacter ⟨f, m⟩ with
  | mk f2 m2 => rw [hs] at h1; simp only at h1; rw [h1]

theorem pass_number_exhausted (U : TranslationUnit) (buf : List Char) (n : Int)
    (f : ifstream) (m : Char) (g : Globals) (hf : f.exhausted) (hm : isdigit m = true) :
    ∃ f2 : ifstream, f2.exhausted ∧
      getTokenPass U ⟨.NUMBER, buf, n⟩ ⟨f, m⟩ g =
        .again ⟨.NUMBER, buf, wrapInt (n * 10 + digitValue m)⟩ ⟨f2, m⟩ g := by
  obtain ⟨h1, _, h3, _⟩ := getCharacter_exhausted f m hf
  refine ⟨(Scanner.getCharacter ⟨f, m⟩).m_file, h3, ?_⟩
  simp only [getTokenPass, h1, hm, if_true, Locals.addDigit]
  congr 1
  cases hs : Scanner.getCharacter ⟨f, m⟩ with
  | mk f2 m2 => rw [hs] at h1; simp only at h1; rw [h1]

/-- In the `IDENTIFIER` state, once the stream delivers nothing more and `m_character`
still holds a letter or a digit, no number of passes ends the loop. -/
theorem loop_identifier_exhausted (U : TranslationUnit) (fuel : Nat) :
    ∀ (buf : List Char) (n : Int) (f : ifstream) (m : Char) (g : Globals),
      f.exhausted → (isalpha m || isdigit m) = true →
      getTokenLoop U fuel ⟨.IDENTIFIER, buf, n⟩ ⟨f, m⟩ g = .timeout := by
  induction fuel with
  | zero => intros; rfl
  | succ k ih =>
    intro buf n f m g hf hm
    obtain ⟨f2, hf2, hp⟩ := pass_identifier_exhausted U buf n f m g hf hm
    simp only [getTokenLoop, hp]
    exact ih _ _ f2 m g hf2 hm

theorem loop_number_exhausted (U : TranslationUnit) (fuel : Nat) :
    ∀ (buf : List Char) (n : Int) (f : ifstream) (m : Char) (g : Globals),
      f.exhausted → isdigit m = true →
      getTokenLoop U fuel ⟨.NUMBER, buf, n⟩ ⟨f, m⟩ g = .timeout := by
  induction fuel with
  | zero => intros; rfl
  | succ k ih =>
    intro buf n f m g hf hm
    obtain ⟨f2, hf2, hp⟩ := pass_number_exhausted U buf n f m g hf hm
    simp only [getTokenLoop, hp]
    exact ih _ _ f2 m g hf2 hm

theorem loop_identifier_to_end (U : TranslationUnit) (rest : List Char)
    (hrest : ∀ x ∈ rest, (isalpha x || isdigit x) = true) :
    ∀ (fuel : Nat) (buf : List Char) (n : Int) (f : ifstream) (m : Char) (g : Globals),
      f.remaining = rest → (isalpha m || isdigit m) = true →
      getTokenLoop U fuel ⟨.IDENTIFIER, buf, n⟩ ⟨f, m⟩ g = .timeout := by
  induction rest with
  | nil =>
    intro fuel buf n f m g hrem hm
    exact loop_identifier_exhausted U fuel buf n f m g (Or.inl hrem) hm
  | cons x r ih =>
    intro fuel buf n f m g hrem hm
    by_cases hgood : f.good = true
    · cases fuel with
      | zero => rfl
      | succ k =>
        simp only [getTokenLoop]
        rw [pass_identifier_more U buf n f m x r g hgood hrem
          (hrest x (List.mem_cons_self x r))]
        exact ih (fun y hy => hrest y (List.mem_cons_of_mem x hy)) k _ _ _ x g rfl
          (hrest x (List.mem_cons_self x r))
    · exact loop_identifier_exhausted U fuel buf n f m g
        (Or.inr (by simpa using hgood)) hm

theorem loop_number_to_end (U : TranslationUnit) (rest : List Char)
    (hrest : ∀ x ∈ rest, isdigit x = true) :
    ∀ (fuel : Nat) (buf : List Char) (n : Int) (f : ifstream) (m : Char) (g : Globals),
      f.remaining = rest → isdigit m = true →
      getTokenLoop U fuel ⟨.NUMBER, buf, n⟩ ⟨f, m⟩ g = .timeout := by
  induction rest with
  | nil =>
    intro fuel buf n f m g hrem hm
    exact loop_number_exhausted U fuel buf n f m g (Or.inl hrem) hm
  | cons x r ih =>
    intro fuel buf n f m g hrem hm
    by_cases hgood : f.good = true
    · cases fuel with
      | zero => rfl
      | succ k =>
        simp only [getTokenLoop]
        rw [pass_number_more U buf n f m x r g hgood hrem
          (hrest x (List.mem_cons_self x r))]
        exact ih (fun y hy => hrest y (List.mem_cons_of_mem x hy)) k _ _ _ x g rfl
          (hrest x (List.mem_cons_self x r))
    · exact loop_number_exhausted U fuel buf n f m g
        (Or.inr (by simpa using hgood)) hm

/-! ## Token starts: blanks, `!`, `<` and `>` -/

theorem pass_start_reset (U : TranslationUnit) (buf : List Char) (n : Int) (s : Scanner)
    (g : Globals) :
    getTokenPass U ⟨.INITIALIZATION, buf, n⟩ s g =
      getTokenPass U ⟨.INITIALIZATION, [], 0⟩ s g := by
  simp only [getTokenPass]

/-- The `INITIALIZATION` state reads blanks one by one and stays where it is. -/
theorem loop_skip_spaces (U : TranslationUnit) (ws rest : List Char)
    (hws : ∀ x ∈ ws, isspace x = true) (fuel : Nat) :
    ∀ (f : ifstream) (m : Char) (g : Globals),
      f.good = true → f.remaining = ws ++ rest →
      getTokenLoop U (ws.length + fuel) ⟨.INITIALIZATION, [], 0⟩ ⟨f, m⟩ g =
        getTokenLoop U fuel ⟨.INITIALIZATION, [], 0⟩
          ⟨f.advanced ws rest, lastRead m ws⟩ (g.countLines ws) := by
  induction ws with
  | nil =>
    intro f m g _ hrem
    simp only [List.nil_append] at hrem
    simp only [List.length_nil, Nat.zero_add, ifstream.advanced, List.reverse_nil,
      List.nil_append, lastRead, Globals.countLines, List.foldl_nil]
    obtain ⟨ext, rem, e1, fl, b⟩ := f
    simp only at hrem
    subst hrem
    rfl
  | cons w r ih =>
    intro f m g hgood hrem
    have e : (w :: r).length + fuel = (r.length + fuel) + 1 := by
      simp only [List.length_cons]; omega
    simp only [e, getTokenLoop, List.cons_append] at hrem ⊢
    rw [pass_start_space U [] 0 f m w (r ++ rest) g hgood hrem
      (hws w (List.mem_cons_self w r))]
    simp only []
    rw [ih (fun y hy => hws y (List.mem_cons_of_mem w hy)) _ w _
      (by simpa [ifstream.good] using hgood) rfl]
    simp [ifstream.advanced, lastRead, Globals.countLines]

theorem lastRead_mem (m : Char) (ws : List Char) (h : ws ≠ []) : lastRead m ws ∈ ws := by
  induction ws generalizing m with
  | nil => exact absurd rfl h
  | cons w r ih =>
    simp only [lastRead, List.foldl_cons]
    by_cases hr : r = []
    · subst hr; simp
    · exact List.mem_cons_of_mem w (ih w hr)

/-- The character before a token start is no `@` and no `"`, when it is a blank or, with
no blank read, the value `m_character` had. -/
theorem lastRead_flags (m : Char) (ws : List Char) (hws : ∀ x ∈ ws, isspace x = true)
    (hprev : ws = [] → m ≠ '@' ∧ m ≠ '"') :
    lastRead m ws ≠ '@' ∧ lastRead m ws ≠ '"' := by
  by_cases h : ws = []
  · subst h; exact hprev rfl
  · have hs := hws _ (lastRead_mem m ws h)
    constructor
    · intro e; rw [e] at hs; exact absurd hs (by decide)
    · intro e; rw [e] at hs; exact absurd hs (by decide)

theorem advanced_good (f : ifstream) (read rest : List Char) (h : f.good = true) :
    (f.advanced read rest).good = true := by
  simpa [ifstream.advanced, ifstream.good] using h

theorem pass_start_bang (U : TranslationUnit) (f : ifstream) (m : Char) (r : List Char)
    (g : Globals) (hgood : f.good = true) (hrem : f.remaining = '!' :: r)
    (h1 : m ≠ '@') (h2 : m ≠ '"') :
    getTokenPass U ⟨.INITIALIZATION, [], 0⟩ ⟨f, m⟩ g =
      .again ⟨.NOT_EQUAL, ['!'], 0⟩
        ⟨{ f with extracted := '!' :: f.extracted, remaining := r }, '!'⟩ g := by
  obtain ⟨hg, _, _⟩ := good_fields hgood
  simp only [getTokenPass, getCharacter_read f m '!' r hgood hrem]
  simp [ifstream.eof, hg, h1, h2, show isspace '!' = false by decide,
    show isalpha '!' = false by decide, show isdigit '!' = false by decide]

theorem pass_not_equal (U : TranslationUnit) (buf : List Char) (n : Int) (s : Scanner)
    (g : Globals) (h : s.m_character ≠ '=') :
    getTokenPass U ⟨.NOT_EQUAL, buf, n⟩ s g =
      .thrown (.runtime_error "[Scanner::getToken]: unexpected symbol '!'.") := by
  simp [getTokenPass, h]

/-- A token that starts with `!`: whatever follows, `getToken` raises "unexpected symbol
'!'", because `isAssign` is computed from the `!` itself. -/
theorem getToken_bang (U : TranslationUnit) (ws rest : List Char) (f : ifstream)
    (m : Char) (g : Globals) (more : Nat) (hws : ∀ x ∈ ws, isspace x = true)
    (hprev : ws = [] → m ≠ '@' ∧ m ≠ '"') (hgood : f.good = true)
    (hrem : f.remaining = ws ++ '!' :: rest) :
    Scanner.getToken U (ws.length + (2 + more)) ⟨f, m⟩ g =
      .raise (.runtime_error "[Scanner::getToken]: unexpected symbol '!'.") := by
  obtain ⟨h1, h2⟩ := lastRead_flags m ws hws hprev
  rw [Scanner.getToken, loop_skip_spaces U ws ('!' :: rest) hws (2 + more) f m g hgood hrem]
  have e : 2 + more = more + 1 + 1 := by omega
  rw [e, getTokenLoop,
    pass_start_bang U (f.advanced ws ('!' :: rest)) _ rest _ (advanced_good f _ _ hgood) rfl
      h1 h2]
  simp only [getTokenLoop]
  rw [pass_not_equal U _ _ _ _ (show ('!' : Char) ≠ '=' by decide)]

theorem pass_start_angle (U : TranslationUnit) (f : ifstream) (m c : Char) (r : List Char)
    (g : Globals) (hgood : f.good = true) (hrem : f.remaining = c :: r)
    (hc : c = '<' ∨ c = '>') (h1 : m ≠ '@') (h2 : m ≠ '"') :
    getTokenPass U ⟨.INITIALIZATION, [], 0⟩ ⟨f, m⟩ g =
      .again ⟨.LESS_GREATER, [c], 0⟩
        ⟨{ f with extracted := c :: f.extracted, remaining := r }, c⟩ g := by
  obtain ⟨hg, _, _⟩ := good_fields hgood
  simp only [getTokenPass, getCharacter_read f m c r hgood hrem]
  rcases hc with rfl | rfl
  · simp [ifstream.eof, hg, h1, h2, show isspace '<' = false by decide,
      show isalpha '<' = false by decide, show isdigit '<' = false by decide]
  · simp [ifstream.eof, hg, h1, h2, show isspace '>' = false by decide,
      show isalpha '>' = false by decide, show isdigit '>' = false by decide]

theorem pass_less_greater_read (U : TranslationUnit) (buf : List Char) (n : Int)
    (f : ifstream) (m c : Char) (r : List Char) (g : Globals) (hgood : f.good = true)
    (hrem : f.remaining = c :: r) (hm : m ≠ '=') :
    getTokenPass U ⟨.LESS_GREATER, buf, n⟩ ⟨f, m⟩ g =
      .token ⟨⟨tableLookup buf delimiterTable delimiterAmount + U.FINAL.toInt⟩,
        (tableLookup buf delimiterTable delimiterAmount : Nat)⟩ ⟨f, c⟩ g := by
  simp only [getTokenPass, lessGreater, getCharacter_read f m c r hgood hrem,
    unget_after_read f c r hgood hrem]
  simp [hm]

theorem pass_start_assign (U : TranslationUnit) (f : ifstream) (r : List Char)
    (g : Globals) (hgood : f.good = true) (hrem : f.remaining = '=' :: r) :
    getTokenPass U ⟨.INITIALIZATION, [], 0⟩ ⟨f, '='⟩ g =
      .token ⟨⟨5 + U.FINAL.toInt⟩, 5⟩
        ⟨{ f with extracted := '=' :: f.extracted, remaining := r }, '='⟩ g := by
  obtain ⟨hg, _, _⟩ := good_fields hgood
  simp only [getTokenPass, getCharacter_read f '=' '=' r hgood hrem]
  simp [ifstream.eof, hg, show isspace '=' = false by decide,
    show isalpha '=' = false by decide, show isdigit '=' = false by decide,
    show tableLookup ['='] delimiterTable delimiterAmount = 5 by decide]

theorem advanced_snoc (f : ifstream) (ws : List Char) (c : Char) (rest : List Char) :
    ({ f.advanced ws (c :: rest) with
        extracted := c :: (f.advanced ws (c :: rest)).extracted, remaining := rest } :
      ifstream) = f.advanced (ws ++ [c]) rest := by
  simp [ifstream.advanced]

/-- A token that starts with `<` or `>` followed by `=`: `getToken` returns the
one-character delimiter and leaves the `=` in the stream, because `isAssign` is
computed from the `<` or `>` itself. -/
theorem getToken_angle (U : TranslationUnit) (ws rest : List Char) (c : Char)
    (f : ifstream) (m : Char) (g : Globals) (more : Nat)
    (hws : ∀ x ∈ ws, isspace x = true) (hprev : ws = [] → m ≠ '@' ∧ m ≠ '"')
    (hgood : f.good = true) (hc : c = '<' ∨ c = '>')
    (hrem : f.remaining = ws ++ c :: '=' :: rest) :
    Scanner.getToken U (ws.length + (2 + more)) ⟨f, m⟩ g =
      .ret (⟨⟨tableLookup [c] delimiterTable delimiterAmount + U.FINAL.toInt⟩,
          (tableLookup [c] delimiterTable delimiterAmount : Nat)⟩,
        ⟨f.advanced (ws ++ [c]) ('=' :: rest), '='⟩, g.countLines ws) := by
  obtain ⟨h1, h2⟩ := lastRead_flags m ws hws hprev
  rw [Scanner.getToken,
    loop_skip_spaces U ws (c :: '=' :: rest) hws (2 + more) f m g hgood hrem]
  have e : 2 + more = more + 1 + 1 := by omega
  rw [e, getTokenLoop,
    pass_start_angle U (f.advanced ws (c :: '=' :: rest)) _ c ('=' :: rest) _
      (advanced_good f _ _ hgood) rfl hc h1 h2]
  simp only [getTokenLoop]
  rw [advanced_snoc f ws c ('=' :: rest),
    pass_less_greater_read U [c] 0 (f.advanced (ws ++ [c]) ('=' :: rest)) c '=' rest _
      (advanced_good f _ _ hgood) rfl (by rcases hc with rfl | rfl <;> decide)]

/-- C11, the general shape of the failure and two examples.  Wherever a token starts with
`<` or `>` immediately followed by `=` (after any blanks; with no blank before it the
previous character must not be `@` or `"`, which would make it comment or string
text), two calls of `getToken` return two tokens, LESS (payload 7) or GREATER
(payload 8) and then ASSIGN (payload 5): the compound LEQ or GEQ is not returned.  The
texts `a<=b;` and `a>=b;` scan to IDENTIFIER, LESS or GREATER, ASSIGN, IDENTIFIER,
SEMICOLON, whatever the uninitialised `m_character` holds. -/
theorem C11_compound_relational_not_scanned (ws rest : List Char) (c : Char) (f : ifstream)
    (m : Char) (g : Globals) (more : Nat) (hws : ∀ x ∈ ws, isspace x = true)
    (hprev : ws = [] → m ≠ '@' ∧ m ≠ '"') (hgood : f.good = true)
    (hc : c = '<' ∨ c = '>') (hrem : f.remaining = ws ++ c :: '=' :: rest) :
    Scanner.getTokens SyntaxAnalyzer (ws.length + (2 + more)) 2 ⟨f, m⟩ g =
        .ret ([⟨if c = '<' then TokenType.LESS else TokenType.GREATER,
                if c = '<' then 7 else 8⟩, ⟨TokenType.ASSIGN, 5⟩],
          ⟨f.advanced (ws ++ [c, '=']) rest, '='⟩, g.countLines ws) ∧
      (∀ garbage : Char,
        (Scanner.getTokens SyntaxAnalyzer 20 5 (Scanner.open "a<=b;".toList garbage)
            Globals.start).map (fun r => r.1) =
          .ret [⟨TokenType.IDENTIFIER, 0⟩, ⟨TokenType.LESS, 7⟩, ⟨TokenType.ASSIGN, 5⟩,
            ⟨TokenType.IDENTIFIER, 1⟩, ⟨TokenType.SEMICOLON, 1⟩] ∧
        (Scanner.getTokens SyntaxAnalyzer 20 5 (Scanner.open "a>=b;".toList garbage)
            Globals.start).map (fun r => r.1) =
          .ret [⟨TokenType.IDENTIFIER, 0⟩, ⟨TokenType.GREATER, 8⟩, ⟨TokenType.ASSIGN, 5⟩,
            ⟨TokenType.IDENTIFIER, 1⟩, ⟨TokenType.SEMICOLON, 1⟩]) := by
  have key : ∀ x ∈ ['@', '=', '"', ' '],
      (Scanner.getTokens SyntaxAnalyzer 20 5 (Scanner.open "a<=b;".toList x)
          Globals.start).map (fun r => r.1) =
        .ret [⟨TokenType.IDENTIFIER, 0⟩, ⟨TokenType.LESS, 7⟩, ⟨TokenType.ASSIGN, 5⟩,
          ⟨TokenType.IDENTIFIER, 1⟩, ⟨TokenType.SEMICOLON, 1⟩] ∧
      (Scanner.getTokens SyntaxAnalyzer 20 5 (Scanner.open "a>=b;".toList x)
          Globals.start).map (fun r => r.1) =
        .ret [⟨TokenType.IDENTIFIER, 0⟩, ⟨TokenType.GREATER, 8⟩, ⟨TokenType.ASSIGN, 5⟩,
          ⟨TokenType.IDENTIFIER, 1⟩, ⟨TokenType.SEMICOLON, 1⟩] := by
    decide!
  refine ⟨?_, fun garbage => ?_⟩
  · have first := getToken_angle SyntaxAnalyzer ws rest c f m g more hws hprev hgood hc hrem
    have e : ws.length + (2 + more) = (ws.length + (1 + more)) + 1 := by omega
    have second : Scanner.getToken SyntaxAnalyzer (ws.length + (2 + more))
        ⟨f.advanced (ws ++ [c]) ('=' :: rest), '='⟩ (g.countLines ws) =
        .ret (⟨TokenType.ASSIGN, 5⟩, ⟨f.advanced (ws ++ [c, '=']) rest, '='⟩,
          g.countLines ws) := by
      rw [Scanner.getToken, e, getTokenLoop,
        pass_start_assign SyntaxAnalyzer (f.advanced (ws ++ [c]) ('=' :: rest)) rest _
          (advanced_good f _ _ hgood) rfl]
      simp [ifstream.advanced, SyntaxAnalyzer, TokenType.FINAL, TokenType.ASSIGN]
    simp only [Scanner.getTokens, first, second]
    rcases hc with rfl | rfl
    · simp [show tableLookup ['<'] delimiterTable delimiterAmount = 7 by decide,
        SyntaxAnalyzer, TokenType.FINAL, TokenType.LESS]
    · simp [show tableLookup ['>'] delimiterTable delimiterAmount = 8 by decide,
        SyntaxAnalyzer, TokenType.FINAL, TokenType.GREATER]
  · obtain ⟨k1, k2⟩ := key _ (flagClass_mem garbage)
    exact ⟨(congrArg (Outcome.map _)
        (getTokens_garbage SyntaxAnalyzer 20 4 _ garbage Globals.start (by decide))).trans k1,
      (congrArg (Outcome.map _)
        (getTokens_garbage SyntaxAnalyzer 20 4 _ garbage Globals.start (by decide))).trans k2⟩

/-- C12, the general shape of the failure and an example.  Wherever a token starts with
`!` immediately followed by `=`, `getToken` raises "unexpected symbol '!'" and returns
no NEQ token.  On the text `a!=b;` the second call raises it, whatever the
uninitialised `m_character` holds. -/
theorem C12_not_equal_not_scanned (ws rest : List Char) (f : ifstream) (m : Char)
    (g : Globals) (more : Nat) (hws : ∀ x ∈ ws, isspace x = true)
    (hprev : ws = [] → m ≠ '@' ∧ m ≠ '"') (hgood : f.good = true)
    (hrem : f.remaining = ws ++ '!' :: '=' :: rest) :
    Scanner.getToken SyntaxAnalyzer (ws.length + (2 + more)) ⟨f, m⟩ g =
        .raise (.runtime_error "[Scanner::getToken]: unexpected symbol '!'.") ∧
      (∀ garbage : Char,
        (Scanner.getTokens SyntaxAnalyzer 20 1 (Scanner.open "a!=b;".toList garbage)
            Globals.start).map (fun r => r.1) = .ret [⟨TokenType.IDENTIFIER, 0⟩] ∧
        Scanner.getTokens SyntaxAnalyzer 20 2 (Scanner.open "a!=b;".toList garbage)
            Globals.start =
          .raise (.runtime_error "[Scanner::getToken]: unexpected symbol '!'.")) := by
  have key : ∀ x ∈ ['@', '=', '"', ' '],
      (Scanner.getTokens SyntaxAnalyzer 20 1 (Scanner.open "a!=b;".toList x)
          Globals.start).map (fun r => r.1) = .ret [⟨TokenType.IDENTIFIER, 0⟩] ∧
      Scanner.getTokens SyntaxAnalyzer 20 2 (Scanner.open "a!=b;".toList x)
          Globals.start =
        .raise (.runtime_error "[Scanner::getToken]: unexpected symbol '!'.") := by
    decide!
  refine ⟨getToken_bang SyntaxAnalyzer ws ('=' :: rest) f m g more hws hprev hgood hrem,
    fun garbage => ?_⟩
  obtain ⟨k1, k2⟩ := key _ (flagClass_mem garbage)
  exact ⟨(congrArg (Outcome.map _)
      (getTokens_garbage SyntaxAnalyzer 20 0 _ garbage Globals.start (by decide))).trans k1,
    (getTokens_garbage SyntaxAnalyzer 20 1 _ garbage Globals.start (by decide)).trans k2⟩

/-- A run of C11: a scanner that has just read `x` and has ` <=1` left to read. -/
theorem C11_compound_relational_not_scanned_witness :
    Scanner.getTokens SyntaxAnalyzer 3 2 ⟨ifstream.opened " <=1".toList, 'x'⟩ Globals.start =
      .ret ([⟨TokenType.LESS, 7⟩, ⟨TokenType.ASSIGN, 5⟩],
        ⟨(ifstream.opened " <=1".toList).advanced [' ', '<', '='] ['1'], '='⟩,
        Globals.start.countLines [' ']) :=
  (C11_compound_relational_not_scanned [' '] ['1'] '<' (ifstream.opened " <=1".toList) 'x'
    Globals.start 0 (by decide) (by decide) rfl (Or.inl rfl) rfl).1

/-- A run of C12: a scanner that has just read `x` and has ` !=1` left to read. -/
theorem C12_not_equal_not_scanned_witness :
    Scanner.getToken SyntaxAnalyzer 3 ⟨ifstream.opened " !=1".toList, 'x'⟩ Globals.start =
      .raise (.runtime_error "[Scanner::getToken]: unexpected symbol '!'.") :=
  (C12_not_equal_not_scanned [' '] ['1'] (ifstream.opened " !=1".toList) 'x'
    Globals.start 0 (by decide) (by decide) rfl rfl).1

/-! ## Identifiers, keywords and numbers -/

theorem advanced_advanced (f : ifstream) (ws : List Char) (x : Char) (rest r2 r3 : List Char) :
    ({ f.advanced (ws ++ [x]) r2 with
        extracted := rest.reverse ++ (f.advanced (ws ++ [x]) r2).extracted,
        remaining := r3 } : ifstream) = f.advanced (ws ++ x :: rest) r3 := by
  simp [ifstream.advanced]

/-- A token that starts with a letter, after any blanks, with the character `c` that ends
the word in the stream: the word is looked up and `c` is put back. -/
theorem getToken_word (U : TranslationUnit) (ws rest tail : List Char) (a c : Char)
    (f : ifstream) (m : Char) (g : Globals) (more : Nat)
    (hws : ∀ x ∈ ws, isspace x = true) (ha : isalpha a = true)
    (hrest : ∀ x ∈ rest, (isalpha x || isdigit x) = true)
    (hc : (isalpha c || isdigit c) = false) (hgood : f.good = true)
    (hrem : f.remaining = ws ++ a :: (rest ++ c :: tail)) :
    Scanner.getToken U (ws.length + (rest.length + 2 + more)) ⟨f, m⟩ g =
      .ret ((identifierToken U (a :: rest) (g.countLines ws)).1,
        ⟨f.advanced (ws ++ a :: rest) (c :: tail), c⟩,
        (identifierToken U (a :: rest) (g.countLines ws)).2) := by
  rw [Scanner.getToken,
    loop_skip_spaces U ws (a :: (rest ++ c :: tail)) hws _ f m g hgood hrem]
  have e : rest.length + 2 + more = (rest.length + 1 + more) + 1 := by omega
  rw [e, getTokenLoop,
    pass_start_alpha U [] 0 (f.advanced ws (a :: (rest ++ c :: tail))) _ a
      (rest ++ c :: tail) _ (advanced_good f _ _ hgood) rfl ha]
  simp only []
  rw [advanced_snoc f ws a (rest ++ c :: tail),
    loop_identifier U rest c tail hrest hc more [a] 0 _ a _ (advanced_good f _ _ hgood) rfl]
  simp only [Scanner.parked, advanced_advanced, List.singleton_append]

/-- A token that starts with a digit, after any blanks, with the character `c` that ends
the digits in the stream: the digits are accumulated and `c` is put back. -/
theorem getToken_digits (U : TranslationUnit) (ws rest tail : List Char) (a c : Char)
    (f : ifstream) (m : Char) (g : Globals) (more : Nat)
    (hws : ∀ x ∈ ws, isspace x = true) (ha : isdigit a = true)
    (hrest : ∀ x ∈ rest, isdigit x = true) (hc : isdigit c = false)
    (hgood : f.good = true) (hrem : f.remaining = ws ++ a :: (rest ++ c :: tail)) :
    Scanner.getToken U (ws.length + (rest.length + 2 + more)) ⟨f, m⟩ g =
      .ret (⟨U.NUMBER, accumulate (digitValue a) rest⟩,
        ⟨f.advanced (ws ++ a :: rest) (c :: tail), c⟩, g.countLines ws) := by
  rw [Scanner.getToken,
    loop_skip_spaces U ws (a :: (rest ++ c :: tail)) hws _ f m g hgood hrem]
  have e : rest.length + 2 + more = (rest.length + 1 + more) + 1 := by omega
  rw [e, getTokenLoop,
    pass_start_digit U [] 0 (f.advanced ws (a :: (rest ++ c :: tail))) _ a
      (rest ++ c :: tail) _ (advanced_good f _ _ hgood) rfl ha]
  simp only []
  rw [advanced_snoc f ws a (rest ++ c :: tail),
    loop_number U rest c tail hrest hc more [] (digitValue a) _ a _
      (advanced_good f _ _ hgood) rfl]
  simp only [Scanner.parked, advanced_advanced]

theorem tableLookupFrom_eq (b : List Char) (t : List (List Char)) (i : Nat) :
    tableLookupFrom b t i t.length = if b ∈ t then i + position b t else 0 := by
  induction t generalizing i with
  | nil => simp [tableLookupFrom]
  | cons entry rest ih =>
    simp only [List.length_cons, tableLookupFrom, ih, position, List.mem_cons]
    by_cases h : b = entry
    · simp [h]
    · have h2 : ¬ entry = b := fun e => h e.symm
      simp only [h, h2, if_false, false_or]
      split_ifs <;> omega

theorem tableLookup_eq (b : List Char) (t : List (List Char)) :
    tableLookup b t t.length = if b ∈ t then position b t else 0 := by
  simp [tableLookup, tableLookupFrom_eq]

theorem word_ne_sentinel (s : List Char) (hs : ∀ x ∈ s, (isalpha x || isdigit x) = true) :
    s ≠ "not_indexed".toList := by
  intro e
  have h := hs '_' (by rw [e]; decide)
  revert h
  decide

theorem serviceWordTable_eq (U : TranslationUnit)
    (hU : U = SyntaxAnalyzer ∨ U = LexicalAnalyzer) :
    U.serviceWordTable = "not_indexed".toList :: U.serviceWordTable.tail ∧
      U.serviceWordAmount = U.serviceWordTable.length := by
  rcases hU with rfl | rfl <;> exact ⟨rfl, rfl⟩

theorem word_position (U : TranslationUnit) (hU : U = SyntaxAnalyzer ∨ U = LexicalAnalyzer)
    (s : List Char) (hs : ∀ x ∈ s, (isalpha x || isdigit x) = true) :
    (s ∈ U.serviceWordTable ↔ s ∈ U.serviceWordTable.tail) ∧
      1 ≤ position s U.serviceWordTable := by
  obtain ⟨e, _⟩ := serviceWordTable_eq U hU
  have hne := word_ne_sentinel s hs
  have hne2 : ¬ "not_indexed".toList = s := fun h => hne h.symm
  constructor
  · rw [e, List.mem_cons, List.tail_cons]
    exact ⟨fun h => h.resolve_left hne, Or.inr⟩
  · rw [e, position, if_neg hne2]
    omega

theorem identifierToken_eq (U : TranslationUnit)
    (hU : U = SyntaxAnalyzer ∨ U = LexicalAnalyzer) (s : List Char)
    (hs : ∀ x ∈ s, (isalpha x || isdigit x) = true) (g : Globals) :
    identifierToken U s g =
      if s ∈ U.serviceWordTable.tail then
        (⟨⟨position s U.serviceWordTable⟩, (position s U.serviceWordTable : Nat)⟩, g)
      else (⟨U.IDENTIFIER, (addToIT s g).1⟩, (addToIT s g).2) := by
  obtain ⟨hmem, hpos⟩ := word_position U hU s hs
  obtain ⟨_, hlen⟩ := serviceWordTable_eq U hU
  rw [identifierToken, hlen, tableLookup_eq]
  by_cases h : s ∈ U.serviceWordTable.tail
  · have h2 : position s U.serviceWordTable ≠ 0 := by omega
    simp [h, hmem.2 h, h2]
  · have h3 : s ∉ U.serviceWordTable := fun k => h (hmem.1 k)
    simp [h, h3]

/-- C19. In both translation units, from any scanner state with a good stream: when the
input continues with blanks `ws`, a letter `a`, letters and digits `rest` and a
character `c` that is neither a letter nor a digit, `getToken` returns (given
`rest.length + 2` passes after the blanks) the keyword token whose kind and payload are
both the index of the spelling in the keyword table, if the spelling is one of the
keywords (entries 1 and up; then the index is at least 1 and the tables are unchanged),
and otherwise an IDENTIFIER token whose payload is what `addToIT` returns for the
spelling.  In both cases the stream is left before `c`: the next `getCharacter` reads
`c`. -/
theorem C19_word_gives_keyword_or_identifier (U : TranslationUnit)
    (hU : U = SyntaxAnalyzer ∨ U = LexicalAnalyzer) (ws rest tail : List Char) (a c : Char)
    (f : ifstream) (m : Char) (g : Globals) (more : Nat)
    (hws : ∀ x ∈ ws, isspace x = true) (ha : isalpha a = true)
    (hrest : ∀ x ∈ rest, (isalpha x || isdigit x) = true)
    (hc : (isalpha c || isdigit c) = false) (hgood : f.good = true)
    (hrem : f.remaining = ws ++ a :: (rest ++ c :: tail)) :
    Scanner.getToken U (ws.length + (rest.length + 2 + more)) ⟨f, m⟩ g =
        (if a :: rest ∈ U.serviceWordTable.tail then
          .ret (⟨⟨position (a :: rest) U.serviceWordTable⟩,
              (position (a :: rest) U.serviceWordTable : Nat)⟩,
            ⟨f.advanced (ws ++ a :: rest) (c :: tail), c⟩, g.countLines ws)
        else
          .ret (⟨U.IDENTIFIER, (addToIT (a :: rest) (g.countLines ws)).1⟩,
            ⟨f.advanced (ws ++ a :: rest) (c :: tail), c⟩,
            (addToIT (a :: rest) (g.countLines ws)).2)) ∧
      (a :: rest ∈ U.serviceWordTable.tail → 1 ≤ position (a :: rest) U.serviceWordTable) ∧
      Scanner.getCharacter ⟨f.advanced (ws ++ a :: rest) (c :: tail), c⟩ =
        ⟨f.advanced (ws ++ a :: rest ++ [c]) tail, c⟩ := by
  have hs : ∀ x ∈ a :: rest, (isalpha x || isdigit x) = true := by
    intro x hx
    rcases List.mem_cons.1 hx with rfl | hx
    · simp [ha]
    · exact hrest x hx
  refine ⟨?_, fun _ => (word_position U hU _ hs).2, ?_⟩
  · rw [getToken_word U ws rest tail a c f m g more hws ha hrest hc hgood hrem,
      identifierToken_eq U hU _ hs]
    split_ifs <;> rfl
  · rw [getCharacter_read (f.advanced (ws ++ a :: rest) (c :: tail)) c c tail
      (advanced_good f _ _ hgood) rfl]
    exact congrArg (fun x => Scanner.mk x c) (advanced_snoc f (ws ++ a :: rest) c tail)

/-- Two runs of C19 on a fresh scanner: `while(` gives the keyword token WHILE with
payload 10 and leaves `(`; ` x1;` gives IDENTIFIER with payload 0, enters `x1` in the
Identifier Table and leaves `;`. -/
theorem C19_word_gives_keyword_or_identifier_witness :
    Scanner.getToken SyntaxAnalyzer 6 (Scanner.open "while(".toList ' ') Globals.start =
        .ret (⟨TokenType.WHILE, 10⟩, ⟨⟨"elihw".toList, ['('], false, false, false⟩, '('⟩,
          Globals.start) ∧
      Scanner.getToken SyntaxAnalyzer 4 (Scanner.open " x1;".toList ' ') Globals.start =
        .ret (⟨TokenType.IDENTIFIER, 0⟩, ⟨⟨"1x ".toList, [';'], false, false, false⟩, ';'⟩,
          ⟨[⟨"x1".toList, none, false, false, none, 0⟩], [], 1, 1⟩) :=
  ⟨(C19_word_gives_keyword_or_identifier SyntaxAnalyzer (Or.inl rfl) [] "hile".toList []
      'w' '(' (ifstream.opened "while(".toList) ' ' Globals.start 0 (by decide) (by decide)
      (by decide) (by decide) rfl rfl).1.trans (by decide!),
    (C19_word_gives_keyword_or_identifier SyntaxAnalyzer (Or.inl rfl) [' '] ['1'] []
      'x' ';' (ifstream.opened " x1;".toList) ' ' Globals.start 0 (by decide) (by decide)
      (by decide) (by decide) rfl rfl).1.trans (by decide!)⟩

/-- C20. In both translation units, from any scanner state with a good stream: when the
input continues with blanks `ws`, a digit `a`, digits `rest` and a character `c` that
is not a digit, `getToken` returns (given `rest.length + 2` passes after the blanks) a
NUMBER token whose payload is accumulated as `acc = acc * 10 + digit` in 32-bit `int`
arithmetic starting from the first digit; that payload is the decimal value of the
digits whenever the value is below 2^31.  The tables are unchanged and the stream is
left before `c`: the next `getCharacter` reads `c`. -/
theorem C20_digits_give_number (U : TranslationUnit) (ws rest tail : List Char) (a c : Char)
    (f : ifstream) (m : Char) (g : Globals) (more : Nat)
    (hws : ∀ x ∈ ws, isspace x = true) (ha : isdigit a = true)
    (hrest : ∀ x ∈ rest, isdigit x = true) (hc : isdigit c = false)
    (hgood : f.good = true) (hrem : f.remaining = ws ++ a :: (rest ++ c :: tail)) :
    Scanner.getToken U (ws.length + (rest.length + 2 + more)) ⟨f, m⟩ g =
        .ret (⟨U.NUMBER, accumulate (digitValue a) rest⟩,
          ⟨f.advanced (ws ++ a :: rest) (c :: tail), c⟩, g.countLines ws) ∧
      (decimalValue (a :: rest) < 2147483648 →
        accumulate (digitValue a) rest = (decimalValue (a :: rest) : Nat)) ∧
      Scanner.getCharacter ⟨f.advanced (ws ++ a :: rest) (c :: tail), c⟩ =
        ⟨f.advanced (ws ++ a :: rest ++ [c]) tail, c⟩ := by
  refine ⟨getToken_digits U ws rest tail a c f m g more hws ha hrest hc hgood hrem, ?_, ?_⟩
  · intro h
    have h2 : rest.foldl (fun a c => a * 10 + (c.toNat - 48)) (a.toNat - 48) < 2147483648 := by
      simpa [decimalValue] using h
    rw [(digitValue_of_isdigit ha).1, accumulate_exact rest hrest _ h2]
    simp [decimalValue]
  · rw [getCharacter_read (f.advanced (ws ++ a :: rest) (c :: tail)) c c tail
      (advanced_good f _ _ hgood) rfl]
    exact congrArg (fun x => Scanner.mk x c) (advanced_snoc f (ws ++ a :: rest) c tail)

/-- Two runs of C20 on a fresh scanner: `123;` gives NUMBER with payload 123 and leaves
`;`, and the payload of the digits `2147483647` is 2147483647. -/
theorem C20_digits_give_number_witness :
    Scanner.getToken SyntaxAnalyzer 4 (Scanner.open "123;".toList ' ') Globals.start =
        .ret (⟨TokenType.NUMBER, 123⟩, ⟨⟨"321".toList, [';'], false, false, false⟩, ';'⟩,
          Globals.start) ∧
      accumulate (digitValue '2') "147483647".toList = 2147483647 :=
  ⟨(C20_digits_give_number SyntaxAnalyzer [] "23".toList [] '1' ';'
      (ifstream.opened "123;".toList) ' ' Globals.start 0 (by decide) (by decide)
      (by decide) (by decide) rfl rfl).1.trans (by decide!),
    ((C20_digits_give_number SyntaxAnalyzer [] "147483647".toList [] '2' ';'
      (ifstream.opened "2147483647;".toList) ' ' Globals.start 0 (by decide) (by decide)
      (by decide) (by decide) rfl rfl).2.1 (by decide)).trans (by decide)⟩

/-! ## The end of the input -/

theorem getToken_timeout_of_large (U : TranslationUnit) (s : Scanner) (g : Globals)
    (k : Nat) (h : ∀ more, s.getToken U (k + more) g = .timeout) :
    ∀ fuel, s.getToken U fuel g = .timeout := by
  intro fuel
  by_contra hne
  have e := getToken_mono U fuel s g hne k
  rw [Nat.add_comm, h fuel] at e
  exact hne e.symm

/-- An identifier that runs to the end of the input, after any blanks: no number of
passes ends the loop in `case State::IDENTIFIER`. -/
theorem getToken_word_to_end (U : TranslationUnit) (ws rest : List Char) (a : Char)
    (f : ifstream) (m : Char) (g : Globals) (hws : ∀ x ∈ ws, isspace x = true)
    (ha : isalpha a = true) (hrest : ∀ x ∈ rest, (isalpha x || isdigit x) = true)
    (hgood : f.good = true) (hrem : f.remaining = ws ++ a :: rest) :
    ∀ fuel, Scanner.getToken U fuel ⟨f, m⟩ g = .timeout := by
  refine getToken_timeout_of_large U _ g (ws.length + 1) fun more => ?_
  rw [Scanner.getToken, Nat.add_assoc,
    loop_skip_spaces U ws (a :: rest) hws _ f m g hgood hrem,
    show 1 + more = more + 1 from Nat.add_comm 1 more, getTokenLoop,
    pass_start_alpha U [] 0 (f.advanced ws (a :: rest)) _ a rest _
      (advanced_good f _ _ hgood) rfl ha]
  exact loop_identifier_to_end U rest hrest more [a] 0 _ a _ rfl (by simp [ha])

/-- A number that runs to the end of the input, after any blanks: no number of passes
ends the loop in `case State::NUMBER`. -/
theorem getToken_digits_to_end (U : TranslationUnit) (ws rest : List Char) (a : Char)
    (f : ifstream) (m : Char) (g : Globals) (hws : ∀ x ∈ ws, isspace x = true)
    (ha : isdigit a = true) (hrest : ∀ x ∈ rest, isdigit x = true)
    (hgood : f.good = true) (hrem : f.remaining = ws ++ a :: rest) :
    ∀ fuel, Scanner.getToken U fuel ⟨f, m⟩ g = .timeout := by
  refine getToken_timeout_of_large U _ g (ws.length + 1) fun more => ?_
  rw [Scanner.getToken, Nat.add_assoc,
    loop_skip_spaces U ws (a :: rest) hws _ f m g hgood hrem,
    show 1 + more = more + 1 from Nat.add_comm 1 more, getTokenLoop,
    pass_start_digit U [] 0 (f.advanced ws (a :: rest)) _ a rest _
      (advanced_good f _ _ hgood) rfl ha]
  exact loop_number_to_end U rest hrest more [] (digitValue a) _ a _ rfl ha

/-- C18, refuted in general.  In both translation units, from any scanner state with a
good stream: when what is left of the input is blanks `ws` followed by either a letter
and then letters and digits, or a digit and then digits, up to the very end of the
input, `getToken` neither returns a token nor raises within any number of passes: the
failed read at the end of the input leaves the last letter or digit in `m_character`,
and `case State::IDENTIFIER` and `case State::NUMBER` take it for one more character
of the token, for ever. -/
theorem C18_getToken_loops_at_end_of_input (U : TranslationUnit) (ws rest : List Char)
    (a : Char) (f : ifstream) (m : Char) (g : Globals) (fuel : Nat)
    (hws : ∀ x ∈ ws, isspace x = true)
    (ha : (isalpha a = true ∧ ∀ x ∈ rest, (isalpha x || isdigit x) = true) ∨
      (isdigit a = true ∧ ∀ x ∈ rest, isdigit x = true))
    (hgood : f.good = true) (hrem : f.remaining = ws ++ a :: rest) :
    Scanner.getToken U fuel ⟨f, m⟩ g = .timeout := by
  rcases ha with ⟨ha, hrest⟩ | ⟨ha, hrest⟩
  · exact getToken_word_to_end U ws rest a f m g hws ha hrest hgood hrem fuel
  · exact getToken_digits_to_end U ws rest a f m g hws ha hrest hgood hrem fuel

/-- Two runs of C18 on a fresh scanner: the files `a` and ` 42` (no newline at the end),
each given a thousand passes. -/
theorem C18_getToken_loops_at_end_of_input_witness :
    Scanner.getToken SyntaxAnalyzer 1000 (Scanner.open "a".toList ' ') Globals.start =
        .timeout ∧
      Scanner.getToken LexicalAnalyzer 1000 (Scanner.open " 42".toList ' ') Globals.start =
        .timeout :=
  ⟨C18_getToken_loops_at_end_of_input SyntaxAnalyzer [] [] 'a' (ifstream.opened "a".toList)
      ' ' Globals.start 1000 (by decide) (Or.inl ⟨by decide, by decide⟩) rfl rfl,
    C18_getToken_loops_at_end_of_input LexicalAnalyzer [' '] ['2'] '4'
      (ifstream.opened " 42".toList) ' ' Globals.start 1000 (by decide)
      (Or.inr ⟨by decide, by decide⟩) rfl rfl⟩

theorem getCharacter_keeps_eof (s : Scanner) (h : s.m_file.eof = true) :
    s.getCharacter.m_file.eof = true := by
  have hg : s.m_file.good = false := by
    simp only [ifstream.eof] at h
    simp [ifstream.good, h]
  simp only [Scanner.getCharacter, ifstream.get, hg]
  exact h

theorem pass_start_eof (U : TranslationUnit) (buf : List Char) (n : Int) (s : Scanner)
    (g : Globals) (h : s.getCharacter.m_file.eof = true) :
    getTokenPass U ⟨.INITIALIZATION, buf, n⟩ s g = .token ⟨U.FINAL, 0⟩ s.getCharacter g := by
  simp only [getTokenPass]
  simp [h]

theorem getTokens_at_eof (U : TranslationUnit) (fuel : Nat) :
    ∀ (calls : Nat) (s : Scanner) (g : Globals), s.m_file.eof = true →
      Scanner.getTokens U (fuel + 1) calls s g =
          .ret (List.replicate calls ⟨U.FINAL, 0⟩, Scanner.getCharacter^[calls] s, g) ∧
        (Scanner.getCharacter^[calls] s).m_file.eof = true := by
  intro calls
  induction calls with
  | zero => intro s g h; exact ⟨rfl, h⟩
  | succ k ih =>
    intro s g h
    have h1 := getCharacter_keeps_eof s h
    obtain ⟨e1, e2⟩ := ih s.getCharacter g h1
    refine ⟨?_, by rw [Function.iterate_succ_apply]; exact e2⟩
    simp only [Scanner.getTokens, Scanner.getToken, getTokenLoop,
      pass_start_eof U [] 0 s g h1, e1, Function.iterate_succ_apply, List.replicate_succ]

/-- C14. In both translation units and in every scanner state: when the read at the top of a
pass in the state INITIALIZATION hits the end of the input (`eof()` is true after
`getCharacter()`), that pass returns the FINAL token with payload 0 and leaves the
tables unchanged; and from the scanner state it leaves, any number of further calls of
`getToken`, each given at least one pass, all return that FINAL token, none raises, the
Identifier Table and the String Table stay as they were, and `eof()` stays true. -/
theorem C14_final_repeats_after_eof (U : TranslationUnit) (s : Scanner) (g : Globals)
    (buf : List Char) (n : Int) (fuel calls : Nat)
    (h : s.getCharacter.m_file.eof = true) :
    getTokenPass U ⟨.INITIALIZATION, buf, n⟩ s g = .token ⟨U.FINAL, 0⟩ s.getCharacter g ∧
      Scanner.getTokens U (fuel + 1) calls s.getCharacter g =
        .ret (List.replicate calls ⟨U.FINAL, 0⟩,
          Scanner.getCharacter^[calls] s.getCharacter, g) ∧
      (Scanner.getCharacter^[calls] s.getCharacter).m_file.eof = true :=
  ⟨pass_start_eof U buf n s g h, getTokens_at_eof U fuel calls s.getCharacter g h⟩

/-- A run of C14: on the file ` ;` the third call of `getToken` meets the end of the
input, and the three calls after it return FINAL with the tables as they were. -/
theorem C14_final_repeats_after_eof_witness :
    Scanner.getTokens SyntaxAnalyzer 3 2 (Scanner.open " ;".toList ' ') Globals.start =
        .ret ([⟨TokenType.SEMICOLON, 1⟩, ⟨TokenType.FINAL, 0⟩],
          Scanner.getCharacter ⟨⟨"; ".toList, [], false, false, false⟩, ';'⟩,
          Globals.start.countLine ' ') ∧
      Scanner.getTokens SyntaxAnalyzer 1 3
          (Scanner.getCharacter ⟨⟨"; ".toList, [], false, false, false⟩, ';'⟩)
          (Globals.start.countLine ' ') =
        .ret ([⟨TokenType.FINAL, 0⟩, ⟨TokenType.FINAL, 0⟩, ⟨TokenType.FINAL, 0⟩],
          Scanner.getCharacter^[3]
            (Scanner.getCharacter ⟨⟨"; ".toList, [], false, false, false⟩, ';'⟩),
          Globals.start.countLine ' ') :=
  ⟨by decide!,
    (C14_final_repeats_after_eof SyntaxAnalyzer ⟨⟨"; ".toList, [], false, false, false⟩, ';'⟩
      (Globals.start.countLine ' ') [] 0 0 3 (by decide)).2.1⟩

/-! ## Declarations and constants -/

theorem Outcome.bind_eq_ret {α β : Type} {x : Outcome α} {k : α → Outcome β} {b : β}
    (h : (x >>= k) = .ret b) : ∃ a, x = .ret a ∧ k a = .ret b := by
  cases x with
  | ret a => exact ⟨a, rfl, by simpa using h⟩
  | raise e => simp at h
  | timeout => simp at h

theorem Parser.declarationsWhile_true_ne_ret (fuel : Nat) :
    ∀ (p : Parser) (g : Globals) (x : Parser × Globals),
      Parser.declarationsWhile true fuel p g ≠ .ret x := by
  induction fuel with
  | zero =>
    intro p g x h
    simp [Parser.declarationsWhile] at h
  | succ n ih =>
    intro p g x h
    rw [Parser.declarationsWhile_succ] at h
    obtain ⟨r, _, h2⟩ := Outcome.bind_eq_ret h
    obtain ⟨r2, _, h3⟩ := Outcome.bind_eq_ret (show
      (r.1.checkToken TokenType.SEMICOLON r.2 >>= fun r2 =>
        r2.1.getToken n r2.2 >>= fun r3 => Parser.declarationsWhile true n r3.1 r3.2) =
          .ret x from h2)
    obtain ⟨r3, _, h4⟩ := Outcome.bind_eq_ret h3
    exact ih r3.1 r3.2 x h4

theorem Parser.constant_of_not_sign (fuel : Nat) (p : Parser) (g : Globals)
    (hminus : p.m_tokenType ≠ TokenType.MINUS) (hplus : p.m_tokenType ≠ TokenType.PLUS) :
    p.constant fuel g = .raise (.runtime_error "[Parser]: expected constant!") := by
  have h : ¬ (p.m_tokenType = TokenType.NUMBER ∧ p.m_tokenType = TokenType.STRING_CONST) := by
    rintro ⟨h1, h2⟩
    rw [h1] at h2
    exact absurd h2 (by decide)
  simp [Parser.constant, hminus, hplus, h]

/-- C15, refuted in general and at an example.  Once `declarations()` is entered with INT
or STRING as the current token it never returns normally, with any fuel, from any
parser state: its flag `isDeclaration` is computed once before `while (isDeclaration)`
and the loop has no other way out than an exception.  On the program
`program{ int x; x; }`, whatever the uninitialised `m_character` holds, `declarations()`
(called where `analyze()` calls it) raises "invalid type of token": after `int x;` the
loop demands an identifier and finds `;`, the identifier `x` having been pulled by the
`getToken()` that ends the loop body.  So does `analyze()`, which never reaches
`statements()`. -/
theorem C15_declarations_never_returns (garbage : Char) :
    (∀ (fuel : Nat) (p : Parser) (g : Globals) (x : Parser × Globals),
      p.m_tokenType = TokenType.INT ∨ p.m_tokenType = TokenType.STRING →
        p.declarations fuel g ≠ .ret x) ∧
    ((Parser.make "program\x7b int x; x; \x7d".toList garbage).getTokenExpect
        TokenType.START 20 Globals.start >>= fun r =>
      r.1.getTokenExpect TokenType.BEGIN 20 r.2 >>= fun r =>
      r.1.getToken 20 r.2 >>= fun r =>
      r.1.declarations 20 r.2) =
        .raise (.runtime_error "[Parser]: invalid type of token!") ∧
    (Parser.make "program\x7b int x; x; \x7d".toList garbage).analyze 20 Globals.start =
      .raise (.runtime_error "[Parser]: invalid type of token!") ∧
    ∀ (fuel : Nat) (x : Parser × Globals),
      (Parser.make "program\x7b int x; x; \x7d".toList garbage).analyze fuel Globals.start ≠
        .ret x := by
  have key : ∀ c ∈ ['@', '=', '"', ' '],
      ((Parser.make "program\x7b int x; x; \x7d".toList c).getTokenExpect
          TokenType.START 20 Globals.start >>= fun r =>
        r.1.getTokenExpect TokenType.BEGIN 20 r.2 >>= fun r =>
        r.1.getToken 20 r.2 >>= fun r =>
        r.1.declarations 20 r.2) =
          .raise (.runtime_error "[Parser]: invalid type of token!") ∧
      (Parser.make "program\x7b int x; x; \x7d".toList c).analyze 20 Globals.start =
        .raise (.runtime_error "[Parser]: invalid type of token!") := by
    decide!
  obtain ⟨k1, k2⟩ := key _ (flagClass_mem garbage)
  have h2 := (analyze_garbage 20 _ garbage Globals.start (by decide)).trans k2
  refine ⟨fun fuel p g x hty => ?_, ?_, h2, fun fuel x => ?_⟩
  · have : (decide (p.m_tokenType = TokenType.INT) ||
        decide (p.m_tokenType = TokenType.STRING)) = true := by
      rcases hty with h | h <;> simp [h]
    simp only [Parser.declarations, this]
    exact Parser.declarationsWhile_true_ne_ret fuel p g x
  · exact (congrArg (fun o : Outcome (Parser × Globals) => o >>= fun r =>
        r.1.getTokenExpect TokenType.BEGIN 20 r.2 >>= fun r =>
        r.1.getToken 20 r.2 >>= fun r =>
        r.1.declarations 20 r.2)
      (getTokenExpect_garbage TokenType.START 20 _ garbage Globals.start (by decide))).trans k1
  · exact Outcome.ne_of_fuel_cases
      (Parser.analyze_fuel_cases 20 fuel _ _ (by rw [h2]; simp)) (by rw [h2]; simp) (by simp)

/-- C16, refuted in general and at its own example.  `constant()` raises "expected
constant!" whenever the current token is neither MINUS nor PLUS, in particular on an
unsigned NUMBER token and on a STRING_CONST token: its test `isConst` asks the token to
be NUMBER and STRING_CONST at once.  It returns normally only after a sign followed by
a NUMBER.  On the program `program{ int x = 1; }`, whatever the uninitialised
`m_character` holds, `analyze()` raises "expected constant!" and with no fuel completes
normally. -/
theorem C16_constant_rejects_unsigned (garbage : Char) :
    (∀ (fuel : Nat) (p : Parser) (g : Globals),
      p.m_tokenType = TokenType.NUMBER ∨ p.m_tokenType = TokenType.STRING_CONST →
        p.constant fuel g = .raise (.runtime_error "[Parser]: expected constant!")) ∧
    (∀ (fuel : Nat) (p : Parser) (g : Globals) (x : Parser × Globals),
      p.constant fuel g = .ret x →
        (p.m_tokenType = TokenType.MINUS ∨ p.m_tokenType = TokenType.PLUS) ∧
          x.1.m_tokenType = TokenType.NUMBER) ∧
    (Parser.make "program\x7b int x = 1; \x7d".toList garbage).analyze 20 Globals.start =
      .raise (.runtime_error "[Parser]: expected constant!") ∧
    ∀ (fuel : Nat) (x : Parser × Globals),
      (Parser.make "program\x7b int x = 1; \x7d".toList garbage).analyze fuel
        Globals.start ≠ .ret x := by
  have key : ∀ c ∈ ['@', '=', '"', ' '],
      (Parser.make "program\x7b int x = 1; \x7d".toList c).analyze 20 Globals.start =
        .raise (.runtime_error "[Parser]: expected constant!") := by
    decide!
  have h2 := (analyze_garbage 20 _ garbage Globals.start (by decide)).trans
    (key _ (flagClass_mem garbage))
  refine ⟨fun fuel p g hty => ?_, fun fuel p g x hx => ?_, h2, fun fuel x => ?_⟩
  · refine Parser.constant_of_not_sign fuel p g ?_ ?_
    · rcases hty with h | h <;> rw [h] <;> decide
    · rcases hty with h | h <;> rw [h] <;> decide
  · by_cases hs : p.m_tokenType = TokenType.MINUS ∨ p.m_tokenType = TokenType.PLUS
    · refine ⟨hs, ?_⟩
      have hb : (decide (p.m_tokenType = TokenType.MINUS) ||
          decide (p.m_tokenType = TokenType.PLUS)) = true := by
        rcases hs with h | h <;> simp [h]
      simp only [Parser.constant, hb, if_true] at hx
      obtain ⟨r, _, h3⟩ := Outcome.bind_eq_ret hx
      by_cases hn : r.1.m_tokenType = TokenType.NUMBER
      · have e : x = r := by
          simpa [hn] using h3.symm
        rw [e]
        exact hn
      · simp [hn] at h3
    · rw [Parser.constant_of_not_sign fuel p g (fun h => hs (Or.inl h))
        (fun h => hs (Or.inr h))] at hx
      simp at hx
  · exact Outcome.ne_of_fuel_cases
      (Parser.analyze_fuel_cases 20 fuel _ _ (by rw [h2]; simp)) (by rw [h2]; simp) (by simp)

/-! ## Relational expressions -/

theorem Parser.compareOperand_identifier (n : Nat) (p p1 : Parser) (g g1 : Globals)
    (hid : p.m_tokenType = TokenType.IDENTIFIER)
    (h : p.getToken (n + 1) g = .ret (p1, g1))
    (hk : p1.m_tokenType ∉
      [TokenType.MULTIPLY, TokenType.DIVIDE, TokenType.PLUS, TokenType.MINUS]) :
    Parser.compareOperand (n + 4) p g = .ret (p1, g1) := by
  simp only [List.mem_cons, List.mem_singleton, List.not_mem_nil, or_false, not_or] at hk
  obtain ⟨hm, hd, hp, hmi⟩ := hk
  rw [Parser.compareOperand, Parser.termOperand, Parser.multiplierOperand,
    Parser.multiplierOperandNot]
  simp [hid, Parser.multiplierOperandSign, Parser.value, h, Parser.termOperandWhile,
    Parser.compareOperandWhile, hm, hd, hp, hmi,
    show TokenType.IDENTIFIER ≠ TokenType.NOT by decide,
    show TokenType.IDENTIFIER ≠ TokenType.PLUS by decide,
    show TokenType.IDENTIFIER ≠ TokenType.MINUS by decide,
    show TokenType.IDENTIFIER ≠ TokenType.LEFT_BRACKET by decide]

theorem TokenType.isCompareOperand_kinds (k : TokenType) (h : k.isCompareOperand = true) :
    k ∉ [TokenType.MULTIPLY, TokenType.DIVIDE, TokenType.PLUS, TokenType.MINUS] ∧
      k ≠ TokenType.AND ∧ k ≠ TokenType.OR ∧ k ≠ TokenType.ASSIGN ∧
      k ≠ TokenType.SEMICOLON := by
  refine ⟨?_, ?_, ?_, ?_, ?_⟩
  · intro hm
    simp only [List.mem_cons, List.mem_singleton, List.not_mem_nil, or_false] at hm
    rcases hm with e | e | e | e <;> rw [e] at h <;> revert h <;> decide
  all_goals
    intro e
    rw [e] at h
    revert h
    decide

theorem Parser.andOperand_one_relational (n : Nat) (pa p1 pb p2 : Parser)
    (ga g1 gb g2 : Globals) (hida : pa.m_tokenType = TokenType.IDENTIFIER)
    (h2 : pa.getToken (n + 1) ga = .ret (p1, g1))
    (hr1 : p1.m_tokenType.isCompareOperand = true)
    (h3 : p1.getToken (n + 1) g1 = .ret (pb, gb))
    (hidb : pb.m_tokenType = TokenType.IDENTIFIER)
    (h4 : pb.getToken (n + 1) gb = .ret (p2, g2))
    (hk : p2.m_tokenType ∉
      [TokenType.MULTIPLY, TokenType.DIVIDE, TokenType.PLUS, TokenType.MINUS]) :
    Parser.andOperand (n + 5) pa ga = .ret (p2, g2) := by
  have c1 := Parser.compareOperand_identifier n pa p1 ga g1 hida h2
    (TokenType.isCompareOperand_kinds _ hr1).1
  have c2 := Parser.compareOperand_identifier n pb p2 gb g2 hidb h4 hk
  have h3b := Parser.pull_ret_mono (n + 1) p1 g1 _ h3 3
  have hr : (decide (p1.m_tokenType.toInt ≥ TokenType.EQUAL.toInt) &&
      decide (p1.m_tokenType.toInt ≤ TokenType.GEQ.toInt)) = true := hr1
  rw [Parser.andOperand]
  simp only [c1, Outcome.ret_bind, hr, if_true, h3b, c2]

theorem Parser.statement_one_relational (n : Nat) (pa p1 pb p2 : Parser)
    (ga g1 gb g2 : Globals) (hida : pa.m_tokenType = TokenType.IDENTIFIER)
    (h2 : pa.getToken (n + 1) ga = .ret (p1, g1))
    (hr1 : p1.m_tokenType.isCompareOperand = true)
    (h3 : p1.getToken (n + 1) g1 = .ret (pb, gb))
    (hidb : pb.m_tokenType = TokenType.IDENTIFIER)
    (h4 : pb.getToken (n + 1) gb = .ret (p2, g2))
    (hk : p2.m_tokenType ∉
      [TokenType.MULTIPLY, TokenType.DIVIDE, TokenType.PLUS, TokenType.MINUS])
    (hand : p2.m_tokenType ≠ TokenType.AND) (hor : p2.m_tokenType ≠ TokenType.OR)
    (hassign : p2.m_tokenType ≠ TokenType.ASSIGN) :
    Parser.statement (n + 9) pa ga = p2.checkToken TokenType.SEMICOLON g2 := by
  have c := Parser.andOperand_one_relational n pa p1 pb p2 ga g1 gb g2 hida h2 hr1 h3 hidb
    h4 hk
  rw [Parser.statement]
  simp [hida, Parser.expression, Parser.assignOperand, Parser.orOperand, c,
    Parser.orOperandWhile, Parser.assignOperandWhile, Parser.expressionWhile, hand, hor,
    hassign, show TokenType.IDENTIFIER ≠ TokenType.READ by decide,
    show TokenType.IDENTIFIER ≠ TokenType.WRITE by decide,
    show TokenType.IDENTIFIER ≠ TokenType.WHILE by decide,
    show TokenType.IDENTIFIER ≠ TokenType.IF by decide,
    show TokenType.IDENTIFIER ≠ TokenType.LABEL by decide,
    show TokenType.IDENTIFIER ≠ TokenType.GOTO by decide,
    show TokenType.IDENTIFIER ≠ TokenType.BEGIN by decide]

theorem Parser.getToken_zero (p : Parser) (g : Globals) : p.getToken 0 g = .timeout := rfl

/-- C17. Let the scanner deliver, from parser state `p`, an IDENTIFIER, a relational
operator `r1` (a kind from EQUAL to GEQ), an IDENTIFIER and a token of kind `k`.  After
the first `getToken()`: if `k` is none of MULTIPLY, DIVIDE, PLUS and MINUS, `andOperand()`
returns in the state reached by those four calls of `getToken()`, so with the token of
kind `k` as the current token and nothing read after it; if `k` is again a relational
operator, `statement()` raises "invalid type of token" at its `checkToken(SEMICOLON)`;
and if `k` is SEMICOLON, `statement()` returns normally in the state after the four
calls.  For the two example texts, whatever the uninitialised `m_character` holds:
on `a<b<c;` `andOperand()` returns with the second `<` (LESS, payload 7) as the current
token and `c;` unread and `statement()` raises "invalid type of token"; on `a<b;`
`statement()` returns with the SEMICOLON as the current token. -/
theorem C17_andOperand_takes_one_relational (fuel more : Nat) (p : Parser) (g : Globals)
    (r1 k : TokenType) (hr1 : r1.isCompareOperand = true)
    (hp : Parser.Pulls fuel p g [TokenType.IDENTIFIER, r1, TokenType.IDENTIFIER, k]) :
    (Parser.pull fuel 4 p g).map (fun r => r.1.m_tokenType) = .ret k ∧
    (k ∉ [TokenType.MULTIPLY, TokenType.DIVIDE, TokenType.PLUS, TokenType.MINUS] →
      (Parser.pull fuel 1 p g >>= fun r => Parser.andOperand (fuel + 4 + more) r.1 r.2) =
        Parser.pull fuel 4 p g) ∧
    (k.isCompareOperand = true →
      (Parser.pull fuel 1 p g >>= fun r => Parser.statement (fuel + 8 + more) r.1 r.2) =
        .raise (.runtime_error "[Parser]: invalid type of token!")) ∧
    (k = TokenType.SEMICOLON →
      (Parser.pull fuel 1 p g >>= fun r => Parser.statement (fuel + 8 + more) r.1 r.2) =
        Parser.pull fuel 4 p g) ∧
    (∀ garbage : Char,
      ((Parser.make "a<b<c;".toList garbage).getToken 20 Globals.start >>= fun r =>
          Parser.andOperand 20 r.1 r.2).map
            (fun r => (r.1.m_token, r.1.m_scanner.m_file.remaining)) =
        .ret (⟨TokenType.LESS, 7⟩, "c;".toList) ∧
      ((Parser.make "a<b<c;".toList garbage).getToken 20 Globals.start >>= fun r =>
          Parser.statement 20 r.1 r.2) =
        .raise (.runtime_error "[Parser]: invalid type of token!") ∧
      ((Parser.make "a<b;".toList garbage).getToken 20 Globals.start >>= fun r =>
          Parser.statement 20 r.1 r.2).map
            (fun r => (r.1.m_token, r.1.m_scanner.m_file.remaining)) =
        .ret (⟨TokenType.SEMICOLON, 1⟩, [])) := by
  have key : ∀ c ∈ ['@', '=', '"', ' '],
      ((Parser.make "a<b<c;".toList c).getToken 20 Globals.start >>= fun r =>
          Parser.andOperand 20 r.1 r.2).map
            (fun r => (r.1.m_token, r.1.m_scanner.m_file.remaining)) =
        .ret (⟨TokenType.LESS, 7⟩, "c;".toList) ∧
      ((Parser.make "a<b<c;".toList c).getToken 20 Globals.start >>= fun r =>
          Parser.statement 20 r.1 r.2) =
        .raise (.runtime_error "[Parser]: invalid type of token!") ∧
      ((Parser.make "a<b;".toList c).getToken 20 Globals.start >>= fun r =>
          Parser.statement 20 r.1 r.2).map
            (fun r => (r.1.m_token, r.1.m_scanner.m_file.remaining)) =
        .ret (⟨TokenType.SEMICOLON, 1⟩, []) := by
    decide!
  obtain ⟨pa, ga, h1, hida, p1, g1, h2, hk1, pb, gb, h3, hidb, p2, g2, h4, hk2, _⟩ := hp
  cases fuel with
  | zero => rw [Parser.getToken_zero] at h1; exact absurd h1 (by simp)
  | succ n0 =>
    have e1 : Parser.pull (n0 + 1) 1 p g = .ret (pa, ga) := by
      simp [Parser.pull, h1]
    have e4 : Parser.pull (n0 + 1) 4 p g = .ret (p2, g2) := by
      simp [Parser.pull, h1, h2, h3, h4]
    have hn : n0 + 1 + more = n0 + more + 1 := by omega
    have h2b := Parser.pull_ret_mono (n0 + 1) pa ga _ h2 more
    have h3b := Parser.pull_ret_mono (n0 + 1) p1 g1 _ h3 more
    have h4b := Parser.pull_ret_mono (n0 + 1) pb gb _ h4 more
    rw [hn] at h2b h3b h4b
    have hr1b : p1.m_tokenType.isCompareOperand = true := by rw [hk1]; exact hr1
    have ea : n0 + 1 + 4 + more = n0 + more + 5 := by omega
    have es : n0 + 1 + 8 + more = n0 + more + 9 := by omega
    refine ⟨by simp [e4, Outcome.map, hk2], fun hk => ?_, fun hk => ?_, fun hk => ?_,
      fun garbage => ?_⟩
    · rw [e1, e4, ea]
      exact Parser.andOperand_one_relational (n0 + more) pa p1 pb p2 ga g1 gb g2 hida h2b
        hr1b h3b hidb h4b (by rw [hk2]; exact hk)
    · obtain ⟨ka, kand, kor, kassign, ksemi⟩ := TokenType.isCompareOperand_kinds k hk
      rw [e1, es]
      exact (Parser.statement_one_relational (n0 + more) pa p1 pb p2 ga g1 gb g2 hida h2b
        hr1b h3b hidb h4b (by rw [hk2]; exact ka) (by rw [hk2]; exact kand)
        (by rw [hk2]; exact kor) (by rw [hk2]; exact kassign)).trans
        (checkToken_ne _ p2 g2 (by rw [hk2]; exact ksemi))
    · rw [e1, e4, es]
      exact (Parser.statement_one_relational (n0 + more) pa p1 pb p2 ga g1 gb g2 hida h2b
        hr1b h3b hidb h4b (by rw [hk2, hk]; decide) (by rw [hk2, hk]; decide)
        (by rw [hk2, hk]; decide) (by rw [hk2, hk]; decide)).trans
        (checkToken_eq _ p2 g2 (by rw [hk2, hk]))
    · obtain ⟨k1, k2, k3⟩ := key _ (flagClass_mem garbage)
      have gt : ∀ src : List Char, src ≠ [] →
          (Parser.make src garbage).getToken 20 Globals.start =
            (Parser.make src (flagClass garbage)).getToken 20 Globals.start := by
        intro src hsrc
        simp only [Parser.getToken, Parser.make]
        rw [getToken_garbage SyntaxAnalyzer 20 src garbage Globals.start hsrc]
      refine ⟨?_, ?_, ?_⟩
      · rw [gt _ (by decide)]; exact k1
      · rw [gt _ (by decide)]; exact k2
      · rw [gt _ (by decide)]; exact k3

/-- A run of C17 on a fresh scanner over `a<b<c;`: the scanner delivers IDENTIFIER, LESS,
IDENTIFIER, LESS, and `statement()` raises "invalid type of token". -/
theorem C17_andOperand_takes_one_relational_witness :
    (Parser.pull 10 1 (Parser.make "a<b<c;".toList ' ') Globals.start >>= fun r =>
        Parser.statement 18 r.1 r.2) =
      .raise (.runtime_error "[Parser]: invalid type of token!") :=
  (C17_andOperand_takes_one_relational 10 0 (Parser.make "a<b<c;".toList ' ') Globals.start
    TokenType.LESS TokenType.LESS (by decide)
    (Parser.pulls_of_pullKinds 10 _ _ _ (by decide!))).2.2.1 (by decide)


/-! ## Sequential ids in the Identifier Table -/

theorem addToIT_ids (name : List Char) (g : Globals)
    (hcount : g.s_idCount = g.IdentifierTable.length)
    (hids : g.ids = List.range g.IdentifierTable.length) :
    (addToIT name g).2.s_idCount = (addToIT name g).2.IdentifierTable.length ∧
      (addToIT name g).2.ids = List.range (addToIT name g).2.IdentifierTable.length := by
  by_cases h : name ∈ g.names
  · rw [addToIT_found name g h]
    exact ⟨hcount, hids⟩
  · rw [addToIT_fresh name g h]
    refine ⟨by simp [hcount], ?_⟩
    simp only [Globals.ids] at hids
    simp [Globals.ids, hids, Identifier.make, Identifier.getID, hcount, List.range_succ]

theorem addToITAll_ids (names : List (List Char)) (g : Globals)
    (hcount : g.s_idCount = g.IdentifierTable.length)
    (hids : g.ids = List.range g.IdentifierTable.length) :
    (addToITAll names g).2.s_idCount = (addToITAll names g).2.IdentifierTable.length ∧
      (addToITAll names g).2.ids = List.range (addToITAll names g).2.IdentifierTable.length := by
  induction names generalizing g with
  | nil => exact ⟨hcount, hids⟩
  | cons name rest ih =>
    obtain ⟨h1, h2⟩ := addToIT_ids name g hcount hids
    exact ih (addToIT name g).2 h1 h2

theorem getID_of_ids (g : Globals) (hids : g.ids = List.range g.IdentifierTable.length)
    (i : Nat) (e : Identifier) (h : g.IdentifierTable.get? i = some e) : e.getID = i := by
  have hlt : i < g.IdentifierTable.length := by
    by_contra hn
    rw [List.get?_eq_none.2 (by omega)] at h
    cases h
  have h1 : g.ids.get? i = some e.getID := by
    simp only [Globals.ids, List.get?_eq_getElem?, List.getElem?_map] at h ⊢
    rw [h]
    rfl
  rw [hids, List.get?_eq_getElem?, List.getElem?_range hlt] at h1
  exact (Option.some.inj h1).symm

theorem mem_firstOccurrences {α : Type} [DecidableEq α] (x : α) (xs : List α) :
    x ∈ firstOccurrences xs ↔ x ∈ xs := by
  induction xs with
  | nil => simp [firstOccurrences]
  | cons y ys ih =>
    simp only [firstOccurrences, List.mem_cons, List.mem_filter, ih, ne_eq,
      decide_not, Bool.not_eq_true', decide_eq_false_iff_not]
    by_cases h : x = y
    · simp [h]
    · simp [h]

theorem Pass.sequential_ite (c : Prop) [Decidable c] (a b : Pass)
    (ha : c → a.Sequential) (hb : ¬c → b.Sequential) : (if c then a else b).Sequential := by
  by_cases h : c
  · rw [if_pos h]; exact ha h
  · rw [if_neg h]; exact hb h

theorem getTokenPass_sequential (U : TranslationUnit) (l : Locals) (s : Scanner)
    (g : Globals) (h : g.Sequential) : (getTokenPass U l s g).Sequential := by
  have hline : ∀ c, (g.countLine c).Sequential := fun _ => h
  obtain ⟨st, buf, num⟩ := l
  cases st
  case INITIALIZATION =>
    simp only [getTokenPass]
    generalize s.getCharacter = s1
    refine Pass.sequential_ite _ _ _ (fun _ => h) (fun _ => ?_)
    refine Pass.sequential_ite _ _ _ (fun _ => hline _) (fun _ => ?_)
    refine Pass.sequential_ite _ _ _ (fun _ => h) (fun _ => ?_)
    refine Pass.sequential_ite _ _ _ (fun _ => h) (fun _ => ?_)
    refine Pass.sequential_ite _ _ _ (fun _ => h) (fun _ => ?_)
    refine Pass.sequential_ite _ _ _ (fun _ => h) (fun _ => ?_)
    refine Pass.sequential_ite _ _ _ (fun _ => h) (fun _ => ?_)
    refine Pass.sequential_ite _ _ _ (fun _ => h) (fun _ => ?_)
    exact Pass.sequential_ite _ _ _ (fun _ => h) (fun _ => trivial)
  case IDENTIFIER =>
    simp only [getTokenPass]
    refine Pass.sequential_ite _ _ _ (fun _ => h) (fun _ => ?_)
    exact Pass.sequential_ite _ _ _ (fun _ => h) (fun _ => addToIT_ids buf g h.1 h.2)
  case NUMBER =>
    simp only [getTokenPass]
    exact Pass.sequential_ite _ _ _ (fun _ => h) (fun _ => h)
  case COMMENT =>
    simp only [getTokenPass]
    refine Pass.sequential_ite _ _ _ (fun _ => h) (fun _ => ?_)
    exact Pass.sequential_ite _ _ _ (fun _ => trivial) (fun _ => hline _)
  case STRING =>
    simp only [getTokenPass, lessGreater]
    refine Pass.sequential_ite _ _ _ (fun _ => h) (fun _ => ?_)
    exact Pass.sequential_ite _ _ _ (fun _ => h) (fun _ => h)
  case LESS_GREATER =>
    simp only [getTokenPass, lessGreater]
    exact Pass.sequential_ite _ _ _ (fun _ => h) (fun _ => h)
  case NOT_EQUAL =>
    simp only [getTokenPass]
    exact Pass.sequential_ite _ _ _ (fun _ => h) (fun _ => trivial)
  case DELIMITER =>
    simp only [getTokenPass]
    exact h

theorem getTokenLoop_sequential (U : TranslationUnit) (fuel : Nat) :
    ∀ (l : Locals) (s : Scanner) (g : Globals) (x : Token × Scanner × Globals),
      g.Sequential → getTokenLoop U fuel l s g = .ret x → x.2.2.Sequential := by
  induction fuel with
  | zero =>
    intro l s g x _ h
    simp [getTokenLoop] at h
  | succ n ih =>
    intro l s g x hg h
    have hp := getTokenPass_sequential U l s g hg
    simp only [getTokenLoop] at h
    cases hq : getTokenPass U l s g with
    | again l2 s2 g2 =>
      rw [hq] at h hp
      exact ih l2 s2 g2 x hp h
    | token t s2 g2 =>
      rw [hq] at h hp
      simp only [Outcome.ret.injEq] at h
      rw [← h]
      exact hp
    | thrown e =>
      rw [hq] at h
      simp at h

theorem getTokens_sequential (U : TranslationUnit) (fuel : Nat) :
    ∀ (calls : Nat) (s : Scanner) (g : Globals) (x : List Token × Scanner × Globals),
      g.Sequential → Scanner.getTokens U fuel calls s g = .ret x → x.2.2.Sequential := by
  intro calls
  induction calls with
  | zero =>
    intro s g x hg h
    simp only [Scanner.getTokens, Outcome.ret.injEq] at h
    rw [← h]
    exact hg
  | succ k ih =>
    intro s g x hg h
    simp only [Scanner.getTokens] at h
    cases h1 : s.getToken U fuel g with
    | ret r =>
      obtain ⟨t, s1, g1⟩ := r
      have hg1 : g1.Sequential := getTokenLoop_sequential U fuel _ s g _ hg h1
      rw [h1] at h
      simp only at h
      cases h2 : Scanner.getTokens U fuel k s1 g1 with
      | ret r2 =>
        obtain ⟨ts, s2, g2⟩ := r2
        rw [h2] at h
        simp only [Outcome.ret.injEq] at h
        rw [← h]
        exact ih s1 g1 (ts, s2, g2) hg1 h2
      | raise e => rw [h2] at h; simp at h
      | timeout => rw [h2] at h; simp at h
    | raise e => rw [h1] at h; simp at h
    | timeout => rw [h1] at h; simp at h

/-- C24. Starting from an empty Identifier Table and `s_idCount = 0`, after `addToIT` has
been called on the names of any finite sequence: the ids stored in the table are
0, 1, 2, ... in table order, that is, the entry at index `i` has `getID() == i` for every
`i`; `s_idCount` equals the size of the table; and the value returned by each call is
the index of an entry that carries the name of the call and has that value as its
id.  The same holds for the table left by any number of calls of `getToken`, of either
translation unit, that start from such globals: the scanner changes the table through
`addToIT` only. -/
theorem C24_ids_equal_positions (names : List (List Char)) (g : Globals)
    (hempty : g.IdentifierTable = []) (hcount : g.s_idCount = 0) :
    (addToITAll names g).2.ids = List.range (addToITAll names g).2.IdentifierTable.length ∧
      (∀ (i : Nat) (e : Identifier),
        (addToITAll names g).2.IdentifierTable.get? i = some e → e.getID = i) ∧
      (addToITAll names g).2.s_idCount = (addToITAll names g).2.IdentifierTable.length ∧
      (∀ (k : Nat) (name : List Char) (v : Int),
        names.get? k = some name → (addToITAll names g).1.get? k = some v →
          ∃ e : Identifier,
            (addToITAll names g).2.IdentifierTable.get? v.toNat = some e ∧
              e.getName = name ∧ (e.getID : Int) = v) ∧
      ∀ (U : TranslationUnit) (fuel calls : Nat) (s : Scanner)
        (x : List Token × Scanner × Globals),
        Scanner.getTokens U fuel calls s g = .ret x →
          ∀ (i : Nat) (e : Identifier), x.2.2.IdentifierTable.get? i = some e → e.getID = i := by
  obtain ⟨h1, h2⟩ := addToITAll_ids names g (by simp [hempty, hcount])
    (by simp [Globals.ids, hempty])
  refine ⟨h2, getID_of_ids _ h2, h1, ?_, fun U fuel calls s x hx =>
    getID_of_ids _ (getTokens_sequential U fuel calls s g x
      ⟨by simp [hempty, hcount], by simp [Globals.ids, hempty]⟩ hx).2⟩
  intro k name v hk hv
  rw [addToITAll_values, List.get?_eq_getElem?, List.getElem?_map] at hv
  rw [List.get?_eq_getElem?] at hk
  rw [hk] at hv
  simp only [Option.map_some', Option.some.injEq] at hv
  have hmem : name ∈ (addToITAll names g).2.names := by
    rw [addToITAll_names]
    have hin : name ∈ names := List.mem_iff_getElem?.2 ⟨k, hk⟩
    simp [Globals.names, hempty, mem_firstOccurrences, hin]
  have hget := position_get? hmem
  rw [Globals.names, List.get?_eq_getElem?, List.getElem?_map] at hget
  cases he : (addToITAll names g).2.IdentifierTable[position name
      ((addToITAll names g).2.IdentifierTable.map Identifier.getName)]? with
  | none => rw [he] at hget; cases hget
  | some e =>
    rw [he] at hget
    have hname : e.getName = name := Option.some.inj hget
    have hidx := getID_of_ids _ h2 _ e (by rw [List.get?_eq_getElem?]; exact he)
    refine ⟨e, ?_, hname, ?_⟩
    · rw [← hv, Globals.names, Int.toNat_ofNat, List.get?_eq_getElem?]
      exact he
    · rw [← hv, hidx, Globals.names]

/-- A run of C24 on the sequence a, b, a, c, b: the three entries have the ids 0, 1, 2
and the counter is 3. -/
theorem C24_ids_equal_positions_witness :
    (addToITAll [['a'], ['b'], ['a'], ['c'], ['b']] Globals.start).2.ids = [0, 1, 2] ∧
      (addToITAll [['a'], ['b'], ['a'], ['c'], ['b']] Globals.start).2.s_idCount = 3 := by
  have h := C24_ids_equal_positions [['a'], ['b'], ['a'], ['c'], ['b']] Globals.start rfl rfl
  exact ⟨h.1.trans (by decide), h.2.2.1.trans (by decide)⟩

/-! ## Operands of expressions -/

theorem pass_start_delimiter (U : TranslationUnit) (buf : List Char) (n : Int)
    (f : ifstream) (m c : Char) (r : List Char) (g : Globals) (hgood : f.good = true)
    (hrem : f.remaining = c :: r) (h1 : m ≠ '@') (h2 : m ≠ '"')
    (hspace : isspace c = false) (halpha : isalpha c = false) (hdigit : isdigit c = false)
    (hc : c ∉ [':', '<', '>', '!']) :
    getTokenPass U ⟨.INITIALIZATION, buf, n⟩ ⟨f, m⟩ g =
      if tableLookup [c] delimiterTable delimiterAmount ≠ 0 then
        .token ⟨⟨tableLookup [c] delimiterTable delimiterAmount + U.FINAL.toInt⟩,
            (tableLookup [c] delimiterTable delimiterAmount : Nat)⟩
          ⟨{ f with extracted := c :: f.extracted, remaining := r }, c⟩ g
      else .thrown (.character c) := by
  obtain ⟨hg, _, _⟩ := good_fields hgood
  simp only [List.mem_cons, List.mem_singleton, List.not_mem_nil, or_false, not_or] at hc
  obtain ⟨c1, c2, c3, c4⟩ := hc
  simp only [getTokenPass, getCharacter_read f m c r hgood hrem]
  simp [ifstream.eof, hg, h1, h2, hspace, halpha, hdigit, c1, c2, c3, c4]

/-- A token that starts, after any blanks, with a character that is no blank, letter or
digit and none of `:`, `<`, `>`, `!`: it is looked up in the delimiter table. -/
theorem getToken_delimiter (U : TranslationUnit) (ws rest : List Char) (c : Char)
    (f : ifstream) (m : Char) (g : Globals) (more : Nat)
    (hws : ∀ x ∈ ws, isspace x = true) (hprev : ws = [] → m ≠ '@' ∧ m ≠ '"')
    (hgood : f.good = true) (hrem : f.remaining = ws ++ c :: rest)
    (hspace : isspace c = false) (halpha : isalpha c = false) (hdigit : isdigit c = false)
    (hc : c ∉ [':', '<', '>', '!']) :
    Scanner.getToken U (ws.length + (1 + more)) ⟨f, m⟩ g =
      if tableLookup [c] delimiterTable delimiterAmount ≠ 0 then
        .ret (⟨⟨tableLookup [c] delimiterTable delimiterAmount + U.FINAL.toInt⟩,
            (tableLookup [c] delimiterTable delimiterAmount : Nat)⟩,
          ⟨f.advanced (ws ++ [c]) rest, c⟩, g.countLines ws)
      else .raise (.character c) := by
  obtain ⟨h1, h2⟩ := lastRead_flags m ws hws hprev
  rw [Scanner.getToken, loop_skip_spaces U ws (c :: rest) hws (1 + more) f m g hgood hrem,
    show 1 + more = more + 1 from Nat.add_comm 1 more, getTokenLoop,
    pass_start_delimiter U [] 0 (f.advanced ws (c :: rest)) _ c rest _
      (advanced_good f _ _ hgood) rfl h1 h2 hspace halpha hdigit hc,
    advanced_snoc f ws c rest]
  split_ifs <;> rfl

theorem delimiterTable_eq :
    delimiterTable =
      [['@'], [';'], [':'], ['.'], [','], ['='], ['=', '='], ['<'], ['>'], ['!', '='],
        ['<', '='], ['>', '='], ['('], [')'], ['\x7b'], ['\x7d'], ['+'], ['-'], ['*'],
        ['/']] := by
  decide

theorem delimiterKind_none (c : Char) (hc : c ∉ [':', '<', '>', '!'])
    (hd : c ∉ [';', '.', ',', '=', '(', ')', '\x7b', '\x7d', '+', '-', '*', '/']) :
    delimiterKind c = none ∧ LexicalAnalyzer.delimiterKind c = none ∧
      tableLookup [c] delimiterTable delimiterAmount = 0 := by
  simp only [List.mem_cons, List.mem_singleton, List.not_mem_nil, or_false, not_or] at hc hd
  obtain ⟨c1, c2, c3, c4⟩ := hc
  obtain ⟨d1, d2, d3, d4, d5, d6, d7, d8, d9, d10, d11, d12⟩ := hd
  refine ⟨?_, ?_, ?_⟩
  · simp [delimiterKind, d1, d2, d3, d4, d5, d6, d7, d8, d9, d10, d11, d12]
  · simp [LexicalAnalyzer.delimiterKind, d1, d2, d3, d4, d5, d6, d7, d8, d9, d10, d11, d12]
  · by_cases hat : c = '@'
    · rw [hat]; decide
    · have hlen : delimiterAmount = delimiterTable.length := by decide
      rw [hlen, tableLookup_eq, if_neg]
      rw [delimiterTable_eq]
      simp [c1, c2, c3, d1, d2, d3, d4, d5, d6, d7, d8, d9, d10, d11, d12, hat]

theorem delimiterKind_some (c : Char)
    (hd : c ∈ [';', '.', ',', '=', '(', ')', '\x7b', '\x7d', '+', '-', '*', '/']) :
    ∃ k k2 : TokenType, delimiterKind c = some k ∧ LexicalAnalyzer.delimiterKind c = some k2 ∧
      tableLookup [c] delimiterTable delimiterAmount = position [c] delimiterTable ∧
      1 ≤ position [c] delimiterTable ∧
      k.toInt = position [c] delimiterTable + TokenType.FINAL.toInt ∧
      k2.toInt = position [c] delimiterTable + LexicalAnalyzer.TokenType.FINAL.toInt := by
  simp only [List.mem_cons, List.mem_singleton, List.not_mem_nil, or_false] at hd
  rcases hd with h | h | h | h | h | h | h | h | h | h | h | h <;> rw [h] <;>
    exact ⟨_, _, rfl, rfl, by decide, by decide, by decide, by decide⟩

theorem delimiterOutcome_eq (U : TranslationUnit) (kind : Option TokenType) (c : Char)
    (s : Scanner) (g : Globals)
    (hsome : ∀ k, kind = some k →
      tableLookup [c] delimiterTable delimiterAmount = position [c] delimiterTable ∧
        1 ≤ position [c] delimiterTable ∧
        k.toInt = position [c] delimiterTable + U.FINAL.toInt)
    (hnone : kind = none → tableLookup [c] delimiterTable delimiterAmount = 0) :
    (if tableLookup [c] delimiterTable delimiterAmount ≠ 0 then
        Outcome.ret ((⟨⟨tableLookup [c] delimiterTable delimiterAmount + U.FINAL.toInt⟩,
            (tableLookup [c] delimiterTable delimiterAmount : Nat)⟩ : Token), s, g)
      else .raise (.character c)) = delimiterOutcome kind c s g := by
  cases kind with
  | none => rw [hnone rfl]; rfl
  | some k =>
    obtain ⟨e1, e2, e3⟩ := hsome k rfl
    rw [e1, if_pos (by omega)]
    obtain ⟨n⟩ := k
    simp only at e3
    rw [e3]
    rfl

/-- From any scanner state with a good stream, when the input continues with blanks
`ws` and a character `c` that is no blank, letter or digit and none of `:`, `<`, `>`
and `!` (with no blank before `c` the previous character must not be `@` or `"`, which
would make `c` comment or string text): if `c` is one of `;` `.` `,` `=` `(` `)` `{` `}`
`+` `-` `*` `/`, `getToken` returns the token of the kind named for `c`, with the index
of `c` in the delimiter table as payload, and `c` is consumed; otherwise it throws the
character `c`.  The kind is the index plus FINAL, and the index is never the sentinel 0.
This holds in `syntax_analyzer.cpp` and in `lexical_analyzer.cpp`, each with its own
enumerator values. -/
theorem getToken_delimiter_kind (ws rest : List Char) (c : Char)
    (f : ifstream) (m : Char) (g : Globals) (more : Nat)
    (hws : ∀ x ∈ ws, isspace x = true) (hprev : ws = [] → m ≠ '@' ∧ m ≠ '"')
    (hgood : f.good = true) (hrem : f.remaining = ws ++ c :: rest)
    (hspace : isspace c = false) (halpha : isalpha c = false) (hdigit : isdigit c = false)
    (hc : c ∉ [':', '<', '>', '!']) :
    Scanner.getToken SyntaxAnalyzer (ws.length + (1 + more)) ⟨f, m⟩ g =
        delimiterOutcome (delimiterKind c) c ⟨f.advanced (ws ++ [c]) rest, c⟩
          (g.countLines ws) ∧
      Scanner.getToken LexicalAnalyzer (ws.length + (1 + more)) ⟨f, m⟩ g =
        delimiterOutcome (LexicalAnalyzer.delimiterKind c) c
          ⟨f.advanced (ws ++ [c]) rest, c⟩ (g.countLines ws) ∧
      (delimiterKind c ≠ none ↔
        c ∈ [';', '.', ',', '=', '(', ')', '\x7b', '\x7d', '+', '-', '*', '/']) ∧
      (∀ k, delimiterKind c = some k →
        1 ≤ position [c] delimiterTable ∧
          k.toInt = position [c] delimiterTable + TokenType.FINAL.toInt) ∧
      (∀ k, LexicalAnalyzer.delimiterKind c = some k →
        1 ≤ position [c] delimiterTable ∧
          k.toInt = position [c] delimiterTable + LexicalAnalyzer.TokenType.FINAL.toInt) := by
  have hS := getToken_delimiter SyntaxAnalyzer ws rest c f m g more hws hprev hgood hrem
    hspace halpha hdigit hc
  have hL := getToken_delimiter LexicalAnalyzer ws rest c f m g more hws hprev hgood hrem
    hspace halpha hdigit hc
  by_cases hd : c ∈ [';', '.', ',', '=', '(', ')', '\x7b', '\x7d', '+', '-', '*', '/']
  · obtain ⟨k, k2, e1, e2, e3, e4, e5, e6⟩ := delimiterKind_some c hd
    refine ⟨?_, ?_, ?_, ?_, ?_⟩
    · rw [hS]
      exact delimiterOutcome_eq SyntaxAnalyzer _ c _ _
        (fun k1 hk1 => by
          rw [e1] at hk1
          cases hk1
          exact ⟨e3, e4, e5⟩)
        (fun hn => by rw [e1] at hn; cases hn)
    · rw [hL]
      exact delimiterOutcome_eq LexicalAnalyzer _ c _ _
        (fun k1 hk1 => by
          rw [e2] at hk1
          cases hk1
          exact ⟨e3, e4, e6⟩)
        (fun hn => by rw [e2] at hn; cases hn)
    · exact ⟨fun _ => hd, fun _ => by rw [e1]; simp⟩
    · intro k1 hk1
      rw [e1] at hk1
      cases hk1
      exact ⟨e4, e5⟩
    · intro k1 hk1
      rw [e2] at hk1
      cases hk1
      exact ⟨e4, e6⟩
  · obtain ⟨e1, e2, e3⟩ := delimiterKind_none c hc hd
    refine ⟨?_, ?_, ?_, ?_, ?_⟩
    · rw [hS]
      exact delimiterOutcome_eq SyntaxAnalyzer _ c _ _
        (fun k1 hk1 => by rw [e1] at hk1; cases hk1) (fun _ => e3)
    · rw [hL]
      exact delimiterOutcome_eq LexicalAnalyzer _ c _ _
        (fun k1 hk1 => by rw [e2] at hk1; cases hk1) (fun _ => e3)
    · exact ⟨fun h => absurd e1 h, fun h => absurd h hd⟩
    · intro k1 hk1
      rw [e1] at hk1
      cases hk1
    · intro k1 hk1
      rw [e2] at hk1
      cases hk1

/-- Two runs on a fresh scanner: ` ;x` gives SEMICOLON with payload 1 and leaves
`x`; on `#` the character `#` is thrown. -/
theorem getToken_delimiter_kind_runs :
    Scanner.getToken SyntaxAnalyzer 2 (Scanner.open " ;x".toList ' ') Globals.start =
        .ret (⟨TokenType.SEMICOLON, 1⟩, ⟨⟨"; ".toList, ['x'], false, false, false⟩, ';'⟩,
          Globals.start) ∧
      Scanner.getToken SyntaxAnalyzer 1 (Scanner.open "#".toList ' ') Globals.start =
        .raise (.character '#') :=
  ⟨(getToken_delimiter_kind [' '] ['x'] ';' (ifstream.opened " ;x".toList) ' '
      Globals.start 0 (by decide) (by decide) rfl rfl (by decide) (by decide) (by decide)
      (by decide)).1.trans (by decide!),
    (getToken_delimiter_kind [] [] '#' (ifstream.opened "#".toList) ' '
      Globals.start 0 (by decide) (by decide) rfl rfl (by decide) (by decide) (by decide)
      (by decide)).1.trans (by decide!)⟩

/-! ## The two copies of the scanner -/

theorem serviceWord_lookup (b : List Char) :
    (b = "while".toList ∧
        tableLookup b SyntaxAnalyzer.serviceWordTable SyntaxAnalyzer.serviceWordAmount = 10 ∧
        tableLookup b LexicalAnalyzer.serviceWordTable LexicalAnalyzer.serviceWordAmount = 0) ∨
      (b ≠ "while".toList ∧
        tableLookup b LexicalAnalyzer.serviceWordTable LexicalAnalyzer.serviceWordAmount ≤ 13 ∧
        tableLookup b SyntaxAnalyzer.serviceWordTable SyntaxAnalyzer.serviceWordAmount =
          if tableLookup b LexicalAnalyzer.serviceWordTable
              LexicalAnalyzer.serviceWordAmount < 10
          then tableLookup b LexicalAnalyzer.serviceWordTable LexicalAnalyzer.serviceWordAmount
          else tableLookup b LexicalAnalyzer.serviceWordTable
            LexicalAnalyzer.serviceWordAmount + 1) := by
  by_cases h : b ∈ SyntaxAnalyzer.serviceWordTable
  · have hall : ∀ x ∈ SyntaxAnalyzer.serviceWordTable,
        (x = "while".toList ∧
          tableLookup x SyntaxAnalyzer.serviceWordTable SyntaxAnalyzer.serviceWordAmount = 10 ∧
          tableLookup x LexicalAnalyzer.serviceWordTable
            LexicalAnalyzer.serviceWordAmount = 0) ∨
        (x ≠ "while".toList ∧
          tableLookup x LexicalAnalyzer.serviceWordTable
            LexicalAnalyzer.serviceWordAmount ≤ 13 ∧
          tableLookup x SyntaxAnalyzer.serviceWordTable SyntaxAnalyzer.serviceWordAmount =
            if tableLookup x LexicalAnalyzer.serviceWordTable
                LexicalAnalyzer.serviceWordAmount < 10
            then tableLookup x LexicalAnalyzer.serviceWordTable
              LexicalAnalyzer.serviceWordAmount
            else tableLookup x LexicalAnalyzer.serviceWordTable
              LexicalAnalyzer.serviceWordAmount + 1) := by
      decide!
    exact hall b h
  · have hsub : ∀ x ∈ LexicalAnalyzer.serviceWordTable, x ∈ SyntaxAnalyzer.serviceWordTable := by
      decide!
    have hL : b ∉ LexicalAnalyzer.serviceWordTable := fun k => h (hsub b k)
    have eS : tableLookup b SyntaxAnalyzer.serviceWordTable SyntaxAnalyzer.serviceWordAmount
        = 0 := by
      rw [show SyntaxAnalyzer.serviceWordAmount = SyntaxAnalyzer.serviceWordTable.length
        from rfl, tableLookup_eq, if_neg h]
    have eL : tableLookup b LexicalAnalyzer.serviceWordTable
        LexicalAnalyzer.serviceWordAmount = 0 := by
      rw [show LexicalAnalyzer.serviceWordAmount = LexicalAnalyzer.serviceWordTable.length
        from rfl, tableLookup_eq, if_neg hL]
    refine Or.inr ⟨?_, ?_, ?_⟩
    · intro e
      rw [e] at h
      exact h (by decide!)
    · rw [eL]; omega
    · rw [eS, eL]; rfl

theorem promote_of_ge (k : Nat) (v : Int) (h : 14 ≤ k) : promote ⟨⟨k⟩, v⟩ = ⟨⟨k + 1⟩, v⟩ := by
  have h1 : ¬ k < 10 := by omega
  have h2 : ¬ (10 ≤ k ∧ k ≤ 13) := by omega
  simp [promote, promoteKind, h1, h2]

theorem promote_keyword (k : Nat) (h : k ≤ 13) :
    promote ⟨⟨k⟩, (k : Nat)⟩ =
      ⟨⟨if k < 10 then k else k + 1⟩, ((if k < 10 then k else k + 1 : Nat) : Int)⟩ := by
  by_cases h1 : k < 10
  · have h2 : ¬ (10 ≤ k ∧ k ≤ 13) := by omega
    simp [promote, promoteKind, h1, h2]
  · have h2 : 10 ≤ k ∧ k ≤ 13 := by omega
    simp [promote, promoteKind, h1, h2]

theorem Pass.agrees_ite (g : Globals) (c : Prop) [Decidable c] (a b a2 b2 : Pass)
    (ha : c → Pass.Agrees g a a2) (hb : ¬c → Pass.Agrees g b b2) :
    Pass.Agrees g (if c then a else b) (if c then a2 else b2) := by
  by_cases h : c
  · rw [if_pos h, if_pos h]; exact ha h
  · rw [if_neg h, if_neg h]; exact hb h

theorem Pass.agrees_delimiter (g g1 : Globals) (n : Nat) (s : Scanner) :
    Pass.Agrees g
      (.token ⟨⟨n + LexicalAnalyzer.FINAL.toInt⟩, (n : Nat)⟩ s g1)
      (.token ⟨⟨n + SyntaxAnalyzer.FINAL.toInt⟩, (n : Nat)⟩ s g1) := by
  refine Or.inl ?_
  have e := promote_of_ge (n + 14) (n : Nat) (by omega)
  simp only [Pass.promoted]
  exact congrArg (fun t => Pass.token t s g1) e.symm

theorem lessGreater_agrees (g : Globals) (isAssign : Bool) (buf : List Char) (s : Scanner)
    (g1 : Globals) :
    Pass.Agrees g (lessGreater LexicalAnalyzer isAssign buf s g1)
      (lessGreater SyntaxAnalyzer isAssign buf s g1) := by
  unfold lessGreater
  cases isAssign
  · exact Pass.agrees_delimiter g g1 _ _
  · exact Pass.agrees_delimiter g g1 _ _

theorem Pass.agrees_const (g g1 : Globals) (k : Nat) (v : Int) (s : Scanner) (h : 14 ≤ k) :
    Pass.Agrees g (.token ⟨⟨k⟩, v⟩ s g1) (.token ⟨⟨k + 1⟩, v⟩ s g1) :=
  Or.inl (congrArg (fun t => Pass.token t s g1) (promote_of_ge k v h).symm)

theorem getTokenPass_agrees (l : Locals) (s : Scanner) (g : Globals) :
    Pass.Agrees g (getTokenPass LexicalAnalyzer l s g) (getTokenPass SyntaxAnalyzer l s g) := by
  obtain ⟨st, buf, num⟩ := l
  cases st
  case INITIALIZATION =>
    simp only [getTokenPass]
    generalize s.getCharacter = s1
    refine Pass.agrees_ite _ _ _ _ _ _ (fun _ => Pass.agrees_const g g 14 0 s1 (by decide))
      (fun _ => ?_)
    refine Pass.agrees_ite _ _ _ _ _ _ (fun _ => Or.inl rfl) (fun _ => ?_)
    refine Pass.agrees_ite _ _ _ _ _ _ (fun _ => Or.inl rfl) (fun _ => ?_)
    refine Pass.agrees_ite _ _ _ _ _ _ (fun _ => Or.inl rfl) (fun _ => ?_)
    refine Pass.agrees_ite _ _ _ _ _ _ (fun _ => Or.inl rfl) (fun _ => ?_)
    refine Pass.agrees_ite _ _ _ _ _ _ (fun _ => Or.inl rfl) (fun _ => ?_)
    refine Pass.agrees_ite _ _ _ _ _ _ (fun _ => Or.inl rfl) (fun _ => ?_)
    refine Pass.agrees_ite _ _ _ _ _ _ (fun _ => Or.inl rfl) (fun _ => ?_)
    exact Pass.agrees_ite _ _ _ _ _ _ (fun _ => Pass.agrees_delimiter g g _ _)
      (fun _ => Or.inl rfl)
  case IDENTIFIER =>
    simp only [getTokenPass]
    generalize s.getCharacter = s1
    refine Pass.agrees_ite _ _ _ _ _ _ (fun _ => Or.inl rfl) (fun _ => ?_)
    rcases serviceWord_lookup buf with ⟨hb, hS, hL⟩ | ⟨_, hle, hS⟩
    · rw [hS, hL, hb]
      exact Or.inr ⟨_, rfl, rfl⟩
    · rw [hS]
      by_cases h0 : tableLookup buf LexicalAnalyzer.serviceWordTable
          LexicalAnalyzer.serviceWordAmount = 0
      · rw [h0]
        exact Pass.agrees_const g _ 35 _ _ (by decide)
      · have h1 : (if tableLookup buf LexicalAnalyzer.serviceWordTable
              LexicalAnalyzer.serviceWordAmount < 10
            then tableLookup buf LexicalAnalyzer.serviceWordTable
              LexicalAnalyzer.serviceWordAmount
            else tableLookup buf LexicalAnalyzer.serviceWordTable
              LexicalAnalyzer.serviceWordAmount + 1) ≠ 0 := by
          split_ifs <;> omega
        rw [if_pos h0, if_pos h1]
        exact Or.inl (congrArg (fun t => Pass.token t _ g) (promote_keyword _ hle).symm)
  case NUMBER =>
    simp only [getTokenPass]
    exact Pass.agrees_ite _ _ _ _ _ _ (fun _ => Or.inl rfl)
      (fun _ => Pass.agrees_const g g 34 _ _ (by decide))
  case COMMENT =>
    simp only [getTokenPass]
    exact Or.inl (by split_ifs <;> rfl)
  case STRING =>
    simp only [getTokenPass]
    exact Pass.agrees_ite _ _ _ _ _ _ (fun _ => Pass.agrees_const g _ 36 _ _ (by decide))
      (fun _ => lessGreater_agrees g _ _ _ _)
  case LESS_GREATER =>
    simp only [getTokenPass]
    exact lessGreater_agrees g _ _ _ _
  case NOT_EQUAL =>
    simp only [getTokenPass]
    exact Pass.agrees_ite _ _ _ _ _ _ (fun _ => Pass.agrees_const g g 23 _ _ (by decide))
      (fun _ => Or.inl rfl)
  case DELIMITER =>
    simp only [getTokenPass]
    exact Or.inl rfl

theorem getTokenLoop_agrees (fuel : Nat) :
    ∀ (l : Locals) (s : Scanner) (g : Globals),
      getTokenLoop SyntaxAnalyzer fuel l s g =
          (getTokenLoop LexicalAnalyzer fuel l s g).map
            (fun r => (promote r.1, r.2.1, r.2.2)) ∨
        ∃ (s1 : Scanner) (g1 : Globals),
          getTokenLoop SyntaxAnalyzer fuel l s g = .ret (⟨TokenType.WHILE, 10⟩, s1, g1) ∧
          getTokenLoop LexicalAnalyzer fuel l s g =
            .ret (⟨LexicalAnalyzer.TokenType.IDENTIFIER, (addToIT "while".toList g1).1⟩, s1,
              (addToIT "while".toList g1).2) := by
  induction fuel with
  | zero => intro l s g; exact Or.inl rfl
  | succ n ih =>
    intro l s g
    simp only [getTokenLoop]
    rcases getTokenPass_agrees l s g with e | ⟨s1, eS, eL⟩
    · rw [e]
      cases hq : getTokenPass LexicalAnalyzer l s g with
      | again l2 s2 g2 => exact ih l2 s2 g2
      | token t s2 g2 => exact Or.inl rfl
      | thrown e2 => exact Or.inl rfl
    · rw [eS, eL]
      exact Or.inr ⟨s1, g, rfl, rfl⟩

theorem getTokens_agree (fuel : Nat) :
    ∀ (calls : Nat) (s : Scanner) (g : Globals),
      Scanner.getTokens SyntaxAnalyzer fuel calls s g =
          (Scanner.getTokens LexicalAnalyzer fuel calls s g).map
            (fun r => (r.1.map promote, r.2.1, r.2.2)) ∨
        ∃ (i : Nat) (ts : List Token) (s1 s2 : Scanner) (g1 g2 : Globals), i < calls ∧
          Scanner.getTokens SyntaxAnalyzer fuel i s g = .ret (ts, s1, g1) ∧
          s1.getToken SyntaxAnalyzer fuel g1 = .ret (⟨TokenType.WHILE, 10⟩, s2, g2) := by
  intro calls
  induction calls with
  | zero => intro s g; exact Or.inl rfl
  | succ k ih =>
    intro s g
    rcases getTokenLoop_agrees fuel ⟨.INITIALIZATION, [], 0⟩ s g with e | ⟨s1, g1, eS, _⟩
    · cases hq : Scanner.getToken LexicalAnalyzer fuel s g with
      | ret r =>
        obtain ⟨t, s1, g1⟩ := r
        have eS : Scanner.getToken SyntaxAnalyzer fuel s g = .ret (promote t, s1, g1) := by
          rw [Scanner.getToken] at hq ⊢
          rw [e, hq]
          rfl
        rcases ih s1 g1 with e2 | ⟨i, ts, s2, s3, g2, g3, hi, h1, h2⟩
        · refine Or.inl ?_
          simp only [Scanner.getTokens, eS, hq, e2]
          cases Scanner.getTokens LexicalAnalyzer fuel k s1 g1 with
          | ret r2 => rfl
          | raise e3 => rfl
          | timeout => rfl
        · refine Or.inr ⟨i + 1, promote t :: ts, s2, s3, g2, g3, by omega, ?_, h2⟩
          simp only [Scanner.getTokens, eS, h1]
      | raise e3 =>
        have eS : Scanner.getToken SyntaxAnalyzer fuel s g = .raise e3 := by
          rw [Scanner.getToken] at hq ⊢
          rw [e, hq]
          rfl
        refine Or.inl ?_
        simp only [Scanner.getTokens, eS, hq]
        rfl
      | timeout =>
        have eS : Scanner.getToken SyntaxAnalyzer fuel s g = .timeout := by
          rw [Scanner.getToken] at hq ⊢
          rw [e, hq]
          rfl
        refine Or.inl ?_
        simp only [Scanner.getTokens, eS, hq]
        rfl
    · exact Or.inr ⟨0, [], s, s1, g, g1, by omega, rfl, eS⟩

/-- C22, amended.  From every common state (stream, `m_character`, tables) and with every
fuel, one call of `getToken` in `syntax_analyzer.cpp` gives what the call in
`lexical_analyzer.cpp` gives, with the kind of the token renumbered by name (`promote`:
from AND on the enumerators of `syntax_analyzer.cpp` are one more, and so are the
keyword indices of `and`, `or`, `not`, `program`): the same exception or the same
non-termination, the same stream position and the same tables.  The one exception is
the word `while`: there `syntax_analyzer.cpp` returns the keyword token WHILE with payload
10 and `lexical_analyzer.cpp` returns IDENTIFIER and enters `while` in its Identifier
Table.  Hence any number of successive calls agree in the same way, unless
`syntax_analyzer.cpp` has returned a WHILE token. -/
theorem C22_scanners_agree_except_while (fuel : Nat) (s : Scanner) (g : Globals) :
    (s.getToken SyntaxAnalyzer fuel g =
        (s.getToken LexicalAnalyzer fuel g).map (fun r => (promote r.1, r.2.1, r.2.2)) ∨
      ∃ (s1 : Scanner) (g1 : Globals),
        s.getToken SyntaxAnalyzer fuel g = .ret (⟨TokenType.WHILE, 10⟩, s1, g1) ∧
        s.getToken LexicalAnalyzer fuel g =
          .ret (⟨LexicalAnalyzer.TokenType.IDENTIFIER, (addToIT "while".toList g1).1⟩, s1,
            (addToIT "while".toList g1).2)) ∧
    ∀ calls : Nat,
      Scanner.getTokens SyntaxAnalyzer fuel calls s g =
          (Scanner.getTokens LexicalAnalyzer fuel calls s g).map
            (fun r => (r.1.map promote, r.2.1, r.2.2)) ∨
        ∃ (i : Nat) (ts : List Token) (s1 s2 : Scanner) (g1 g2 : Globals), i < calls ∧
          Scanner.getTokens SyntaxAnalyzer fuel i s g = .ret (ts, s1, g1) ∧
          s1.getToken SyntaxAnalyzer fuel g1 = .ret (⟨TokenType.WHILE, 10⟩, s2, g2) :=
  ⟨getTokenLoop_agrees fuel _ s g, fun calls => getTokens_agree fuel calls s g⟩

/-- C22 fails at the word `while` and at the keywords after it.  On the text `while(` the
scanner of `syntax_analyzer.cpp` returns the keyword token WHILE with payload 10, the
scanner of `lexical_analyzer.cpp` an IDENTIFIER token with payload 0, and its Identifier
Table then holds the name `while`.  On the text `and;` both return the kind named AND,
but it is the value 11 with payload 11 in `syntax_analyzer.cpp` and the value 10 with
payload 10 in `lexical_analyzer.cpp`. -/
theorem C22_while_is_an_identifier_for_the_tokenizer :
    (Scanner.getToken SyntaxAnalyzer 10 (Scanner.open "while(".toList ' ') Globals.start).map
        (fun r => (r.1, r.2.2.names)) = .ret (⟨TokenType.WHILE, 10⟩, []) ∧
      (Scanner.getToken LexicalAnalyzer 10 (Scanner.open "while(".toList ' ')
          Globals.start).map (fun r => (r.1, r.2.2.names)) =
        .ret (⟨LexicalAnalyzer.TokenType.IDENTIFIER, 0⟩, ["while".toList]) ∧
      (Scanner.getToken SyntaxAnalyzer 10 (Scanner.open "and;".toList ' ') Globals.start).map
        (fun r => r.1) = .ret ⟨TokenType.AND, 11⟩ ∧
      (Scanner.getToken LexicalAnalyzer 10 (Scanner.open "and;".toList ' ')
          Globals.start).map (fun r => r.1) = .ret ⟨LexicalAnalyzer.TokenType.AND, 10⟩ ∧
      TokenType.WHILE ≠ promoteKind LexicalAnalyzer.TokenType.IDENTIFIER := by
  decide!


/-! ## The tokens a normal completion has walked over -/

theorem Parser.Walk.trans {fuel : Nat} {p q r : Parser} {g h k : Globals}
    (a : Parser.Walk fuel p g q h) (b : Parser.Walk fuel q h r k) :
    Parser.Walk fuel p g r k := by
  induction a with
  | refl => exact b
  | step p g p1 g1 q h hl hg _ ih => exact Parser.Walk.step p g p1 g1 _ _ hl hg (ih b)

theorem Parser.pull_le (f F : Nat) (hf : f ≤ F) (p : Parser) (g : Globals)
    (x : Parser × Globals) (h : p.getToken f g = .ret x) : p.getToken F g = .ret x := by
  obtain ⟨k, rfl⟩ := Nat.exists_eq_add_of_le hf
  exact Parser.pull_ret_mono f p g x h k

theorem Parser.Walk.one {f F : Nat} (hf : f ≤ F) {p p1 : Parser} {g g1 : Globals}
    (hl : p.m_tokenType.isLiteral = false) (h : p.getToken f g = .ret (p1, g1)) :
    Parser.Walk F p g p1 g1 :=
  Parser.Walk.step p g p1 g1 p1 g1 hl (Parser.pull_le f F hf p g _ h) (Parser.Walk.refl p1 g1)

/-- C3, refuted at an example.  In `program{ int x = 1, y z; }` the declared identifier
`y` is followed by the identifier `z`, which is none of ASSIGN, COMMA and SEMICOLON, yet
`analyze()` does not raise "invalid type of token": whatever the uninitialised
`m_character` holds it raises "expected constant!", and with no fuel does it raise
"invalid type of token" or complete, because `constant()` rejects the unsigned
initialiser `1` of the item before.  With the signed initialiser `+1` in its place, "invalid type of token"
is raised at `z`. -/
theorem C3_unsigned_initialiser_answers_first (garbage : Char) :
    (Parser.make "program\x7b int x = 1, y z; \x7d".toList garbage).analyze 30 Globals.start =
        .raise (.runtime_error "[Parser]: expected constant!") ∧
      (∀ fuel : Nat,
        (Parser.make "program\x7b int x = 1, y z; \x7d".toList garbage).analyze fuel
            Globals.start ≠ .raise (.runtime_error "[Parser]: invalid type of token!")) ∧
      (∀ (fuel : Nat) (x : Parser × Globals),
        (Parser.make "program\x7b int x = 1, y z; \x7d".toList garbage).analyze fuel
            Globals.start ≠ .ret x) ∧
      (Parser.make "program\x7b int x = +1, y z; \x7d".toList garbage).analyze 30
          Globals.start =
        .raise (.runtime_error "[Parser]: invalid type of token!") := by
  have key : ∀ c ∈ ['@', '=', '"', ' '],
      (Parser.make "program\x7b int x = 1, y z; \x7d".toList c).analyze 30 Globals.start =
          .raise (.runtime_error "[Parser]: expected constant!") ∧
        (Parser.make "program\x7b int x = +1, y z; \x7d".toList c).analyze 30 Globals.start =
          .raise (.runtime_error "[Parser]: invalid type of token!") := by
    decide!
  obtain ⟨k1, k2⟩ := key _ (flagClass_mem garbage)
  have h1 := (analyze_garbage 30 _ garbage Globals.start (by decide)).trans k1
  have h2 := (analyze_garbage 30 _ garbage Globals.start (by decide)).trans k2
  refine ⟨h1, fun fuel => ?_, fun fuel x => ?_, h2⟩
  · exact Outcome.ne_of_fuel_cases
      (Parser.analyze_fuel_cases 30 fuel _ _ (by rw [h1]; simp)) (by rw [h1]; decide)
      (by simp)
  · exact Outcome.ne_of_fuel_cases
      (Parser.analyze_fuel_cases 30 fuel _ _ (by rw [h1]; simp)) (by rw [h1]; simp) (by simp)

/-- C13, refuted at two examples.  On the text `x""!y`, whatever the uninitialised
`m_character` holds, two calls of `getToken` return IDENTIFIER and STRING_CONST and
leave `!y` to read, with the closing quote in `m_character`; the third call, which
starts at the `!`, raises nothing: `isString`, computed from that quote, sends the `!`
to `case State::STRING`, whose fall-through returns a token of kind FINAL with payload
0, and no amount of fuel makes it raise.  On the text `x@@!y` the call that starts at
the comment raises "eof in the middle of comment!" and not the error for `!`.  Where
the character before the `!` is neither `@` nor `"` (or a blank precedes the `!`), the
error for `!` is raised, in both translation units. -/
theorem C13_bang_after_quote_not_reported (garbage : Char) :
    (Scanner.getTokens SyntaxAnalyzer 30 2 (Scanner.open "x\"\"!y".toList garbage)
          Globals.start).map (fun r => (r.1, r.2.1.m_file.remaining, r.2.1.m_character)) =
        .ret ([⟨TokenType.IDENTIFIER, 0⟩, ⟨TokenType.STRING_CONST, 0⟩], "!y".toList, '"') ∧
      (Scanner.getTokens SyntaxAnalyzer 30 3 (Scanner.open "x\"\"!y".toList garbage)
          Globals.start).map (fun r => (r.1, r.2.1.m_file.remaining)) =
        .ret ([⟨TokenType.IDENTIFIER, 0⟩, ⟨TokenType.STRING_CONST, 0⟩,
          ⟨TokenType.FINAL, 0⟩], "y".toList) ∧
      (∀ (fuel : Nat) (e : Exception),
        Scanner.getTokens SyntaxAnalyzer fuel 3 (Scanner.open "x\"\"!y".toList garbage)
          Globals.start ≠ .raise e) ∧
      (Scanner.getTokens SyntaxAnalyzer 30 1 (Scanner.open "x@@!y".toList garbage)
          Globals.start).map (fun r => (r.1, r.2.1.m_file.remaining, r.2.1.m_character)) =
        .ret ([⟨TokenType.IDENTIFIER, 0⟩], "@@!y".toList, '@') ∧
      Scanner.getTokens SyntaxAnalyzer 30 2 (Scanner.open "x@@!y".toList garbage)
          Globals.start =
        .raise (.runtime_error "[Scanner::getToken]: eof in the middle of comment!") ∧
      (∀ (U : TranslationUnit) (ws rest : List Char) (f : ifstream) (m : Char) (g : Globals)
        (more : Nat), (∀ x ∈ ws, isspace x = true) → (ws = [] → m ≠ '@' ∧ m ≠ '"') →
        f.good = true → f.remaining = ws ++ '!' :: rest →
        Scanner.getToken U (ws.length + (2 + more)) ⟨f, m⟩ g =
          .raise (.runtime_error "[Scanner::getToken]: unexpected symbol '!'.")) := by
  have key : ∀ c ∈ ['@', '=', '"', ' '],
      (Scanner.getTokens SyntaxAnalyzer 30 2 (Scanner.open "x\"\"!y".toList c)
            Globals.start).map (fun r => (r.1, r.2.1.m_file.remaining, r.2.1.m_character)) =
          .ret ([⟨TokenType.IDENTIFIER, 0⟩, ⟨TokenType.STRING_CONST, 0⟩], "!y".toList, '"') ∧
        (Scanner.getTokens SyntaxAnalyzer 30 3 (Scanner.open "x\"\"!y".toList c)
            Globals.start).map (fun r => (r.1, r.2.1.m_file.remaining)) =
          .ret ([⟨TokenType.IDENTIFIER, 0⟩, ⟨TokenType.STRING_CONST, 0⟩,
            ⟨TokenType.FINAL, 0⟩], "y".toList) ∧
        (Scanner.getTokens SyntaxAnalyzer 30 1 (Scanner.open "x@@!y".toList c)
            Globals.start).map (fun r => (r.1, r.2.1.m_file.remaining, r.2.1.m_character)) =
          .ret ([⟨TokenType.IDENTIFIER, 0⟩], "@@!y".toList, '@') ∧
        Scanner.getTokens SyntaxAnalyzer 30 2 (Scanner.open "x@@!y".toList c)
            Globals.start =
          .raise (.runtime_error "[Scanner::getToken]: eof in the middle of comment!") := by
    decide!
  obtain ⟨k1, k2, k3, k4⟩ := key _ (flagClass_mem garbage)
  have h2 := (congrArg (Outcome.map _)
    (getTokens_garbage SyntaxAnalyzer 30 2 _ garbage Globals.start (by decide))).trans k2
  refine ⟨(congrArg (Outcome.map _)
      (getTokens_garbage SyntaxAnalyzer 30 1 _ garbage Globals.start (by decide))).trans k1,
    h2, fun fuel e => ?_,
    (congrArg (Outcome.map _)
      (getTokens_garbage SyntaxAnalyzer 30 0 _ garbage Globals.start (by decide))).trans k3,
    (getTokens_garbage SyntaxAnalyzer 30 1 _ garbage Globals.start (by decide)).trans k4,
    fun U ws rest f m g more hws hprev hgood hrem =>
      getToken_bang U ws rest f m g more hws hprev hgood hrem⟩
  obtain ⟨a, ha, _⟩ := Outcome.map_eq_ret h2
  exact Outcome.ne_of_fuel_cases
    (getTokens_fuel_cases SyntaxAnalyzer 30 fuel 3 _ _ (by rw [ha]; simp))
    (by rw [ha]; simp) (by simp)

/-- C21, refuted at three examples.  On the text `x"";y`, whatever the uninitialised
`m_character` holds, two calls of `getToken` return IDENTIFIER and STRING_CONST and
leave `;y` to read, with the closing quote in `m_character`; the third call reads the
`;` in the state INITIALIZATION and returns no SEMICOLON token: `isString`, computed
from that quote, sends it to `case State::STRING`, and the fall-through returns a token
of kind FINAL with payload 0 and leaves `y`.  On the text `x""@#` the third call
returns a token for the failed lookup of `#`, index 0 of the delimiter table: kind
0 + FINAL and payload 0.  On the text `x@@;` the second call raises "eof in the middle
of comment!".  Where the character before `c` is neither `@` nor `"` (or a blank
precedes `c`), the delimiter token named for `c` is returned or `c` is thrown. -/
theorem C21_delimiter_after_quote_not_returned (garbage : Char) :
    (Scanner.getTokens SyntaxAnalyzer 30 2 (Scanner.open "x\"\";y".toList garbage)
          Globals.start).map (fun r => (r.1, r.2.1.m_file.remaining, r.2.1.m_character)) =
        .ret ([⟨TokenType.IDENTIFIER, 0⟩, ⟨TokenType.STRING_CONST, 0⟩], ";y".toList, '"') ∧
      (Scanner.getTokens SyntaxAnalyzer 30 3 (Scanner.open "x\"\";y".toList garbage)
          Globals.start).map (fun r => (r.1, r.2.1.m_file.remaining)) =
        .ret ([⟨TokenType.IDENTIFIER, 0⟩, ⟨TokenType.STRING_CONST, 0⟩,
          ⟨TokenType.FINAL, 0⟩], "y".toList) ∧
      (∀ (fuel : Nat) (x : List Token × Scanner × Globals),
        Scanner.getTokens SyntaxAnalyzer fuel 3 (Scanner.open "x\"\";y".toList garbage)
            Globals.start = .ret x →
          x.1 = [⟨TokenType.IDENTIFIER, 0⟩, ⟨TokenType.STRING_CONST, 0⟩,
            ⟨TokenType.FINAL, 0⟩]) ∧
      ((Scanner.getTokens SyntaxAnalyzer 30 3 (Scanner.open "x\"\"@#".toList garbage)
          Globals.start).map (fun r => (r.1, r.2.1.m_file.remaining)) =
        .ret ([⟨TokenType.IDENTIFIER, 0⟩, ⟨TokenType.STRING_CONST, 0⟩,
          ⟨⟨tableLookup ['#'] delimiterTable delimiterAmount + TokenType.FINAL.toInt⟩,
            (tableLookup ['#'] delimiterTable delimiterAmount : Nat)⟩], "#".toList) ∧
        tableLookup ['#'] delimiterTable delimiterAmount = 0) ∧
      Scanner.getTokens SyntaxAnalyzer 30 2 (Scanner.open "x@@;".toList garbage)
          Globals.start =
        .raise (.runtime_error "[Scanner::getToken]: eof in the middle of comment!") ∧
      (∀ (ws rest : List Char) (c : Char) (f : ifstream) (m : Char) (g : Globals)
        (more : Nat), (∀ x ∈ ws, isspace x = true) → (ws = [] → m ≠ '@' ∧ m ≠ '"') →
        f.good = true → f.remaining = ws ++ c :: rest → isspace c = false →
        isalpha c = false → isdigit c = false → c ∉ [':', '<', '>', '!'] →
        Scanner.getToken SyntaxAnalyzer (ws.length + (1 + more)) ⟨f, m⟩ g =
          delimiterOutcome (delimiterKind c) c ⟨f.advanced (ws ++ [c]) rest, c⟩
            (g.countLines ws)) := by
  have key : ∀ c ∈ ['@', '=', '"', ' '],
      (Scanner.getTokens SyntaxAnalyzer 30 2 (Scanner.open "x\"\";y".toList c)
            Globals.start).map (fun r => (r.1, r.2.1.m_file.remaining, r.2.1.m_character)) =
          .ret ([⟨TokenType.IDENTIFIER, 0⟩, ⟨TokenType.STRING_CONST, 0⟩], ";y".toList, '"') ∧
        (Scanner.getTokens SyntaxAnalyzer 30 3 (Scanner.open "x\"\";y".toList c)
            Globals.start).map (fun r => (r.1, r.2.1.m_file.remaining)) =
          .ret ([⟨TokenType.IDENTIFIER, 0⟩, ⟨TokenType.STRING_CONST, 0⟩,
            ⟨TokenType.FINAL, 0⟩], "y".toList) ∧
        ((Scanner.getTokens SyntaxAnalyzer 30 3 (Scanner.open "x\"\"@#".toList c)
            Globals.start).map (fun r => (r.1, r.2.1.m_file.remaining)) =
          .ret ([⟨TokenType.IDENTIFIER, 0⟩, ⟨TokenType.STRING_CONST, 0⟩,
            ⟨⟨tableLookup ['#'] delimiterTable delimiterAmount + TokenType.FINAL.toInt⟩,
              (tableLookup ['#'] delimiterTable delimiterAmount : Nat)⟩], "#".toList) ∧
          tableLookup ['#'] delimiterTable delimiterAmount = 0) ∧
        Scanner.getTokens SyntaxAnalyzer 30 2 (Scanner.open "x@@;".toList c)
            Globals.start =
          .raise (.runtime_error "[Scanner::getToken]: eof in the middle of comment!") := by
    decide!
  obtain ⟨k1, k2, ⟨k3, k3b⟩, k4⟩ := key _ (flagClass_mem garbage)
  have h2 := (congrArg (Outcome.map _)
    (getTokens_garbage SyntaxAnalyzer 30 2 _ garbage Globals.start (by decide))).trans k2
  refine ⟨(congrArg (Outcome.map _)
      (getTokens_garbage SyntaxAnalyzer 30 1 _ garbage Globals.start (by decide))).trans k1,
    h2, fun fuel x hx => ?_,
    ⟨(congrArg (Outcome.map _)
      (getTokens_garbage SyntaxAnalyzer 30 2 _ garbage Globals.start (by decide))).trans k3,
      k3b⟩,
    (getTokens_garbage SyntaxAnalyzer 30 1 _ garbage Globals.start (by decide)).trans k4,
    fun ws rest c f m g more hws hprev hgood hrem hspace halpha hdigit hc =>
      (getToken_delimiter_kind ws rest c f m g more hws hprev hgood hrem hspace halpha
        hdigit hc).1⟩
  obtain ⟨a, ha, hb⟩ := Outcome.map_eq_ret h2
  rcases getTokens_fuel_cases SyntaxAnalyzer 30 fuel 3 _ _ (by rw [ha]; simp) with e | e
  · rw [e, ha] at hx
    simp only [Outcome.ret.injEq] at hx
    rw [← hx]
    exact (Prod.mk.inj hb).1
  · rw [e] at hx
    cases hx

end Toy
